import Mathlib

/-!
# Dungeon crawler: level loading, grid resize, player move and monster pursuit

A shallow embedding of `src/logic.cpp` (`loadLevel`, `resizeMap`, `doPlayerMove`,
`doMonsterAttack`) together with the properties of the specification that concern them.

Modelling conventions.

* The C++ `char** map` is a list of rows, each a list of characters.  The dimensions
  `maxRow`, `maxCol` are passed separately, exactly as in the source; `IsGrid map rows cols`
  says that the allocated array really has `rows` rows of `cols` cells.
* Every array access is checked: `readCell` and `writeCell` return `none` when the index is
  outside the allocated array.  A function of the program returns `none` precisely when it
  indexes the map outside its bounds, which is undefined behaviour in C++.
* The C++ `int` is modelled by `Int`.  The counter `player.treasure++` is computed as a
  32-bit two's-complement `int` (`wrapInt`), so that it wraps at 2147483647; the arithmetic on
  indices and dimensions (`maxRow * 2`, `i + 1`, ...) is taken without overflow.
* A counting `for` loop is a structural recursion on its remaining trip count, the loop
  variable being carried along as an `Int`.
* The level file is the list of its characters.  An input stream is the list of the characters
  not yet read together with its fail state; `loadLevel` opens the file twice and reads the
  same content both times.  A read of the variable `tile` before any value was stored in it is
  undefined behaviour, and makes `loadLevel` return `none` as well.
-/

namespace Dungeon

/-- A dungeon map: the rows of the C++ `char**` array. -/
abbrev Grid := List (List Char)

/-- Modelled from the spec: the `Player` record declared in `logic.h`, which is not part of
the sources; it holds the row, the column and the accumulated treasure count. -/
structure Player where
  row : Int
  col : Int
  treasure : Int
deriving DecidableEq, Repr

/-- The array really holds `rows` rows of `cols` cells each. -/
def IsGrid (map : Grid) (rows cols : Int) : Prop :=
  (map.length : Int) = rows ∧ ∀ row ∈ map, (row.length : Int) = cols

instance (map : Grid) (rows cols : Int) : Decidable (IsGrid map rows cols) := by
  unfold IsGrid; infer_instance

/-- The read `map[r][c]`; `none` when the index is outside the array. -/
def readCell (map : Grid) (r c : Int) : Option Char :=
  if 0 ≤ r ∧ 0 ≤ c then
    match map[r.toNat]? with
    | none => none
    | some row => row[c.toNat]?
  else none

/-- The write `map[r][c] = v`; `none` when the index is outside the array. -/
def writeCell (map : Grid) (r c : Int) (v : Char) : Option Grid :=
  if 0 ≤ r ∧ 0 ≤ c then
    match map[r.toNat]? with
    | none => none
    | some row =>
      if c.toNat < row.length then some (map.set r.toNat (row.set c.toNat v)) else none
  else none

/-! ## resizeMap -/

/-- The allocation `new char*[maxRow]` followed by `new char[maxCol]` for each row.  The cells
are uninitialised in C++; they hold a placeholder here and are all overwritten before use.
A negative size makes the allocation fail. -/
def allocMap (maxRow maxCol : Int) : Option Grid :=
  if maxRow < 0 ∨ (0 < maxRow ∧ maxCol < 0) then none
  else some (List.replicate maxRow.toNat (List.replicate maxCol.toNat (Char.ofNat 0)))

/-- The inner loop of `resizeMap` (over `currentCol`), for a fixed `currentRow`.  The old map
is mutated on the way: a player found under a tiled copy is rewritten to `'-'` in the old map
before the cell is copied. -/
def resizeCols (oldRow oldCol currentRow : Int) : Nat → Int → Grid → Grid → Option (Grid × Grid)
  | 0, _, map, newMap => some (map, newMap)
  | n + 1, currentCol, map, newMap =>
    match (if currentRow ≥ oldRow ∨ currentCol ≥ oldCol then
            match readCell map (currentRow.tmod oldRow) (currentCol.tmod oldCol) with
            | none => none
            | some tile =>
              if tile = 'o' then
                writeCell map (currentRow.tmod oldRow) (currentCol.tmod oldCol) '-'
              else some map
          else some map) with
    | none => none
    | some map1 =>
      match readCell map1 (currentRow.tmod oldRow) (currentCol.tmod oldCol) with
      | none => none
      | some tile =>
        match writeCell newMap currentRow currentCol tile with
        | none => none
        | some newMap1 => resizeCols oldRow oldCol currentRow n (currentCol + 1) map1 newMap1

/-- The outer loop of `resizeMap` (over `currentRow`); `maxCol` is the doubled width. -/
def resizeRows (oldRow oldCol maxCol : Int) : Nat → Int → Grid → Grid → Option (Grid × Grid)
  | 0, _, map, newMap => some (map, newMap)
  | n + 1, currentRow, map, newMap =>
    match resizeCols oldRow oldCol currentRow maxCol.toNat 0 map newMap with
    | none => none
    | some (map1, newMap1) => resizeRows oldRow oldCol maxCol n (currentRow + 1) map1 newMap1

/-- The function `resizeMap`.  The argument `none` is the null pointer.  The result is the
returned pointer (`none` for `nullptr`) with the updated `maxRow` and `maxCol`. -/
def resizeMap (map : Option Grid) (maxRow maxCol : Int) : Option (Option Grid × Int × Int) :=
  match map with
  | none => some (none, maxRow, maxCol)
  | some map =>
    if maxRow = 0 ∨ maxCol = 0 then some (none, maxRow, maxCol)
    else
      match allocMap (maxRow * 2) (maxCol * 2) with
      | none => none
      | some newMap =>
        match resizeRows maxRow maxCol (maxCol * 2) (maxRow * 2).toNat 0 map newMap with
        | none => none
        | some (_, newMap1) => some (some newMap1, maxRow * 2, maxCol * 2)

/-! ## doPlayerMove -/

/-- The four statements shared by every successful branch of `doPlayerMove`:
`map[player.row][player.col] = '-'; player.row = nextRow; player.col = nextCol;
map[player.row][player.col] = 'o';`. -/
def relocate (map : Grid) (player : Player) (nextRow nextCol : Int) : Option (Grid × Player) :=
  match writeCell map player.row player.col '-' with
  | none => none
  | some map1 =>
    match writeCell map1 nextRow nextCol 'o' with
    | none => none
    | some map2 => some (map2, { player with row := nextRow, col := nextCol })

/-- The value that a C++ `int` (32 bits, two's complement) holds for the mathematical result
`n`: `n` itself when it is in range, and `n` wrapped around otherwise.  (Signed overflow is
undefined in C++; the increment compiles to a wrapping addition on the usual targets, and
that is what is taken here.) -/
def wrapInt (n : Int) : Int :=
  (n + 2147483648) % 4294967296 - 2147483648

/-- The function `doPlayerMove`: the map and the player after the call, and the status. -/
def doPlayerMove (map : Grid) (maxRow maxCol : Int) (player : Player) (nextRow nextCol : Int) :
    Option (Grid × Player × Int) :=
  if nextCol > maxCol ∨ nextCol < 0 then some (map, player, 0)
  else if nextRow > maxRow ∨ nextRow < 0 then some (map, player, 0)
  else
    match readCell map nextRow nextCol with
    | none => none
    | some tile =>
      if tile = '+' ∨ tile = 'M' then some (map, player, 0)
      else if tile = '-' then
        (relocate map player nextRow nextCol).map fun mp => (mp.1, mp.2, 1)
      else if tile = '$' then
        (relocate map { player with treasure := wrapInt (player.treasure + 1) } nextRow
            nextCol).map
          fun mp => (mp.1, mp.2, 2)
      else if tile = '@' then
        (relocate map player nextRow nextCol).map fun mp => (mp.1, mp.2, 3)
      else if tile = '?' then
        (relocate map player nextRow nextCol).map fun mp => (mp.1, mp.2, 4)
      else if tile = '!' then
        if player.treasure > 0 then
          (relocate map player nextRow nextCol).map fun mp => (mp.1, mp.2, 5)
        else some (map, player, 0)
      else some (map, player, 0)

/-! ## doMonsterAttack -/

/-- The first loop of `doMonsterAttack`, `for (i = player.row; i >= 0; --i)`. -/
def attackUp (player : Player) : Nat → Int → Grid → Bool → Option (Grid × Bool)
  | 0, _, map, monster => some (map, monster)
  | n + 1, i, map, monster =>
    match readCell map i player.col with
    | none => none
    | some tile =>
      if tile = '+' then some (map, monster)
      else if tile = 'M' then
        match writeCell map i player.col '-' with
        | none => none
        | some map1 =>
          match writeCell map1 (i + 1) player.col 'M' with
          | none => none
          | some map2 =>
            attackUp player n (i - 1) map2 (if i + 1 = player.row then true else monster)
      else attackUp player n (i - 1) map monster

/-- The second loop, `for (j = player.row; j <= maxRow - 1; ++j)`. -/
def attackDown (player : Player) : Nat → Int → Grid → Bool → Option (Grid × Bool)
  | 0, _, map, monster => some (map, monster)
  | n + 1, j, map, monster =>
    match readCell map j player.col with
    | none => none
    | some tile =>
      if tile = '+' then some (map, monster)
      else if tile = 'M' then
        match writeCell map j player.col '-' with
        | none => none
        | some map1 =>
          match writeCell map1 (j - 1) player.col 'M' with
          | none => none
          | some map2 =>
            attackDown player n (j + 1) map2 (if j - 1 = player.row then true else monster)
      else attackDown player n (j + 1) map monster

/-- The third loop, `for (k = player.col; k <= maxCol - 1; ++k)`. -/
def attackRight (player : Player) : Nat → Int → Grid → Bool → Option (Grid × Bool)
  | 0, _, map, monster => some (map, monster)
  | n + 1, k, map, monster =>
    match readCell map player.row k with
    | none => none
    | some tile =>
      if tile = '+' then some (map, monster)
      else if tile = 'M' then
        match writeCell map player.row k '-' with
        | none => none
        | some map1 =>
          match writeCell map1 player.row (k - 1) 'M' with
          | none => none
          | some map2 =>
            attackRight player n (k + 1) map2 (if k - 1 = player.col then true else monster)
      else attackRight player n (k + 1) map monster

/-- The fourth loop, `for (z = player.col; z >= 0; --z)`. -/
def attackLeft (player : Player) : Nat → Int → Grid → Bool → Option (Grid × Bool)
  | 0, _, map, monster => some (map, monster)
  | n + 1, z, map, monster =>
    match readCell map player.row z with
    | none => none
    | some tile =>
      if tile = '+' then some (map, monster)
      else if tile = 'M' then
        match writeCell map player.row z '-' with
        | none => none
        | some map1 =>
          match writeCell map1 player.row (z + 1) 'M' with
          | none => none
          | some map2 =>
            attackLeft player n (z - 1) map2 (if z + 1 = player.col then true else monster)
      else attackLeft player n (z - 1) map monster

/-- The function `doMonsterAttack`: the map after the call and the returned flag. -/
def doMonsterAttack (map : Grid) (maxRow maxCol : Int) (player : Player) :
    Option (Grid × Bool) :=
  match attackUp player (player.row + 1).toNat player.row map false with
  | none => none
  | some (map1, monster1) =>
    match attackDown player (maxRow - player.row).toNat player.row map1 monster1 with
    | none => none
    | some (map2, monster2) =>
      match attackRight player (maxCol - player.col).toNat player.col map2 monster2 with
      | none => none
      | some (map3, monster3) =>
        attackLeft player (player.col + 1).toNat player.col map3 monster3

/-! ## Auxiliary notions used by the statements and their proofs -/

/-- The tile that a tiled copy of the map receives: the player is replaced by an open cell. -/
def copyTile (t : Char) : Char := if t = 'o' then '-' else t

/-- The content of cell `(r, c)` of the resized map, in terms of the original map `g0` of
`R` by `C` cells. -/
def tiledCell (g0 : Grid) (R C r c : Int) : Option Char :=
  if r < R ∧ c < C then readCell g0 r c else (readCell g0 (r % R) (c % C)).map copyTile

/-- Loop invariant of `resizeMap`, when cell `(r, c)` of the new map is the next to be
written: the old map `map` differs from the original `g0` only by players already erased, the
cells of the top-left quadrant not yet copied are untouched, and the cells of `newMap` written
so far hold their final content. -/
def ResizeInv (g0 : Grid) (R C r c : Int) (map newMap : Grid) : Prop :=
  IsGrid map R C ∧ IsGrid newMap (R * 2) (C * 2) ∧
  (∀ i j, (readCell map i j).map copyTile = (readCell g0 i j).map copyTile) ∧
  (∀ i j, (r < i ∨ (i = r ∧ c ≤ j)) → readCell map i j = readCell g0 i j) ∧
  (∀ i j, (i < r ∨ (i = r ∧ j < c)) → 0 ≤ i → 0 ≤ j → j < C * 2 →
    readCell newMap i j = tiledCell g0 R C i j)

/-- The map has exactly one PLAYER cell, and it is the cell `(pr, pc)`. -/
def OnePlayerAt (map : Grid) (pr pc : Int) : Prop :=
  ∀ r c, readCell map r c = some 'o' ↔ (r = pr ∧ c = pc)

/-! ## Sequences of calls -/

/-- One request of the external caller: a player move to a target cell, or a pursuit step. -/
inductive Action where
  | move (nextRow nextCol : Int)
  | attack
deriving DecidableEq, Repr

/-- One call made by the external caller: `doPlayerMove` for a move, `doMonsterAttack` for a
pursuit step.  The flag is the value returned by `doMonsterAttack` (`false` for a move). -/
def playAction (maxRow maxCol : Int) (map : Grid) (player : Player) :
    Action → Option (Grid × Player × Bool)
  | .move nextRow nextCol =>
    (doPlayerMove map maxRow maxCol player nextRow nextCol).map fun r => (r.1, r.2.1, false)
  | .attack => (doMonsterAttack map maxRow maxCol player).map fun r => (r.1, player, r.2)

/-- A sequence of calls on the same map and player, as the external caller issues them.  The
flag tells whether some `doMonsterAttack` call of the sequence returned `true`. -/
def play (maxRow maxCol : Int) : List Action → Grid → Player → Option (Grid × Player × Bool)
  | [], map, player => some (map, player, false)
  | a :: rest, map, player =>
    match playAction maxRow maxCol map player a with
    | none => none
    | some (map1, player1, captured) =>
      match play maxRow maxCol rest map1 player1 with
      | none => none
      | some (map2, player2, captured2) => some (map2, player2, captured || captured2)

/-! ## The common shape of the four loops of doMonsterAttack -/

/-- The four directions of the rays, as the step `(dr, dc)` that leads away from the player:
up, down, right, left. -/
def IsDir (dr dc : Int) : Prop :=
  (dr = -1 ∧ dc = 0) ∨ (dr = 1 ∧ dc = 0) ∨ (dr = 0 ∧ dc = 1) ∨ (dr = 0 ∧ dc = -1)

/-- The four loops of `doMonsterAttack` written once, for a ray that starts at `(r, c)` and
advances by `(dr, dc)`; the player is at `(pr, pc)`.  Each of `attackUp`, `attackDown`,
`attackRight`, `attackLeft` is an instance (theorems `attackUp_eq_scanRay` and the like). -/
def scanRay (pr pc dr dc : Int) : Nat → Int → Int → Grid → Bool → Option (Grid × Bool)
  | 0, _, _, map, monster => some (map, monster)
  | n + 1, r, c, map, monster =>
    match readCell map r c with
    | none => none
    | some tile =>
      if tile = '+' then some (map, monster)
      else if tile = 'M' then
        match writeCell map r c '-' with
        | none => none
        | some map1 =>
          match writeCell map1 (r - dr) (c - dc) 'M' with
          | none => none
          | some map2 =>
            scanRay pr pc dr dc n (r + dr) (c + dc) map2
              (if r - dr = pr ∧ c - dc = pc then true else monster)
      else scanRay pr pc dr dc n (r + dr) (c + dc) map monster

/-- The monsters in line of sight on a ray of a map: the cells holding `'M'` among the first
`n` cells of the ray that starts at `(r, c)` and advances by `(dr, dc)`, up to the first
pillar.  The map is only read. -/
def sighted (dr dc : Int) : Nat → Int → Int → Grid → List (Int × Int)
  | 0, _, _, _ => []
  | n + 1, r, c, map =>
    match readCell map r c with
    | none => []
    | some tile =>
      if tile = '+' then []
      else if tile = 'M' then (r, c) :: sighted dr dc n (r + dr) (c + dc) map
      else sighted dr dc n (r + dr) (c + dc) map

/-! ## loadLevel -/

/-- An input file stream, as far as `loadLevel` uses it: the characters not yet read and the
fail state.  Once the stream has failed every later read leaves its target unchanged. -/
structure InStream where
  rest : List Char
  failed : Bool
deriving DecidableEq, Repr

/-- The characters that `operator>>` skips before a value: those for which `isspace` holds
(space, tab, newline, vertical tab, form feed, carriage return). -/
def isSpaceChar (c : Char) : Bool :=
  c = ' ' || c = '\t' || c = '\n' || c = Char.ofNat 11 || c = Char.ofNat 12 || c = '\r'

/-- The decimal digits. -/
def isDigitChar (c : Char) : Bool :=
  '0' ≤ c && c ≤ '9'

/-- The number written by a sequence of decimal digits. -/
def digitsValue (ds : List Char) : Int :=
  ds.foldl (fun n d => n * 10 + ((d.toNat : Int) - 48)) 0

/-- The extraction `file >> n` of an `int`.  A stream that has already failed, or that ends
before a non-space character, leaves `n` unchanged; a field without a digit stores 0; in both
cases the stream fails.  Otherwise the longest run of digits, after an optional sign, is
converted. -/
def readInt (s : InStream) (old : Int) : Int × InStream :=
  if s.failed then (old, s)
  else
    match s.rest.dropWhile isSpaceChar with
    | [] => (old, { rest := [], failed := true })
    | c :: cs =>
      if c = '-' then
        if cs.takeWhile isDigitChar = [] then (0, { rest := cs, failed := true })
        else (- digitsValue (cs.takeWhile isDigitChar),
          { rest := cs.dropWhile isDigitChar, failed := false })
      else if c = '+' then
        if cs.takeWhile isDigitChar = [] then (0, { rest := cs, failed := true })
        else (digitsValue (cs.takeWhile isDigitChar),
          { rest := cs.dropWhile isDigitChar, failed := false })
      else
        if (c :: cs).takeWhile isDigitChar = [] then (0, { rest := c :: cs, failed := true })
        else (digitsValue ((c :: cs).takeWhile isDigitChar),
          { rest := (c :: cs).dropWhile isDigitChar, failed := false })

/-- The extraction `file >> tile` of a `char`; `none` is the uninitialised variable.  On
failure the variable keeps its previous content. -/
def readChar (s : InStream) (old : Option Char) : Option Char × InStream :=
  if s.failed then (old, s)
  else
    match s.rest.dropWhile isSpaceChar with
    | [] => (old, { rest := [], failed := true })
    | c :: cs => (some c, { rest := cs, failed := false })

/-- The call `getline(file, line)`: the characters up to the next newline, which is consumed;
it fails when no character is left. -/
def getline (s : InStream) : Option (List Char) × InStream :=
  if s.failed then (none, s)
  else
    match s.rest with
    | [] => (none, { rest := [], failed := true })
    | c :: cs =>
      (some ((c :: cs).takeWhile fun ch => ch ≠ '\n'),
        { rest := ((c :: cs).dropWhile fun ch => ch ≠ '\n').drop 1, failed := false })

/-- The loop `for (i = 0; i < line.length(); ++i) if (line.at(i) != ' ') charNum++;`. -/
def countLine (line : List Char) (charNum : Int) : Int :=
  line.foldl (fun n ch => if ch ≠ ' ' then n + 1 else n) charNum

/-- The loop `while (getline(file, line))` of the first pass of `loadLevel`.  Every successful
`getline` consumes at least one character, so the loop runs at most once more than there are
characters left; it is started with that trip count. -/
def countChars : Nat → InStream → Int → Int
  | 0, _, charNum => charNum
  | n + 1, s, charNum =>
    match (getline s).1 with
    | none => charNum
    | some line => countChars n (getline s).2 (countLine line charNum)

/-- The test of `loadLevel` for a correct tile. -/
def isTile (tile : Char) : Bool :=
  tile = '-' || tile = '$' || tile = '@' || tile = 'M' || tile = '+' || tile = '?' ||
    tile = '!'

/-- The local variables of the tile loops of `loadLevel`. -/
structure TileState where
  file : InStream
  tile : Option Char
  door : Bool
  exitDoor : Bool
  map : Grid
deriving DecidableEq, Repr

/-- The inner tile loop of `loadLevel` (over `k`), for a fixed row `j`.  The outer `none` is a
read of the uninitialised `tile` or an index outside the array; `some none` is the early
`return nullptr` for a bad tile. -/
def loadCols (j : Int) : Nat → Int → TileState → Option (Option TileState)
  | 0, _, st => some (some st)
  | n + 1, k, st =>
    match (readChar st.file st.tile).1 with
    | none => none
    | some tile =>
      match (if tile = 'o' then writeCell st.map j k '-' else some st.map) with
      | none => none
      | some map1 =>
        if isTile tile = true then
          match writeCell map1 j k tile with
          | none => none
          | some map2 =>
            loadCols j n (k + 1)
              { file := (readChar st.file st.tile).2
                tile := some tile
                door := if tile = '?' then true else st.door
                exitDoor := if tile = '!' then true else st.exitDoor
                map := map2 }
        else some none

/-- The outer tile loop of `loadLevel` (over `j`). -/
def loadRows (maxCol : Int) : Nat → Int → TileState → Option (Option TileState)
  | 0, _, st => some (some st)
  | n + 1, j, st =>
    match loadCols j maxCol.toNat 0 st with
    | none => none
    | some none => some none
    | some (some st1) => loadRows maxCol n (j + 1) st1

/-- The function `loadLevel`.  The argument `file` is the content of the file (`none` when it
cannot be opened); the file is opened and read twice and has the same content both times.
The result is the returned pointer (`none` for `nullptr`) with `maxRow`, `maxCol` and `player`
as the call leaves them; `deleteMap` resets `maxRow` to 0 on the paths that call it. -/
def loadLevel (file : Option (List Char)) (maxRow maxCol : Int) (player : Player) :
    Option (Option Grid × Int × Int × Player) :=
  match file with
  | none => some (none, maxRow, maxCol, player)
  | some text =>
    let s0 : InStream := { rest := text, failed := false }
    -- first pass: the header, then the count of the characters that are not spaces
    let r1 := readInt s0 maxRow
    let r2 := readInt r1.2 maxCol
    let r3 := readInt r2.2 player.row
    let r4 := readInt r3.2 player.col
    let maxChar := r1.1 * r2.1
    let charNum := countChars (r4.2.rest.length + 1) r4.2 0
    if charNum ≠ maxChar then
      some (none, r1.1, r2.1, { player with row := r3.1, col := r4.1 })
    else
      -- second pass
      let q1 := readInt s0 r1.1
      let q2 := readInt q1.2 r2.1
      if q2.2.failed = true then
        some (none, q1.1, q2.1, { player with row := r3.1, col := r4.1 })
      else
        let q3 := readInt q2.2 r3.1
        let q4 := readInt q3.2 r4.1
        if q4.2.failed = true then
          some (none, q1.1, q2.1, { player with row := q3.1, col := q4.1 })
        else if q3.1 > q1.1 ∨ q4.1 > q2.1 ∨ q3.1 < 0 ∨ q4.1 < 0 then
          some (none, q1.1, q2.1, { player with row := q3.1, col := q4.1 })
        else if q1.1 ≤ 0 ∨ q2.1 ≤ 0 then
          some (none, q1.1, q2.1, { player with row := q3.1, col := q4.1 })
        else
          match allocMap q1.1 q2.1 with
          | none => none
          | some map =>
            match loadRows q2.1 q1.1.toNat 0
                { file := q4.2, tile := none, door := false, exitDoor := false, map := map } with
            | none => none
            | some none => some (none, 0, q2.1, { player with row := q3.1, col := q4.1 })
            | some (some st) =>
              if (st.door = true ∧ st.exitDoor = true) ∨
                  (st.door = false ∧ st.exitDoor = false) then
                some (none, 0, q2.1, { player with row := q3.1, col := q4.1 })
              else
                match writeCell st.map q3.1 q4.1 'o' with
                | none => none
                | some map1 =>
                  some (some map1, q1.1, q2.1, { player with row := q3.1, col := q4.1 })

/-- The stream of the second pass of `loadLevel` when the four numbers of the header have
been extracted (`file >> maxRow >> maxCol; file >> player.row >> player.col;`): what is left
of the file when the tile loops start.  Where an extraction leaves the stream does not depend
on the value that the variable held before. -/
def headerRest (text : List Char) : InStream :=
  (readInt (readInt (readInt (readInt { rest := text, failed := false } 0).2 0).2 0).2 0).2

/-- The array `map` of `loadLevel` when the two tile loops have run to their end, before the
test of the door and the exit and before the PLAYER tile is written into it, for a file with
the content `text` and the dimensions `maxRow`, `maxCol` read from its header; `none` when the
loops do not run to their end. -/
def parsedMap (text : List Char) (maxRow maxCol : Int) : Option Grid :=
  match allocMap maxRow maxCol with
  | none => none
  | some map =>
    match loadRows maxCol maxRow.toNat 0
        { file := headerRest text, tile := none, door := false, exitDoor := false,
          map := map } with
    | some (some st) => some st.map
    | _ => none

/-- The map contains the tile `t`. -/
def HasTile (map : Grid) (t : Char) : Prop :=
  ∃ row ∈ map, t ∈ row

instance (map : Grid) (t : Char) : Decidable (HasTile map t) := by
  unfold HasTile; infer_instance

/-- The number of cells of the map that hold the tile `t`. -/
def countTile (map : Grid) (t : Char) : Nat :=
  (map.map fun row => row.count t).sum

/-! ## The level source format -/

/-- The whitespace-separated tokens of a text. -/
def tokensOf (text : List Char) : List (List Char) :=
  (text.splitOnP isSpaceChar).filter fun w => w ≠ []

/-- The body of a level description: each tile token preceded by the whitespace that
separates it from what comes before. -/
def bodyText : List (List Char × Char) → List Char
  | [] => []
  | cell :: cells => cell.1 ++ cell.2 :: bodyText cells

/-- A level description, cut into its parts: the four numbers of the header as they are
written, the whitespace after the first three of them, the tile tokens, each with the
whitespace before it, and the whitespace that ends the file. -/
structure LevelText where
  rowsDigits : List Char
  sep1 : List Char
  colsDigits : List Char
  sep2 : List Char
  startRowDigits : List Char
  sep3 : List Char
  startColDigits : List Char
  cells : List (List Char × Char)
  trail : List Char

/-- The characters of the file. -/
def LevelText.text (d : LevelText) : List Char :=
  d.rowsDigits ++ (d.sep1 ++ (d.colsDigits ++ (d.sep2 ++ (d.startRowDigits ++ (d.sep3 ++
    (d.startColDigits ++ (bodyText d.cells ++ d.trail)))))))

/-- The number of rows written in the header. -/
def LevelText.rows (d : LevelText) : Int := digitsValue d.rowsDigits

/-- The number of columns written in the header. -/
def LevelText.cols (d : LevelText) : Int := digitsValue d.colsDigits

/-- The start row written in the header. -/
def LevelText.startRow (d : LevelText) : Int := digitsValue d.startRowDigits

/-- The start column written in the header. -/
def LevelText.startCol (d : LevelText) : Int := digitsValue d.startColDigits

/-- The tile tokens of the body, in the order of the file. -/
def LevelText.tiles (d : LevelText) : List Char := d.cells.map Prod.snd

/-- A number as the header writes it: a non-empty sequence of decimal digits. -/
def IsNumber (ds : List Char) : Prop :=
  ds ≠ [] ∧ ∀ c ∈ ds, isDigitChar c = true

/-- A run of whitespace of any kind. -/
def IsBlank (w : List Char) : Prop :=
  ∀ c ∈ w, isSpaceChar c = true

/-- A run of spaces and newlines. -/
def IsGap (w : List Char) : Prop :=
  ∀ c ∈ w, c = ' ' ∨ c = '\n'

/-- A level description with a header of four numbers and `rows * cols` tile tokens, each a
correct tile, separated by whitespace of any kind. -/
def LevelText.Valid (d : LevelText) : Prop :=
  IsNumber d.rowsDigits ∧ IsNumber d.colsDigits ∧ IsNumber d.startRowDigits ∧
  IsNumber d.startColDigits ∧
  (d.sep1 ≠ [] ∧ IsBlank d.sep1) ∧ (d.sep2 ≠ [] ∧ IsBlank d.sep2) ∧
  (d.sep3 ≠ [] ∧ IsBlank d.sep3) ∧
  (∀ cell ∈ d.cells, cell.1 ≠ [] ∧ IsBlank cell.1 ∧ isTile cell.2 = true) ∧
  IsBlank d.trail ∧ (d.cells.length : Int) = d.rows * d.cols

/-- A well-formed level description: valid, with positive dimensions, a start position inside
the map, tile tokens separated by spaces and newlines only, and a door or an exit among the
tiles but not both. -/
def LevelText.WellFormed (d : LevelText) : Prop :=
  d.Valid ∧ (0 < d.rows ∧ 0 < d.cols) ∧ (d.startRow < d.rows ∧ d.startCol < d.cols) ∧
  (∀ cell ∈ d.cells, IsGap cell.1) ∧ IsGap d.trail ∧
  (('?' ∈ d.tiles ∧ '!' ∉ d.tiles) ∨ ('!' ∈ d.tiles ∧ '?' ∉ d.tiles))

instance (ds : List Char) : Decidable (IsNumber ds) := by
  unfold IsNumber; infer_instance

instance (w : List Char) : Decidable (IsBlank w) := by
  unfold IsBlank; infer_instance

instance (w : List Char) : Decidable (IsGap w) := by
  unfold IsGap; infer_instance

instance (d : LevelText) : Decidable d.Valid := by
  unfold LevelText.Valid; infer_instance

instance (d : LevelText) : Decidable d.WellFormed := by
  unfold LevelText.WellFormed; infer_instance

/-- The level description `3 3 / 1 1 / - - - / - - - / - - ?`, one line each. -/
def level3x3 : LevelText where
  rowsDigits := ['3']
  sep1 := [' ']
  colsDigits := ['3']
  sep2 := ['\n']
  startRowDigits := ['1']
  sep3 := [' ']
  startColDigits := ['1']
  cells := [(['\n'], '-'), ([' '], '-'), ([' '], '-'),
            (['\n'], '-'), ([' '], '-'), ([' '], '-'),
            (['\n'], '-'), ([' '], '-'), ([' '], '?')]
  trail := ['\n']

/-- The level description `1 2 / 0 0 / a b`, one line each, for two tiles `a` and `b`. -/
def level1x2 (a b : Char) : LevelText where
  rowsDigits := ['1']
  sep1 := [' ']
  colsDigits := ['2']
  sep2 := ['\n']
  startRowDigits := ['0']
  sep3 := [' ']
  startColDigits := ['0']
  cells := [(['\n'], a), ([' '], b)]
  trail := ['\n']
/-! ## Reading and writing cells -/

theorem readCell_eq_some_iff {map : Grid} {r c : Int} {t : Char} :
    readCell map r c = some t ↔
      0 ≤ r ∧ 0 ≤ c ∧ ∃ row, map[r.toNat]? = some row ∧ row[c.toNat]? = some t := by
  unfold readCell
  by_cases h : 0 ≤ r ∧ 0 ≤ c
  · rw [if_pos h]
    cases hrow : map[r.toNat]? with
    | none => simp
    | some row => simp [h.1, h.2]
  · rw [if_neg h]
    constructor
    · intro h'; cases h'
    · rintro ⟨h1, h2, _⟩; exact absurd ⟨h1, h2⟩ h

theorem writeCell_eq_some_iff {map map' : Grid} {r c : Int} {v : Char} :
    writeCell map r c v = some map' ↔
      0 ≤ r ∧ 0 ≤ c ∧ ∃ row, map[r.toNat]? = some row ∧ c.toNat < row.length ∧
        map' = map.set r.toNat (row.set c.toNat v) := by
  unfold writeCell
  by_cases h : 0 ≤ r ∧ 0 ≤ c
  · rw [if_pos h]
    cases hrow : map[r.toNat]? with
    | none => simp
    | some row =>
      by_cases hc : c.toNat < row.length
      · simp only [if_pos hc]
        constructor
        · intro h'
          exact ⟨h.1, h.2, row, rfl, hc, (Option.some.inj h').symm⟩
        · rintro ⟨_, _, row', hrow', _, rfl⟩
          cases hrow'; rfl
      · simp only [if_neg hc]
        constructor
        · intro h'; cases h'
        · rintro ⟨_, _, row', hrow', hc', _⟩
          cases hrow'; exact absurd hc' hc
  · rw [if_neg h]
    constructor
    · intro h'; cases h'
    · rintro ⟨h1, h2, _⟩; exact absurd ⟨h1, h2⟩ h

/-- Reading after a write: the written cell holds the new value, every other cell is as before. -/
theorem readCell_writeCell {map map' : Grid} {r c : Int} {v : Char}
    (h : writeCell map r c v = some map') (r' c' : Int) :
    readCell map' r' c' = if r' = r ∧ c' = c then some v else readCell map r' c' := by
  obtain ⟨hr, hc, row, hrow, hlen, rfl⟩ := writeCell_eq_some_iff.1 h
  have hrlen : r.toNat < map.length := by
    rcases List.getElem?_eq_some.1 hrow with ⟨h1, _⟩; exact h1
  unfold readCell
  by_cases h0 : 0 ≤ r' ∧ 0 ≤ c'
  · rw [if_pos h0, if_pos h0]
    by_cases hrr : r' = r
    · subst hrr
      rw [List.getElem?_set_self hrlen, hrow]
      by_cases hcc : c' = c
      · subst hcc
        simp [List.getElem?_set_self hlen]
      · have : c.toNat ≠ c'.toNat := by omega
        simp [hcc, List.getElem?_set_ne this]
    · have : r.toNat ≠ r'.toNat := by omega
      rw [List.getElem?_set_ne this]
      simp [hrr]
  · rw [if_neg h0, if_neg h0]
    have : ¬ (r' = r ∧ c' = c) := by
      rintro ⟨rfl, rfl⟩; exact h0 ⟨hr, hc⟩
    rw [if_neg this]

/-- A cell that can be read can be written. -/
theorem writeCell_of_readCell {map : Grid} {r c : Int} {t : Char}
    (h : readCell map r c = some t) (v : Char) : ∃ map', writeCell map r c v = some map' := by
  obtain ⟨hr, hc, row, hrow, hcell⟩ := readCell_eq_some_iff.1 h
  have hlen : c.toNat < row.length := by
    rcases List.getElem?_eq_some.1 hcell with ⟨h1, _⟩; exact h1
  exact ⟨_, writeCell_eq_some_iff.2 ⟨hr, hc, row, hrow, hlen, rfl⟩⟩

/-- In an array of `rows` by `cols` cells, the readable cells are those within the bounds. -/
theorem readCell_isSome_iff {map : Grid} {rows cols : Int} (hg : IsGrid map rows cols)
    (r c : Int) : (∃ t, readCell map r c = some t) ↔ (0 ≤ r ∧ r < rows) ∧ (0 ≤ c ∧ c < cols) := by
  obtain ⟨hrows, hcols⟩ := hg
  constructor
  · rintro ⟨t, ht⟩
    obtain ⟨hr, hc, row, hrow, hcell⟩ := readCell_eq_some_iff.1 ht
    obtain ⟨h1, h1'⟩ := List.getElem?_eq_some.1 hrow
    obtain ⟨h2, _⟩ := List.getElem?_eq_some.1 hcell
    have := hcols row (h1' ▸ List.getElem_mem h1)
    omega
  · rintro ⟨⟨hr, hr'⟩, hc, hc'⟩
    have h1 : r.toNat < map.length := by omega
    have h2 : c.toNat < (map[r.toNat]).length := by
      have := hcols _ (List.getElem_mem h1); omega
    exact ⟨_, readCell_eq_some_iff.2
      ⟨hr, hc, _, List.getElem?_eq_getElem h1, List.getElem?_eq_getElem h2⟩⟩

/-- A write keeps the dimensions of the array. -/
theorem isGrid_writeCell {map map' : Grid} {r c : Int} {v : Char} {rows cols : Int}
    (h : writeCell map r c v = some map') (hg : IsGrid map rows cols) :
    IsGrid map' rows cols := by
  obtain ⟨_, _, row, hrow, _, rfl⟩ := writeCell_eq_some_iff.1 h
  obtain ⟨hrows, hcols⟩ := hg
  obtain ⟨h1, h1'⟩ := List.getElem?_eq_some.1 hrow
  refine ⟨by simpa using hrows, ?_⟩
  intro row' hmem
  rcases List.mem_or_eq_of_mem_set hmem with hm | rfl
  · exact hcols _ hm
  · have := hcols row (h1' ▸ List.getElem_mem h1)
    simpa using this

/-! ## resizeMap: loop invariant -/

theorem copyTile_of_ne {t : Char} (h : t ≠ 'o') : copyTile t = t := by
  simp [copyTile, h]

/-- One iteration of the inner loop of `resizeMap` keeps the invariant. -/
theorem resizeInv_step {g0 map newMap : Grid} {R C r c : Int} (hR : 0 < R) (hC : 0 < C)
    (hr : 0 ≤ r ∧ r < R * 2) (hc : 0 ≤ c ∧ c < C * 2)
    (inv : ResizeInv g0 R C r c map newMap) :
    ∃ map1 tile newMap1,
      (if r ≥ R ∨ c ≥ C then
        match readCell map (r.tmod R) (c.tmod C) with
        | none => none
        | some tile =>
          if tile = 'o' then writeCell map (r.tmod R) (c.tmod C) '-' else some map
      else some map) = some map1 ∧
      readCell map1 (r.tmod R) (c.tmod C) = some tile ∧
      writeCell newMap r c tile = some newMap1 ∧
      ResizeInv g0 R C r (c + 1) map1 newMap1 := by
  unfold ResizeInv tiledCell at inv ⊢
  obtain ⟨hmap, hnew, hI1, hI2, hI3⟩ := inv
  have hrr : r.tmod R = r % R := Int.tmod_eq_emod hr.1 hR.le
  have hcc : c.tmod C = c % C := Int.tmod_eq_emod hc.1 hC.le
  rw [hrr, hcc]
  have hrr0 : 0 ≤ r % R := Int.emod_nonneg _ hR.ne'
  have hrr1 : r % R < R := Int.emod_lt_of_pos _ hR
  have hcc0 : 0 ≤ c % C := Int.emod_nonneg _ hC.ne'
  have hcc1 : c % C < C := Int.emod_lt_of_pos _ hC
  have hrr' : r < R → r % R = r := Int.emod_eq_of_lt hr.1
  have hcc' : c < C → c % C = c := Int.emod_eq_of_lt hc.1
  generalize hrd : r % R = rr at *
  generalize hcd : c % C = cc at *
  obtain ⟨t, ht⟩ := (readCell_isSome_iff hmap rr cc).2 ⟨⟨hrr0, hrr1⟩, hcc0, hcc1⟩
  obtain ⟨t0, ht0⟩ : ∃ t0, readCell g0 rr cc = some t0 := by
    have := hI1 rr cc
    rw [ht] at this
    cases h0 : readCell g0 rr cc with
    | none => rw [h0] at this; cases this
    | some t0 => exact ⟨t0, rfl⟩
  have htt0 : copyTile t = copyTile t0 := by
    have := hI1 rr cc
    rw [ht, ht0] at this
    exact Option.some.inj this
  have hwnew : ∀ v, ∃ newMap1, writeCell newMap r c v = some newMap1 := by
    intro v
    obtain ⟨t', ht'⟩ := (readCell_isSome_iff hnew r c).2 ⟨hr, hc⟩
    exact writeCell_of_readCell ht' v
  by_cases hcond : r ≥ R ∨ c ≥ C
  · rw [if_pos hcond, ht]
    have hnot : ¬ (r < R ∧ c < C) := by omega
    by_cases hto : t = 'o'
    · obtain ⟨map1, hmap1⟩ := writeCell_of_readCell ht '-'
      obtain ⟨newMap1, hnew1⟩ := hwnew '-'
      refine ⟨map1, '-', newMap1, by simp [hto, hmap1], ?_, hnew1, ?_⟩
      · rw [readCell_writeCell hmap1]; simp
      · refine ⟨isGrid_writeCell hmap1 hmap, isGrid_writeCell hnew1 hnew, ?_, ?_, ?_⟩
        · intro i j
          rw [readCell_writeCell hmap1]
          by_cases hij : i = rr ∧ j = cc
          · rw [if_pos hij, hij.1, hij.2, ← hI1, ht, hto]; rfl
          · rw [if_neg hij]; exact hI1 i j
        · intro i j hlt
          rw [readCell_writeCell hmap1]
          have hij : ¬ (i = rr ∧ j = cc) := by omega
          rw [if_neg hij]
          exact hI2 i j (by omega)
        · intro i j hlt hi hj hj'
          rw [readCell_writeCell hnew1]
          by_cases hij : i = r ∧ j = c
          · rw [if_pos hij, hij.1, hij.2]
            rw [if_neg hnot, hrd, hcd, ht0, Option.map_some', ← htt0, hto]; rfl
          · rw [if_neg hij]
            exact hI3 i j (by omega) hi hj hj'
    · obtain ⟨newMap1, hnew1⟩ := hwnew t
      refine ⟨map, t, newMap1, by simp [hto], ht, hnew1, hmap, isGrid_writeCell hnew1 hnew,
        hI1, fun i j hlt => hI2 i j (by omega), ?_⟩
      intro i j hlt hi hj hj'
      rw [readCell_writeCell hnew1]
      by_cases hij : i = r ∧ j = c
      · rw [if_pos hij, hij.1, hij.2]
        rw [if_neg hnot, hrd, hcd, ht0, Option.map_some', ← htt0, copyTile_of_ne hto]
      · rw [if_neg hij]
        exact hI3 i j (by omega) hi hj hj'
  · rw [if_neg hcond]
    have hlt : r < R ∧ c < C := by omega
    have hrr' := hrr' hlt.1
    have hcc' := hcc' hlt.2
    have ht' : readCell map r c = some t := by rw [← hrr', ← hcc']; exact ht
    obtain ⟨newMap1, hnew1⟩ := hwnew t
    refine ⟨map, t, newMap1, rfl, ht, hnew1, hmap, isGrid_writeCell hnew1 hnew,
      hI1, fun i j hlt => hI2 i j (by omega), ?_⟩
    intro i j hlt' hi hj hj'
    rw [readCell_writeCell hnew1]
    by_cases hij : i = r ∧ j = c
    · rw [if_pos hij, hij.1, hij.2]
      rw [if_pos hlt, ← hI2 r c (Or.inr ⟨rfl, le_refl _⟩), ← ht']
    · rw [if_neg hij]
      exact hI3 i j (by omega) hi hj hj'

/-- The inner loop of `resizeMap`, started at column `c` with the trip count that remains,
completes and leaves the invariant at the end of the row. -/
theorem resizeCols_inv {g0 : Grid} {R C r : Int} (hR : 0 < R) (hC : 0 < C)
    (hr : 0 ≤ r ∧ r < R * 2) :
    ∀ (n : Nat) (c : Int) (map newMap : Grid), 0 ≤ c → c + n = C * 2 →
      ResizeInv g0 R C r c map newMap →
      ∃ map' newMap', resizeCols R C r n c map newMap = some (map', newMap') ∧
        ResizeInv g0 R C r (C * 2) map' newMap'
  | 0, c, map, newMap, _, hn, inv => by
    have : c = C * 2 := by simpa using hn
    subst this
    exact ⟨map, newMap, rfl, inv⟩
  | n + 1, c, map, newMap, hc, hn, inv => by
    have hc' : 0 ≤ c ∧ c < C * 2 := by push_cast at hn; omega
    obtain ⟨map1, tile, newMap1, h1, h2, h3, inv1⟩ := resizeInv_step hR hC hr hc' inv
    obtain ⟨map', newMap', h4, inv'⟩ :=
      resizeCols_inv hR hC hr n (c + 1) map1 newMap1 (by omega) (by push_cast at hn; omega) inv1
    refine ⟨map', newMap', ?_, inv'⟩
    unfold resizeCols
    rw [h1]
    simp only [h2, h3, h4]

/-- The invariant at the end of a row is the invariant at the start of the next one. -/
theorem resizeInv_next_row {g0 map newMap : Grid} {R C r : Int}
    (inv : ResizeInv g0 R C r (C * 2) map newMap) :
    ResizeInv g0 R C (r + 1) 0 map newMap := by
  obtain ⟨hmap, hnew, hI1, hI2, hI3⟩ := inv
  refine ⟨hmap, hnew, hI1, fun i j h => hI2 i j (by omega), ?_⟩
  intro i j h hi hj hj'
  exact hI3 i j (by omega) hi hj hj'

/-- The outer loop of `resizeMap` completes and every cell of the new map is written. -/
theorem resizeRows_inv {g0 : Grid} {R C : Int} (hR : 0 < R) (hC : 0 < C) :
    ∀ (n : Nat) (r : Int) (map newMap : Grid), 0 ≤ r → r + n = R * 2 →
      ResizeInv g0 R C r 0 map newMap →
      ∃ map' newMap', resizeRows R C (C * 2) n r map newMap = some (map', newMap') ∧
        ResizeInv g0 R C (R * 2) 0 map' newMap'
  | 0, r, map, newMap, _, hn, inv => by
    have : r = R * 2 := by simpa using hn
    subst this
    exact ⟨map, newMap, rfl, inv⟩
  | n + 1, r, map, newMap, hr, hn, inv => by
    have hr' : 0 ≤ r ∧ r < R * 2 := by push_cast at hn; omega
    obtain ⟨map1, newMap1, h1, inv1⟩ :=
      resizeCols_inv hR hC hr' (C * 2).toNat 0 map newMap (le_refl _)
        (by rw [Int.toNat_of_nonneg (by omega)]; omega) inv
    obtain ⟨map', newMap', h2, inv'⟩ :=
      resizeRows_inv hR hC n (r + 1) map1 newMap1 (by omega) (by push_cast at hn; omega)
        (resizeInv_next_row inv1)
    refine ⟨map', newMap', ?_, inv'⟩
    unfold resizeRows
    simp only [h1, h2]

theorem isGrid_allocMap (rows cols : Int) (hr : 0 ≤ rows) (hc : 0 ≤ cols) :
    ∃ newMap, allocMap rows cols = some newMap ∧ IsGrid newMap rows cols := by
  refine ⟨_, if_neg (by omega), ?_, ?_⟩
  · simp [Int.toNat_of_nonneg hr]
  · intro row hrow
    rw [List.eq_of_mem_replicate hrow]
    simp [Int.toNat_of_nonneg hc]

/-- What `resizeMap` computes on a map of `rows` by `cols` cells, both positive: the call
completes, returns a map of doubled dimensions, and each cell holds `tiledCell`. -/
theorem resizeMap_cells {g : Grid} {rows cols : Int} (hrows : 0 < rows) (hcols : 0 < cols)
    (hg : IsGrid g rows cols) :
    ∃ g', resizeMap (some g) rows cols = some (some g', rows * 2, cols * 2) ∧
      IsGrid g' (rows * 2) (cols * 2) ∧
      ∀ r c, 0 ≤ r → r < rows * 2 → 0 ≤ c → c < cols * 2 →
        readCell g' r c = tiledCell g rows cols r c := by
  obtain ⟨newMap, halloc, hnew⟩ :=
    isGrid_allocMap (rows * 2) (cols * 2) (by omega) (by omega)
  have inv0 : ResizeInv g rows cols 0 0 g newMap :=
    ⟨hg, hnew, fun _ _ => rfl, fun _ _ _ => rfl, fun i j h hi hj _ => by omega⟩
  obtain ⟨map', g', hrun, inv⟩ :=
    resizeRows_inv hrows hcols (rows * 2).toNat 0 g newMap (le_refl _)
      (by rw [Int.toNat_of_nonneg (by omega)]; omega) inv0
  obtain ⟨_, hnew', _, _, hI3⟩ := inv
  refine ⟨g', ?_, hnew', fun r c hr hr' hc hc' => hI3 r c (by omega) hr hc hc'⟩
  unfold resizeMap
  have h0 : ¬ (rows = 0 ∨ cols = 0) := by omega
  simp only [if_neg h0, halloc, hrun]

/-- A finite check of `OnePlayerAt` for a map of known dimensions. -/
theorem onePlayerAt_of_bounded {g : Grid} (rows cols : Int) {pr pc : Int} (hg : IsGrid g rows cols)
    (hp : readCell g pr pc = some 'o')
    (h : ∀ i, i < rows.toNat → ∀ j, j < cols.toNat →
      readCell g (i : Int) (j : Int) = some 'o' → ((i : Int) = pr ∧ (j : Int) = pc)) :
    OnePlayerAt g pr pc := by
  intro r c
  constructor
  · intro hrc
    obtain ⟨⟨hr0, hr1⟩, hc0, hc1⟩ := (readCell_isSome_iff hg r c).1 ⟨_, hrc⟩
    have := h r.toNat (by omega) c.toNat (by omega)
    rw [Int.toNat_of_nonneg hr0, Int.toNat_of_nonneg hc0] at this
    exact this hrc
  · rintro ⟨rfl, rfl⟩; exact hp

/-! ## resizeMap: the claims -/

/-- Claim C1. For a map of `rows` by `cols` cells with `rows > 0` and `cols > 0`, `resizeMap`
returns a map of exactly `2 * rows` by `2 * cols` cells and sets `maxRow`, `maxCol` to the
doubled values; a cell `(r, c)` of the top-left quadrant equals the old cell `(r, c)`, and
any other cell equals the old cell `(r mod rows, c mod cols)` with PLAYER replaced by OPEN. -/
theorem resizeMap_doubles_and_tiles (g : Grid) (rows cols : Int) (hrows : 0 < rows)
    (hcols : 0 < cols) (hg : IsGrid g rows cols) :
    ∃ g', resizeMap (some g) rows cols = some (some g', 2 * rows, 2 * cols) ∧
      IsGrid g' (2 * rows) (2 * cols) ∧
      ∀ r c, 0 ≤ r → r < 2 * rows → 0 ≤ c → c < 2 * cols →
        readCell g' r c =
          if r < rows ∧ c < cols then readCell g r c
          else (readCell g (r % rows) (c % cols)).map fun t => if t = 'o' then '-' else t := by
  obtain ⟨g', h1, h2, h3⟩ := resizeMap_cells hrows hcols hg
  rw [mul_comm rows 2, mul_comm cols 2] at h1 h2 h3
  exact ⟨g', h1, h2, h3⟩

theorem resizeMap_doubles_and_tiles_witness :
    (0 : Int) < 2 ∧ (0 : Int) < 2 ∧ IsGrid [['o', '$'], ['M', '!']] 2 2 ∧
    ∃ g', resizeMap (some [['o', '$'], ['M', '!']]) 2 2 = some (some g', 2 * 2, 2 * 2) ∧
      IsGrid g' (2 * 2) (2 * 2) ∧
      ∀ r c, 0 ≤ r → r < 2 * 2 → 0 ≤ c → c < 2 * 2 →
        readCell g' r c =
          if r < 2 ∧ c < 2 then readCell [['o', '$'], ['M', '!']] r c
          else (readCell [['o', '$'], ['M', '!']] (r % 2) (c % 2)).map
            fun t => if t = 'o' then '-' else t :=
  ⟨by decide, by decide, by decide,
    resizeMap_doubles_and_tiles [['o', '$'], ['M', '!']] 2 2 (by decide) (by decide) (by decide)⟩

/-- Claim C2. For a non-empty map whose only PLAYER cell is `(pr, pc)`, the map returned by
`resizeMap` has exactly one PLAYER cell, at the same coordinates `(pr, pc)`; and the cell
`(r + rows, c + cols)` of the result equals the original cell `(r, c)` with PLAYER remapped to
OPEN. -/
theorem resizeMap_keeps_one_player (g : Grid) (rows cols pr pc : Int) (hrows : 0 < rows)
    (hcols : 0 < cols) (hg : IsGrid g rows cols) (hone : OnePlayerAt g pr pc) :
    ∃ g', resizeMap (some g) rows cols = some (some g', 2 * rows, 2 * cols) ∧
      OnePlayerAt g' pr pc ∧
      ∀ r c, 0 ≤ r → r < rows → 0 ≤ c → c < cols →
        readCell g' (r + rows) (c + cols) =
          (readCell g r c).map fun t => if t = 'o' then '-' else t := by
  obtain ⟨g', h1, h2, h3⟩ := resizeMap_cells hrows hcols hg
  rw [mul_comm rows 2, mul_comm cols 2] at h1
  refine ⟨g', h1, ?_, ?_⟩
  · intro r c
    constructor
    · intro hrc
      obtain ⟨⟨hr0, hr1⟩, hc0, hc1⟩ := (readCell_isSome_iff h2 r c).1 ⟨_, hrc⟩
      rw [h3 r c hr0 hr1 hc0 hc1] at hrc
      unfold tiledCell at hrc
      by_cases hq : r < rows ∧ c < cols
      · rw [if_pos hq] at hrc
        exact (hone r c).1 hrc
      · rw [if_neg hq] at hrc
        exfalso
        cases hread : readCell g (r % rows) (c % cols) with
        | none => rw [hread] at hrc; cases hrc
        | some t =>
          rw [hread, Option.map_some'] at hrc
          have hcopy : copyTile t = 'o' := Option.some.inj hrc
          unfold copyTile at hcopy
          by_cases ht : t = 'o'
          · rw [if_pos ht] at hcopy; exact absurd hcopy (by decide)
          · rw [if_neg ht] at hcopy; exact ht hcopy
    · rintro ⟨rfl, rfl⟩
      have hp : readCell g r c = some 'o' := (hone r c).2 ⟨rfl, rfl⟩
      obtain ⟨⟨hr0, hr1⟩, hc0, hc1⟩ := (readCell_isSome_iff hg r c).1 ⟨_, hp⟩
      rw [h3 r c hr0 (by omega) hc0 (by omega)]
      unfold tiledCell
      rw [if_pos ⟨hr1, hc1⟩]
      exact hp
  · intro r c hr0 hr1 hc0 hc1
    rw [h3 (r + rows) (c + cols) (by omega) (by omega) (by omega) (by omega)]
    unfold tiledCell
    have hq : ¬ (r + rows < rows ∧ c + cols < cols) := by omega
    rw [if_neg hq, Int.add_emod_self, Int.add_emod_self, Int.emod_eq_of_lt hr0 hr1,
      Int.emod_eq_of_lt hc0 hc1]
    rfl

theorem resizeMap_keeps_one_player_witness :
    (0 : Int) < 2 ∧ (0 : Int) < 2 ∧ IsGrid [['-', '$'], ['M', 'o']] 2 2 ∧
    OnePlayerAt [['-', '$'], ['M', 'o']] 1 1 ∧
    ∃ g', resizeMap (some [['-', '$'], ['M', 'o']]) 2 2 = some (some g', 2 * 2, 2 * 2) ∧
      OnePlayerAt g' 1 1 ∧
      ∀ r c, 0 ≤ r → r < 2 → 0 ≤ c → c < 2 →
        readCell g' (r + 2) (c + 2) =
          (readCell [['-', '$'], ['M', 'o']] r c).map fun t => if t = 'o' then '-' else t :=
  ⟨by decide, by decide, by decide,
    onePlayerAt_of_bounded 2 2 (by decide) (by decide) (by decide),
    resizeMap_keeps_one_player [['-', '$'], ['M', 'o']] 2 2 1 1 (by decide) (by decide)
      (by decide)
      (onePlayerAt_of_bounded 2 2 (by decide) (by decide) (by decide))⟩

/-! ## doPlayerMove -/

theorem relocate_eq_some {map map' : Grid} {p p' : Player} {nr nc : Int} :
    relocate map p nr nc = some (map', p') ↔
      ∃ map1, writeCell map p.row p.col '-' = some map1 ∧
        writeCell map1 nr nc 'o' = some map' ∧ p' = { p with row := nr, col := nc } := by
  unfold relocate
  cases h1 : writeCell map p.row p.col '-' with
  | none => simp
  | some map1 =>
    dsimp only
    cases h2 : writeCell map1 nr nc 'o' with
    | none => simp [h2]
    | some map2 =>
      simp only [Option.some.injEq, Prod.mk.injEq, exists_eq_left', h2]
      constructor
      · rintro ⟨rfl, rfl⟩; exact ⟨rfl, rfl⟩
      · rintro ⟨h, rfl⟩; exact ⟨h, rfl⟩

/-- The move itself is carried out whenever the player's cell and the target are cells of the
map. -/
theorem relocate_of_readCell {map : Grid} {p : Player} {nr nc : Int} {t t' : Char}
    (hp : readCell map p.row p.col = some t) (hn : readCell map nr nc = some t') :
    ∃ map', relocate map p nr nc = some (map', { p with row := nr, col := nc }) := by
  obtain ⟨map1, h1⟩ := writeCell_of_readCell hp '-'
  have hn1 : ∃ t1, readCell map1 nr nc = some t1 := by
    rw [readCell_writeCell h1]
    by_cases h : nr = p.row ∧ nc = p.col
    · exact ⟨_, if_pos h⟩
    · exact ⟨t', by rw [if_neg h]; exact hn⟩
  obtain ⟨t1, ht1⟩ := hn1
  obtain ⟨map2, h2⟩ := writeCell_of_readCell ht1 'o'
  exact ⟨map2, relocate_eq_some.2 ⟨map1, h1, h2, rfl⟩⟩

/-- The possible results of `doPlayerMove`: either nothing changed and the status is 0, or
the player was relocated (with the treasure count incremented when the target was a
treasure) and the status is the one of the target tile. -/
theorem doPlayerMove_cases {g g' : Grid} {maxRow maxCol nr nc s : Int} {p p' : Player}
    (h : doPlayerMove g maxRow maxCol p nr nc = some (g', p', s)) :
    (g' = g ∧ p' = p ∧ s = 0 ∧
      ((nc > maxCol ∨ nc < 0) ∨ (nr > maxRow ∨ nr < 0) ∨
        ∃ tile, readCell g nr nc = some tile ∧ tile ≠ '-' ∧ tile ≠ '$' ∧ tile ≠ '@' ∧
          tile ≠ '?' ∧ (tile = '!' → p.treasure ≤ 0))) ∨
    (¬ (nc > maxCol ∨ nc < 0) ∧ ¬ (nr > maxRow ∨ nr < 0) ∧
      ∃ tile, readCell g nr nc = some tile ∧
        ((tile = '-' ∧ s = 1 ∧ relocate g p nr nc = some (g', p')) ∨
         (tile = '$' ∧ s = 2 ∧
            relocate g { p with treasure := wrapInt (p.treasure + 1) } nr nc =
              some (g', p')) ∨
         (tile = '@' ∧ s = 3 ∧ relocate g p nr nc = some (g', p')) ∨
         (tile = '?' ∧ s = 4 ∧ relocate g p nr nc = some (g', p')) ∨
         (tile = '!' ∧ 0 < p.treasure ∧ s = 5 ∧ relocate g p nr nc = some (g', p')))) := by
  unfold doPlayerMove at h
  by_cases h1 : nc > maxCol ∨ nc < 0
  · rw [if_pos h1] at h
    simp only [Option.some.injEq, Prod.mk.injEq] at h
    obtain ⟨rfl, rfl, rfl⟩ := h
    exact Or.inl ⟨rfl, rfl, rfl, Or.inl h1⟩
  rw [if_neg h1] at h
  by_cases h2 : nr > maxRow ∨ nr < 0
  · rw [if_pos h2] at h
    simp only [Option.some.injEq, Prod.mk.injEq] at h
    obtain ⟨rfl, rfl, rfl⟩ := h
    exact Or.inl ⟨rfl, rfl, rfl, Or.inr (Or.inl h2)⟩
  rw [if_neg h2] at h
  cases ht : readCell g nr nc with
  | none => rw [ht] at h; cases h
  | some tile =>
    rw [ht] at h
    simp only at h
    have hmap : ∀ {q : Player} {k : Int},
        (relocate g q nr nc).map (fun mp => (mp.1, mp.2, k)) = some (g', p', s) →
        s = k ∧ relocate g q nr nc = some (g', p') := by
      intro q k hq
      cases hrel : relocate g q nr nc with
      | none => rw [hrel] at hq; cases hq
      | some mp =>
        rw [hrel] at hq
        simp only [Option.map_some', Option.some.injEq, Prod.mk.injEq] at hq
        obtain ⟨rfl, rfl, rfl⟩ := hq
        exact ⟨rfl, rfl⟩
    by_cases hb : tile = '+' ∨ tile = 'M'
    · rw [if_pos hb] at h
      simp only [Option.some.injEq, Prod.mk.injEq] at h
      obtain ⟨rfl, rfl, rfl⟩ := h
      refine Or.inl ⟨rfl, rfl, rfl, Or.inr (Or.inr ⟨tile, rfl, ?_⟩)⟩
      rcases hb with rfl | rfl
      · exact ⟨by decide, by decide, by decide, by decide, fun h' => absurd h' (by decide)⟩
      · exact ⟨by decide, by decide, by decide, by decide, fun h' => absurd h' (by decide)⟩
    rw [if_neg hb] at h
    by_cases ho : tile = '-'
    · rw [if_pos ho] at h
      obtain ⟨hs, hrel⟩ := hmap h
      exact Or.inr ⟨h1, h2, tile, rfl, Or.inl ⟨ho, hs, hrel⟩⟩
    rw [if_neg ho] at h
    by_cases hd : tile = '$'
    · rw [if_pos hd] at h
      obtain ⟨hs, hrel⟩ := hmap h
      exact Or.inr ⟨h1, h2, tile, rfl, Or.inr (Or.inl ⟨hd, hs, hrel⟩)⟩
    rw [if_neg hd] at h
    by_cases ha : tile = '@'
    · rw [if_pos ha] at h
      obtain ⟨hs, hrel⟩ := hmap h
      exact Or.inr ⟨h1, h2, tile, rfl, Or.inr (Or.inr (Or.inl ⟨ha, hs, hrel⟩))⟩
    rw [if_neg ha] at h
    by_cases hq : tile = '?'
    · rw [if_pos hq] at h
      obtain ⟨hs, hrel⟩ := hmap h
      exact Or.inr ⟨h1, h2, tile, rfl, Or.inr (Or.inr (Or.inr (Or.inl ⟨hq, hs, hrel⟩)))⟩
    rw [if_neg hq] at h
    by_cases he : tile = '!'
    · rw [if_pos he] at h
      by_cases htr : p.treasure > 0
      · rw [if_pos htr] at h
        obtain ⟨hs, hrel⟩ := hmap h
        exact Or.inr ⟨h1, h2, tile, rfl,
          Or.inr (Or.inr (Or.inr (Or.inr ⟨he, htr, hs, hrel⟩)))⟩
      · rw [if_neg htr] at h
        simp only [Option.some.injEq, Prod.mk.injEq] at h
        obtain ⟨rfl, rfl, rfl⟩ := h
        exact Or.inl ⟨rfl, rfl, rfl,
          Or.inr (Or.inr ⟨tile, rfl, ho, hd, ha, hq, fun _ => by omega⟩)⟩
    · rw [if_neg he] at h
      simp only [Option.some.injEq, Prod.mk.injEq] at h
      obtain ⟨rfl, rfl, rfl⟩ := h
      exact Or.inl ⟨rfl, rfl, rfl,
        Or.inr (Or.inr ⟨tile, rfl, ho, hd, ha, hq, fun h' => absurd h' he⟩)⟩

/-- The call completes whenever the target and the player's cell are cells of the map. -/
theorem doPlayerMove_completes {g : Grid} {maxRow maxCol nr nc : Int} {p : Player}
    {t t' : Char} (hn : readCell g nr nc = some t) (hp : readCell g p.row p.col = some t') :
    ∃ g' p' s, doPlayerMove g maxRow maxCol p nr nc = some (g', p', s) := by
  unfold doPlayerMove
  split
  · exact ⟨_, _, _, rfl⟩
  split
  · exact ⟨_, _, _, rfl⟩
  rw [hn]
  simp only
  obtain ⟨m1, hm1⟩ := relocate_of_readCell hp hn
  obtain ⟨m2, hm2⟩ :=
    relocate_of_readCell (p := { p with treasure := wrapInt (p.treasure + 1) }) hp hn
  split
  · exact ⟨_, _, _, rfl⟩
  split
  · rw [hm1]; exact ⟨_, _, _, rfl⟩
  split
  · rw [hm2]; exact ⟨_, _, _, rfl⟩
  split
  · rw [hm1]; exact ⟨_, _, _, rfl⟩
  split
  · rw [hm1]; exact ⟨_, _, _, rfl⟩
  split
  · split
    · rw [hm1]; exact ⟨_, _, _, rfl⟩
    · exact ⟨_, _, _, rfl⟩
  · exact ⟨_, _, _, rfl⟩

/-- The map after the move itself: the target holds the player, the cell left is open, the
other cells are as before. -/
theorem readCell_relocate {g g' : Grid} {p p' : Player} {nr nc : Int}
    (h : relocate g p nr nc = some (g', p')) (r c : Int) :
    readCell g' r c =
      if r = nr ∧ c = nc then some 'o'
      else if r = p.row ∧ c = p.col then some '-' else readCell g r c := by
  obtain ⟨map1, h1, h2, _⟩ := relocate_eq_some.1 h
  rw [readCell_writeCell h2, readCell_writeCell h1]

theorem isGrid_relocate {g g' : Grid} {p p' : Player} {nr nc rows cols : Int}
    (h : relocate g p nr nc = some (g', p')) (hg : IsGrid g rows cols) :
    IsGrid g' rows cols := by
  obtain ⟨map1, h1, h2, _⟩ := relocate_eq_some.1 h
  exact isGrid_writeCell h2 (isGrid_writeCell h1 hg)

/-! ## doPlayerMove: the claims -/

/-- Claim C3. For a target inside a map of `rows` by `cols` cells, the value returned by
`doPlayerMove` is determined by the target tile and the treasure count alone: 0 for PILLAR
or MONSTER, 1 for OPEN, 2 for TREASURE, 3 for AMULET, 4 for DOOR, and for EXIT 5 when the
treasure count is positive and 0 otherwise.  The value is returned for every player standing
on a cell of the map. -/
theorem doPlayerMove_status (g : Grid) (rows cols : Int) (p : Player) (nr nc : Int)
    (hg : IsGrid g rows cols) (hr : 0 ≤ nr ∧ nr < rows) (hc : 0 ≤ nc ∧ nc < cols) :
    ∃ tile, readCell g nr nc = some tile ∧
      (∀ g' p' s, doPlayerMove g rows cols p nr nc = some (g', p', s) →
        ((tile = '+' ∨ tile = 'M') → s = 0) ∧ (tile = '-' → s = 1) ∧ (tile = '$' → s = 2) ∧
        (tile = '@' → s = 3) ∧ (tile = '?' → s = 4) ∧
        (tile = '!' → (0 < p.treasure → s = 5) ∧ (p.treasure ≤ 0 → s = 0))) ∧
      (((0 ≤ p.row ∧ p.row < rows) ∧ (0 ≤ p.col ∧ p.col < cols)) →
        ∃ g' p' s, doPlayerMove g rows cols p nr nc = some (g', p', s)) := by
  obtain ⟨tile, ht⟩ := (readCell_isSome_iff hg nr nc).2 ⟨hr, hc⟩
  refine ⟨tile, ht, ?_, ?_⟩
  · intro g' p' s h
    rcases doPlayerMove_cases h with ⟨_, _, hs, hcase⟩ | ⟨_, _, tile', ht', hcase⟩
    · rcases hcase with hcol | hrow | ⟨tile', ht', h1, h2, h3, h4, h5⟩
      · omega
      · omega
      · rw [ht] at ht'
        obtain rfl := Option.some.inj ht'
        exact ⟨fun _ => hs, fun h' => absurd h' h1, fun h' => absurd h' h2,
          fun h' => absurd h' h3, fun h' => absurd h' h4,
          fun h' => ⟨fun hpos => absurd (h5 h') (by omega), fun _ => hs⟩⟩
    · rw [ht] at ht'
      obtain rfl := Option.some.inj ht'
      rcases hcase with ⟨rfl, hs, _⟩ | ⟨rfl, hs, _⟩ | ⟨rfl, hs, _⟩ | ⟨rfl, hs, _⟩ |
        ⟨rfl, hpos, hs, _⟩
      · exact ⟨fun h' => absurd h' (by decide), fun _ => hs, fun h' => absurd h' (by decide),
          fun h' => absurd h' (by decide), fun h' => absurd h' (by decide),
          fun h' => absurd h' (by decide)⟩
      · exact ⟨fun h' => absurd h' (by decide), fun h' => absurd h' (by decide), fun _ => hs,
          fun h' => absurd h' (by decide), fun h' => absurd h' (by decide),
          fun h' => absurd h' (by decide)⟩
      · exact ⟨fun h' => absurd h' (by decide), fun h' => absurd h' (by decide),
          fun h' => absurd h' (by decide), fun _ => hs, fun h' => absurd h' (by decide),
          fun h' => absurd h' (by decide)⟩
      · exact ⟨fun h' => absurd h' (by decide), fun h' => absurd h' (by decide),
          fun h' => absurd h' (by decide), fun h' => absurd h' (by decide), fun _ => hs,
          fun h' => absurd h' (by decide)⟩
      · exact ⟨fun h' => absurd h' (by decide), fun h' => absurd h' (by decide),
          fun h' => absurd h' (by decide), fun h' => absurd h' (by decide),
          fun h' => absurd h' (by decide), fun _ => ⟨fun _ => hs, fun h' => by omega⟩⟩
  · intro hp
    obtain ⟨t', ht'⟩ := (readCell_isSome_iff hg p.row p.col).2 hp
    exact doPlayerMove_completes ht ht'

theorem doPlayerMove_status_witness :
    IsGrid [['o', '!'], ['$', 'M']] 2 2 ∧ ((0 : Int) ≤ 0 ∧ (0 : Int) < 2) ∧
    ((0 : Int) ≤ 1 ∧ (1 : Int) < 2) ∧
    ∃ tile, readCell [['o', '!'], ['$', 'M']] 0 1 = some tile ∧
      (∀ g' p' s,
        doPlayerMove [['o', '!'], ['$', 'M']] 2 2 ⟨0, 0, 1⟩ 0 1 = some (g', p', s) →
        ((tile = '+' ∨ tile = 'M') → s = 0) ∧ (tile = '-' → s = 1) ∧ (tile = '$' → s = 2) ∧
        (tile = '@' → s = 3) ∧ (tile = '?' → s = 4) ∧
        (tile = '!' → (0 < (⟨0, 0, 1⟩ : Player).treasure → s = 5) ∧
          ((⟨0, 0, 1⟩ : Player).treasure ≤ 0 → s = 0))) ∧
      (((0 ≤ (⟨0, 0, 1⟩ : Player).row ∧ (⟨0, 0, 1⟩ : Player).row < 2) ∧
          (0 ≤ (⟨0, 0, 1⟩ : Player).col ∧ (⟨0, 0, 1⟩ : Player).col < 2)) →
        ∃ g' p' s, doPlayerMove [['o', '!'], ['$', 'M']] 2 2 ⟨0, 0, 1⟩ 0 1 = some (g', p', s)) :=
  ⟨by decide, by decide, by decide,
    doPlayerMove_status [['o', '!'], ['$', 'M']] 2 2 ⟨0, 0, 1⟩ 0 1 (by decide) (by decide)
      (by decide)⟩

/-- Claim C4. Whenever `doPlayerMove` returns 0 (Blocked), every cell of the map and the
three fields of the player are exactly as they were before the call. -/
theorem doPlayerMove_blocked_unchanged (g : Grid) (maxRow maxCol : Int) (p : Player)
    (nr nc : Int) (g' : Grid) (p' : Player)
    (h : doPlayerMove g maxRow maxCol p nr nc = some (g', p', 0)) :
    g' = g ∧ p'.row = p.row ∧ p'.col = p.col ∧ p'.treasure = p.treasure := by
  rcases doPlayerMove_cases h with ⟨rfl, rfl, _, _⟩ | ⟨_, _, tile, _, hcase⟩
  · exact ⟨rfl, rfl, rfl, rfl⟩
  · rcases hcase with ⟨_, hs, _⟩ | ⟨_, hs, _⟩ | ⟨_, hs, _⟩ | ⟨_, hs, _⟩ | ⟨_, _, hs, _⟩ <;>
      exact absurd hs (by decide)

theorem doPlayerMove_blocked_unchanged_witness :
    doPlayerMove [['o', '!'], ['$', 'M']] 2 2 ⟨0, 0, 0⟩ 0 1 =
      some ([['o', '!'], ['$', 'M']], ⟨0, 0, 0⟩, 0) ∧
    ([['o', '!'], ['$', 'M']] = [['o', '!'], ['$', 'M']] ∧
      (⟨0, 0, 0⟩ : Player).row = (⟨0, 0, 0⟩ : Player).row ∧
      (⟨0, 0, 0⟩ : Player).col = (⟨0, 0, 0⟩ : Player).col ∧
      (⟨0, 0, 0⟩ : Player).treasure = (⟨0, 0, 0⟩ : Player).treasure) :=
  ⟨by decide,
    doPlayerMove_blocked_unchanged [['o', '!'], ['$', 'M']] 2 2 ⟨0, 0, 0⟩ 0 1
      [['o', '!'], ['$', 'M']] ⟨0, 0, 0⟩ (by decide)⟩

/-- Claim C5. Whenever `doPlayerMove` returns a status other than 0 for a target different
from the player's cell, afterwards the player's row and column are the target, the cell the
player left holds OPEN, the target cell holds PLAYER, and every other cell is unchanged. -/
theorem doPlayerMove_moved (g : Grid) (maxRow maxCol : Int) (p : Player) (nr nc : Int)
    (g' : Grid) (p' : Player) (s : Int)
    (h : doPlayerMove g maxRow maxCol p nr nc = some (g', p', s)) (hs : s ≠ 0)
    (hne : ¬ (nr = p.row ∧ nc = p.col)) :
    (p'.row = nr ∧ p'.col = nc) ∧ readCell g' p.row p.col = some '-' ∧
      readCell g' nr nc = some 'o' ∧
      ∀ r c, ¬ (r = p.row ∧ c = p.col) → ¬ (r = nr ∧ c = nc) →
        readCell g' r c = readCell g r c := by
  have key : ∀ q : Player, q.row = p.row → q.col = p.col →
      relocate g q nr nc = some (g', p') →
      (p'.row = nr ∧ p'.col = nc) ∧ readCell g' p.row p.col = some '-' ∧
        readCell g' nr nc = some 'o' ∧
        ∀ r c, ¬ (r = p.row ∧ c = p.col) → ¬ (r = nr ∧ c = nc) →
          readCell g' r c = readCell g r c := by
    intro q hqr hqc hrel
    have hread := readCell_relocate hrel
    obtain ⟨_, _, _, hp'⟩ := relocate_eq_some.1 hrel
    rw [hqr, hqc] at hread
    refine ⟨by rw [hp']; exact ⟨rfl, rfl⟩, ?_, ?_, ?_⟩
    · rw [hread, if_neg (fun h' => hne ⟨h'.1.symm, h'.2.symm⟩), if_pos ⟨rfl, rfl⟩]
    · rw [hread, if_pos ⟨rfl, rfl⟩]
    · intro r c h1 h2
      rw [hread, if_neg h2, if_neg h1]
  rcases doPlayerMove_cases h with ⟨_, _, hs0, _⟩ | ⟨_, _, tile, _, hcase⟩
  · exact absurd hs0 hs
  · rcases hcase with ⟨_, _, hrel⟩ | ⟨_, _, hrel⟩ | ⟨_, _, hrel⟩ | ⟨_, _, hrel⟩ |
      ⟨_, _, _, hrel⟩
    · exact key p rfl rfl hrel
    · exact key { p with treasure := wrapInt (p.treasure + 1) } rfl rfl hrel
    · exact key p rfl rfl hrel
    · exact key p rfl rfl hrel
    · exact key p rfl rfl hrel

theorem doPlayerMove_moved_witness :
    doPlayerMove [['o', '!'], ['$', 'M']] 2 2 ⟨0, 0, 0⟩ 1 0 =
      some ([['-', '!'], ['o', 'M']], ⟨1, 0, 1⟩, 2) ∧ (2 : Int) ≠ 0 ∧
    ¬ ((1 : Int) = (⟨0, 0, 0⟩ : Player).row ∧ (0 : Int) = (⟨0, 0, 0⟩ : Player).col) ∧
    (((⟨1, 0, 1⟩ : Player).row = 1 ∧ (⟨1, 0, 1⟩ : Player).col = 0) ∧
      readCell [['-', '!'], ['o', 'M']] (⟨0, 0, 0⟩ : Player).row (⟨0, 0, 0⟩ : Player).col =
        some '-' ∧
      readCell [['-', '!'], ['o', 'M']] 1 0 = some 'o' ∧
      ∀ r c, ¬ (r = (⟨0, 0, 0⟩ : Player).row ∧ c = (⟨0, 0, 0⟩ : Player).col) →
        ¬ (r = 1 ∧ c = 0) →
        readCell [['-', '!'], ['o', 'M']] r c = readCell [['o', '!'], ['$', 'M']] r c) :=
  ⟨by decide, by decide, by decide,
    doPlayerMove_moved [['o', '!'], ['$', 'M']] 2 2 ⟨0, 0, 0⟩ 1 0 [['-', '!'], ['o', 'M']]
      ⟨1, 0, 1⟩ 2 (by decide) (by decide) (by decide)⟩

/-- The treasure count after a call of `doPlayerMove`, for any map and any bounds. -/
theorem doPlayerMove_treasure {g g' : Grid} {maxRow maxCol nr nc s : Int} {p p' : Player}
    (h : doPlayerMove g maxRow maxCol p nr nc = some (g', p', s)) :
    (p'.treasure = p.treasure ∧
      (readCell g nr nc = some '$' → (nc > maxCol ∨ nc < 0) ∨ (nr > maxRow ∨ nr < 0))) ∨
    (p'.treasure = wrapInt (p.treasure + 1) ∧ readCell g nr nc = some '$') := by
  rcases doPlayerMove_cases h with ⟨_, rfl, _, hcase⟩ | ⟨_, _, tile, ht, hcase⟩
  · refine Or.inl ⟨rfl, fun hd => ?_⟩
    rcases hcase with hcol | hrow | ⟨tile, ht, _, h2, _⟩
    · exact Or.inl hcol
    · exact Or.inr hrow
    · rw [hd] at ht
      exact absurd (Option.some.inj ht).symm h2
  · have hq : ∀ q : Player, relocate g q nr nc = some (g', p') → p'.treasure = q.treasure := by
      intro q hrel
      obtain ⟨_, _, _, hp'⟩ := relocate_eq_some.1 hrel
      rw [hp']
    rcases hcase with ⟨rfl, _, hrel⟩ | ⟨rfl, _, hrel⟩ | ⟨rfl, _, hrel⟩ | ⟨rfl, _, hrel⟩ |
      ⟨rfl, _, _, hrel⟩
    · exact Or.inl ⟨hq p hrel, fun hd => by rw [hd] at ht; exact absurd ht (by decide)⟩
    · exact Or.inr ⟨hq _ hrel, ht⟩
    · exact Or.inl ⟨hq p hrel, fun hd => by rw [hd] at ht; exact absurd ht (by decide)⟩
    · exact Or.inl ⟨hq p hrel, fun hd => by rw [hd] at ht; exact absurd ht (by decide)⟩
    · exact Or.inl ⟨hq p hrel, fun hd => by rw [hd] at ht; exact absurd ht (by decide)⟩

/-- An `int` below 2147483647 is incremented without wrapping. -/
theorem wrapInt_succ {t : Int} (hlo : -2147483648 ≤ t) (hhi : t < 2147483647) :
    wrapInt (t + 1) = t + 1 := by
  unfold wrapInt
  omega

/-- A call of the sequence on a treasure count below 2147483647 does not lower it, and raises
it by at most 1. -/
theorem playAction_treasure {maxRow maxCol : Int} {g g' : Grid} {p p' : Player} {b : Bool}
    {a : Action} (h : playAction maxRow maxCol g p a = some (g', p', b))
    (hlo : -2147483648 ≤ p.treasure) (hhi : p.treasure < 2147483647) :
    p.treasure ≤ p'.treasure ∧ p'.treasure ≤ p.treasure + 1 := by
  cases a with
  | move nr nc =>
    unfold playAction at h
    dsimp only at h
    cases hm : doPlayerMove g maxRow maxCol p nr nc with
    | none => rw [hm] at h; cases h
    | some res =>
      obtain ⟨g1, p1, s⟩ := res
      rw [hm] at h
      simp only [Option.map_some', Option.some.injEq, Prod.mk.injEq] at h
      obtain ⟨_, rfl, _⟩ := h
      rcases doPlayerMove_treasure hm with ⟨h1, _⟩ | ⟨h1, _⟩
      · omega
      · rw [wrapInt_succ hlo hhi] at h1
        omega
  | attack =>
    unfold playAction at h
    dsimp only at h
    cases hm : doMonsterAttack g maxRow maxCol p with
    | none => rw [hm] at h; cases h
    | some res =>
      rw [hm] at h
      simp only [Option.map_some', Option.some.injEq, Prod.mk.injEq] at h
      obtain ⟨_, rfl, _⟩ := h
      omega

/-- Unfolding of a non-empty sequence of calls. -/
theorem play_cons_eq_some {maxRow maxCol : Int} {a : Action} {rest : List Action}
    {g g' : Grid} {p p' : Player} {b : Bool}
    (h : play maxRow maxCol (a :: rest) g p = some (g', p', b)) :
    ∃ g1 p1 b1 b2, playAction maxRow maxCol g p a = some (g1, p1, b1) ∧
      play maxRow maxCol rest g1 p1 = some (g', p', b2) ∧ b = (b1 || b2) := by
  unfold play at h
  cases h1 : playAction maxRow maxCol g p a with
  | none => rw [h1] at h; cases h
  | some res1 =>
    obtain ⟨g1, p1, b1⟩ := res1
    rw [h1] at h
    dsimp only at h
    cases h2 : play maxRow maxCol rest g1 p1 with
    | none => rw [h2] at h; cases h
    | some res2 =>
      obtain ⟨g2, p2, b2⟩ := res2
      rw [h2] at h
      simp only [Option.some.injEq, Prod.mk.injEq] at h
      obtain ⟨rfl, rfl, rfl⟩ := h
      exact ⟨g1, p1, b1, b2, rfl, h2, rfl⟩

/-- A sequence of calls that is too short to take the treasure count to 2147483647 does not
lower it. -/
theorem play_treasure {maxRow maxCol : Int} :
    ∀ (actions : List Action) (g g' : Grid) (p p' : Player) (b : Bool),
      play maxRow maxCol actions g p = some (g', p', b) → -2147483648 ≤ p.treasure →
      p.treasure + actions.length ≤ 2147483647 →
      p.treasure ≤ p'.treasure ∧ p'.treasure ≤ p.treasure + actions.length
  | [], g, g', p, p', b, h, _, _ => by
    unfold play at h
    simp only [Option.some.injEq, Prod.mk.injEq] at h
    obtain ⟨_, rfl, _⟩ := h
    simp
  | a :: rest, g, g', p, p', b, h, hlo, hhi => by
    obtain ⟨g1, p1, b1, b2, h1, h2, _⟩ := play_cons_eq_some h
    rw [List.length_cons] at hhi ⊢
    push_cast at hhi ⊢
    obtain ⟨a1, a2⟩ := playAction_treasure h1 hlo (by omega)
    obtain ⟨c1, c2⟩ := play_treasure rest g1 g' p1 p' b2 h2 (by omega) (by omega)
    omega

theorem play_cons_of {maxRow maxCol : Int} {a : Action} {rest : List Action}
    {g g1 g2 : Grid} {p p1 p2 : Player} {b1 b2 : Bool}
    (h1 : playAction maxRow maxCol g p a = some (g1, p1, b1))
    (h2 : play maxRow maxCol rest g1 p1 = some (g2, p2, b2)) :
    play maxRow maxCol (a :: rest) g p = some (g2, p2, b1 || b2) := by
  rw [play, h1]
  dsimp only
  rw [h2]

/-- A sequence of calls does not lower the treasure count as long as the count is below
2147483647 before each call. -/
theorem play_treasure_below {maxRow maxCol : Int} :
    ∀ (actions : List Action) (g g' : Grid) (p p' : Player) (b : Bool),
      play maxRow maxCol actions g p = some (g', p', b) → -2147483648 ≤ p.treasure →
      (∀ i, i < actions.length → ∀ gi pi bi,
        play maxRow maxCol (actions.take i) g p = some (gi, pi, bi) →
        pi.treasure < 2147483647) →
      p.treasure ≤ p'.treasure
  | [], g, g', p, p', b, h, _, _ => by
    unfold play at h
    simp only [Option.some.injEq, Prod.mk.injEq] at h
    obtain ⟨_, rfl, _⟩ := h
    exact le_refl _
  | a :: rest, g, g', p, p', b, h, hlo, hpre => by
    obtain ⟨g1, p1, b1, b2, h1, h2, _⟩ := play_cons_eq_some h
    have h0 : p.treasure < 2147483647 :=
      hpre 0 (by simp) g p false (by rw [List.take_zero]; rfl)
    obtain ⟨a1, a2⟩ := playAction_treasure h1 hlo h0
    have hrec := play_treasure_below rest g1 g' p1 p' b2 h2 (by omega)
      (fun i hi gi pi bi hplay =>
        hpre (i + 1) (by simpa using hi) gi pi (b1 || bi)
          (by rw [List.take_succ_cons]; exact play_cons_of h1 hplay))
    omega

/-- Claim C6, as stated, fails at the largest `int`: a player that holds 2147483647 treasures
and steps onto a TREASURE tile holds -2147483648 afterwards, so the count is not the count
before plus 1, and it has decreased. -/
theorem treasure_wraps_at_int_max :
    IsGrid [['o', '$']] 1 2 ∧
    doPlayerMove [['o', '$']] 1 2 ⟨0, 0, 2147483647⟩ 0 1 =
      some ([['-', 'o']], ⟨0, 1, -2147483648⟩, 2) ∧
    (-2147483648 : Int) ≠ 2147483647 + 1 ∧ ¬ ((2147483647 : Int) ≤ -2147483648) ∧
    play 1 2 [Action.move 0 1] [['o', '$']] ⟨0, 0, 2147483647⟩ =
      some ([['-', 'o']], ⟨0, 1, -2147483648⟩, false) := by
  decide

/-- Claim C6, amended. For a treasure count that is a 32-bit `int`: after a call of
`doPlayerMove` on a map of `rows` by `cols` cells the count is the count before plus exactly 1
when the target tile is TREASURE and the count before is below 2147483647, and is the count
before in every other case; hence the count never decreases over a sequence of moves and
pursuit steps as long as it is below 2147483647 before each call of the sequence.  (The call
returns whenever the target and the player are cells of the map.) -/
theorem treasure_plus_one_below_int_max (g : Grid) (rows cols : Int) (p : Player)
    (nr nc : Int) (hg : IsGrid g rows cols)
    (hint : -2147483648 ≤ p.treasure ∧ p.treasure ≤ 2147483647) :
    (∀ g' p' s, doPlayerMove g rows cols p nr nc = some (g', p', s) →
      (readCell g nr nc = some '$' → p.treasure < 2147483647 →
        p'.treasure = p.treasure + 1) ∧
      (readCell g nr nc ≠ some '$' → p'.treasure = p.treasure)) ∧
    (∀ actions g' p' captured, play rows cols actions g p = some (g', p', captured) →
      (∀ i, i < actions.length → ∀ gi pi bi,
        play rows cols (actions.take i) g p = some (gi, pi, bi) →
        pi.treasure < 2147483647) →
      p.treasure ≤ p'.treasure) ∧
    (((0 ≤ nr ∧ nr < rows) ∧ (0 ≤ nc ∧ nc < cols)) →
      ((0 ≤ p.row ∧ p.row < rows) ∧ (0 ≤ p.col ∧ p.col < cols)) →
      ∃ g' p' s, doPlayerMove g rows cols p nr nc = some (g', p', s)) := by
  refine ⟨?_, fun actions g' p' b h hpre =>
    play_treasure_below actions g g' p p' b h hint.1 hpre, ?_⟩
  · intro g' p' s h
    rcases doPlayerMove_treasure h with ⟨h1, h2⟩ | ⟨h1, h2⟩
    · have hno : readCell g nr nc ≠ some '$' := by
        intro hd
        obtain ⟨hr, hc⟩ := (readCell_isSome_iff hg nr nc).1 ⟨_, hd⟩
        have := h2 hd
        omega
      exact ⟨fun hd => absurd hd hno, fun _ => h1⟩
    · refine ⟨fun _ hlt => ?_, fun hno => absurd h2 hno⟩
      rw [h1, wrapInt_succ hint.1 hlt]
  · intro hn hp
    obtain ⟨t, ht⟩ := (readCell_isSome_iff hg nr nc).2 hn
    obtain ⟨t', ht'⟩ := (readCell_isSome_iff hg p.row p.col).2 hp
    exact doPlayerMove_completes ht ht'

theorem treasure_plus_one_below_int_max_witness :
    IsGrid [['o', '!'], ['$', 'M']] 2 2 ∧
    (-2147483648 ≤ (⟨0, 0, 2147483646⟩ : Player).treasure ∧
      (⟨0, 0, 2147483646⟩ : Player).treasure ≤ 2147483647) ∧
    doPlayerMove [['o', '!'], ['$', 'M']] 2 2 ⟨0, 0, 2147483646⟩ 1 0 =
      some ([['-', '!'], ['o', 'M']], ⟨1, 0, 2147483647⟩, 2) ∧
    ((∀ g' p' s,
      doPlayerMove [['o', '!'], ['$', 'M']] 2 2 ⟨0, 0, 2147483646⟩ 1 0 = some (g', p', s) →
      (readCell [['o', '!'], ['$', 'M']] 1 0 = some '$' →
        (⟨0, 0, 2147483646⟩ : Player).treasure < 2147483647 →
        p'.treasure = (⟨0, 0, 2147483646⟩ : Player).treasure + 1) ∧
      (readCell [['o', '!'], ['$', 'M']] 1 0 ≠ some '$' →
        p'.treasure = (⟨0, 0, 2147483646⟩ : Player).treasure)) ∧
    (∀ actions g' p' captured,
      play 2 2 actions [['o', '!'], ['$', 'M']] ⟨0, 0, 2147483646⟩ = some (g', p', captured) →
      (∀ i, i < actions.length → ∀ gi pi bi,
        play 2 2 (actions.take i) [['o', '!'], ['$', 'M']] ⟨0, 0, 2147483646⟩ =
          some (gi, pi, bi) →
        pi.treasure < 2147483647) →
      (⟨0, 0, 2147483646⟩ : Player).treasure ≤ p'.treasure) ∧
    ((((0 : Int) ≤ 1 ∧ (1 : Int) < 2) ∧ ((0 : Int) ≤ 0 ∧ (0 : Int) < 2)) →
      ((0 ≤ (⟨0, 0, 2147483646⟩ : Player).row ∧ (⟨0, 0, 2147483646⟩ : Player).row < 2) ∧
        (0 ≤ (⟨0, 0, 2147483646⟩ : Player).col ∧ (⟨0, 0, 2147483646⟩ : Player).col < 2)) →
      ∃ g' p' s,
        doPlayerMove [['o', '!'], ['$', 'M']] 2 2 ⟨0, 0, 2147483646⟩ 1 0 = some (g', p', s))) :=
  ⟨by decide, by decide, by decide,
    treasure_plus_one_below_int_max [['o', '!'], ['$', 'M']] 2 2 ⟨0, 0, 2147483646⟩ 1 0
      (by decide) (by decide)⟩

/-- Claim C7. The bound check of `doPlayerMove` compares with `maxRow` instead of
`maxRow - 1`: with the player in the bottom row of a 2 by 2 map, a move one row down (target
row 2) passes the check, and the call reads `map[2][0]`, outside the array, instead of
returning Blocked. -/
theorem doPlayerMove_target_row_eq_rows_reads_outside :
    IsGrid [['-', '?'], ['o', '-']] 2 2 ∧
    ¬ ((2 : Int) > 2 ∨ (2 : Int) < 0) ∧
    readCell [['-', '?'], ['o', '-']] 2 0 = none ∧
    doPlayerMove [['-', '?'], ['o', '-']] 2 2 ⟨1, 0, 0⟩ 2 0 = none := by
  decide

/-! ## doMonsterAttack: the loops as ray scans -/

theorem attackUp_eq_scanRay (p : Player) :
    ∀ (n : Nat) (i : Int) (map : Grid) (b : Bool),
      attackUp p n i map b = scanRay p.row p.col (-1) 0 n i p.col map b
  | 0, _, _, _ => rfl
  | n + 1, i, map, b => by
    unfold attackUp scanRay
    have e1 : i - -1 = i + 1 := by omega
    have e2 : i + -1 = i - 1 := by omega
    simp only [e1, e2, sub_zero, add_zero, and_true, true_and, attackUp_eq_scanRay p n]

theorem attackDown_eq_scanRay (p : Player) :
    ∀ (n : Nat) (j : Int) (map : Grid) (b : Bool),
      attackDown p n j map b = scanRay p.row p.col 1 0 n j p.col map b
  | 0, _, _, _ => rfl
  | n + 1, j, map, b => by
    unfold attackDown scanRay
    simp only [sub_zero, add_zero, and_true, true_and, attackDown_eq_scanRay p n]

theorem attackRight_eq_scanRay (p : Player) :
    ∀ (n : Nat) (k : Int) (map : Grid) (b : Bool),
      attackRight p n k map b = scanRay p.row p.col 0 1 n p.row k map b
  | 0, _, _, _ => rfl
  | n + 1, k, map, b => by
    unfold attackRight scanRay
    simp only [sub_zero, add_zero, and_true, true_and, attackRight_eq_scanRay p n]

theorem attackLeft_eq_scanRay (p : Player) :
    ∀ (n : Nat) (z : Int) (map : Grid) (b : Bool),
      attackLeft p n z map b = scanRay p.row p.col 0 (-1) n p.row z map b
  | 0, _, _, _ => rfl
  | n + 1, z, map, b => by
    unfold attackLeft scanRay
    have e1 : z - -1 = z + 1 := by omega
    have e2 : z + -1 = z - 1 := by omega
    simp only [e1, e2, sub_zero, add_zero, and_true, true_and, attackLeft_eq_scanRay p n]

/-! ## Monsters in line of sight -/

theorem sighted_succ {dr dc : Int} {n : Nat} {r c : Int} {m : Grid} {t : Char}
    (h : readCell m r c = some t) :
    sighted dr dc (n + 1) r c m =
      if t = '+' then []
      else if t = 'M' then (r, c) :: sighted dr dc n (r + dr) (c + dc) m
      else sighted dr dc n (r + dr) (c + dc) m := by
  rw [sighted, h]

theorem sighted_succ_none {dr dc : Int} {n : Nat} {r c : Int} {m : Grid}
    (h : readCell m r c = none) : sighted dr dc (n + 1) r c m = [] := by
  rw [sighted, h]

/-- A sighted monster is a cell of the ray that holds `'M'`. -/
theorem mem_sighted {dr dc : Int} :
    ∀ (n : Nat) (r c : Int) (m : Grid) (x y : Int), (x, y) ∈ sighted dr dc n r c m →
      readCell m x y = some 'M' ∧ ∃ k : Nat, k < n ∧ x = r + k * dr ∧ y = c + k * dc
  | 0, _, _, _, _, _, h => by simp [sighted] at h
  | n + 1, r, c, m, x, y, h => by
    cases ht : readCell m r c with
    | none => rw [sighted_succ_none ht] at h; cases h
    | some t =>
      rw [sighted_succ ht] at h
      have tail : (x, y) ∈ sighted dr dc n (r + dr) (c + dc) m →
          readCell m x y = some 'M' ∧
            ∃ k : Nat, k < n + 1 ∧ x = r + k * dr ∧ y = c + k * dc := by
        intro h'
        obtain ⟨hM, k, hk, hx, hy⟩ := mem_sighted n (r + dr) (c + dc) m x y h'
        refine ⟨hM, k + 1, by omega, ?_, ?_⟩
        · rw [hx]; push_cast; ring
        · rw [hy]; push_cast; ring
      by_cases hp : t = '+'
      · rw [if_pos hp] at h; cases h
      rw [if_neg hp] at h
      by_cases hM : t = 'M'
      · rw [if_pos hM] at h
        rcases List.mem_cons.1 h with heq | h'
        · obtain ⟨rfl, rfl⟩ := Prod.mk.inj heq
          exact ⟨by rw [ht, hM], 0, by omega, by simp, by simp⟩
        · exact tail h'
      · rw [if_neg hM] at h
        exact tail h

/-- The sighted monsters depend only on the cells of the ray. -/
theorem sighted_congr {dr dc : Int} :
    ∀ (n : Nat) (r c : Int) (m m' : Grid),
      (∀ k : Nat, k < n → readCell m (r + k * dr) (c + k * dc) =
        readCell m' (r + k * dr) (c + k * dc)) →
      sighted dr dc n r c m = sighted dr dc n r c m'
  | 0, _, _, _, _, _ => rfl
  | n + 1, r, c, m, m', h => by
    have h0 : readCell m r c = readCell m' r c := by simpa using h 0 (by omega)
    have ih : sighted dr dc n (r + dr) (c + dc) m = sighted dr dc n (r + dr) (c + dc) m' := by
      apply sighted_congr
      intro k hk
      have := h (k + 1) (by omega)
      have e1 : r + ((k + 1 : Nat) : Int) * dr = r + dr + k * dr := by push_cast; ring
      have e2 : c + ((k + 1 : Nat) : Int) * dc = c + dc + k * dc := by push_cast; ring
      rw [e1, e2] at this
      exact this
    cases ht : readCell m r c with
    | none => rw [sighted_succ_none ht, sighted_succ_none (h0 ▸ ht)]
    | some t => rw [sighted_succ ht, sighted_succ (h0 ▸ ht), ih]

/-- A monster on the ray is sighted when the cells before it are cells of the map that hold
no pillar. -/
theorem mem_sighted_of_clear {dr dc : Int} :
    ∀ (n : Nat) (r c : Int) (m : Grid) (k : Nat), k < n →
      readCell m (r + k * dr) (c + k * dc) = some 'M' →
      (∀ j : Nat, j < k → ∃ t, readCell m (r + j * dr) (c + j * dc) = some t ∧ t ≠ '+') →
      (r + k * dr, c + k * dc) ∈ sighted dr dc n r c m
  | 0, _, _, _, _, hk, _, _ => by omega
  | n + 1, r, c, m, 0, _, hM, _ => by
    simp only [Nat.cast_zero, zero_mul, add_zero] at hM ⊢
    rw [sighted_succ hM]
    simp
  | n + 1, r, c, m, k + 1, hk, hM, hclear => by
    obtain ⟨t, ht, hp⟩ := hclear 0 (by omega)
    simp only [Nat.cast_zero, zero_mul, add_zero] at ht
    have e1 : r + ((k + 1 : Nat) : Int) * dr = r + dr + k * dr := by push_cast; ring
    have e2 : c + ((k + 1 : Nat) : Int) * dc = c + dc + k * dc := by push_cast; ring
    rw [e1, e2] at hM ⊢
    have ih := mem_sighted_of_clear n (r + dr) (c + dc) m k (by omega) hM (by
      intro j hj
      have := hclear (j + 1) (by omega)
      have e3 : r + ((j + 1 : Nat) : Int) * dr = r + dr + j * dr := by push_cast; ring
      have e4 : c + ((j + 1 : Nat) : Int) * dc = c + dc + j * dc := by push_cast; ring
      rw [e3, e4] at this
      exact this)
    rw [sighted_succ ht, if_neg hp]
    by_cases hM0 : t = 'M'
    · rw [if_pos hM0]; exact List.mem_cons_of_mem _ ih
    · rw [if_neg hM0]; exact ih

/-! ## The effect of one ray scan -/

/-- The cells of a ray are pairwise distinct and differ from the cell behind its start. -/
theorem ray_cell_ne {dr dc : Int} (hdir : IsDir dr dc) (r c : Int) (k : Nat) :
    ¬ (r + dr + k * dr = r ∧ c + dc + k * dc = c) ∧
    ¬ (r + dr + k * dr = r - dr ∧ c + dc + k * dc = c - dc) := by
  rcases hdir with ⟨rfl, rfl⟩ | ⟨rfl, rfl⟩ | ⟨rfl, rfl⟩ | ⟨rfl, rfl⟩ <;> constructor <;> omega

theorem dir_ne_zero {dr dc : Int} (hdir : IsDir dr dc) : ¬ (dr = 0 ∧ dc = 0) := by
  rcases hdir with ⟨rfl, rfl⟩ | ⟨rfl, rfl⟩ | ⟨rfl, rfl⟩ | ⟨rfl, rfl⟩ <;> omega

/-- Unfolding of one iteration of a scan that meets a monster. -/
theorem scanRay_succ_monster {pr pc dr dc : Int} {n : Nat} {r c : Int} {m m' : Grid}
    {b b' : Bool} (ht : readCell m r c = some 'M')
    (h : scanRay pr pc dr dc (n + 1) r c m b = some (m', b')) :
    ∃ m1 m2, writeCell m r c '-' = some m1 ∧ writeCell m1 (r - dr) (c - dc) 'M' = some m2 ∧
      scanRay pr pc dr dc n (r + dr) (c + dc) m2
        (if r - dr = pr ∧ c - dc = pc then true else b) = some (m', b') := by
  rw [scanRay, ht] at h
  have h1 : ¬ ('M' = '+') := by decide
  simp only [if_neg h1, if_true] at h
  cases hw1 : writeCell m r c '-' with
  | none => rw [hw1] at h; cases h
  | some m1 =>
    rw [hw1] at h
    dsimp only at h
    cases hw2 : writeCell m1 (r - dr) (c - dc) 'M' with
    | none => rw [hw2] at h; cases h
    | some m2 =>
      rw [hw2] at h
      exact ⟨m1, m2, rfl, hw2, h⟩

/-- The map and the flag after a scan, in terms of the monsters sighted before it: each of
them has moved one cell back along the ray, and nothing else has changed. -/
theorem scanRay_spec {pr pc dr dc : Int} (hdir : IsDir dr dc) :
    ∀ (n : Nat) (r c : Int) (m : Grid) (b : Bool) (m' : Grid) (b' : Bool),
      scanRay pr pc dr dc n r c m b = some (m', b') →
      (∀ x y, (x, y) ∈ sighted dr dc n r c m → readCell m' (x - dr) (y - dc) = some 'M') ∧
      (∀ x y, (x, y) ∈ sighted dr dc n r c m → (x + dr, y + dc) ∉ sighted dr dc n r c m →
        readCell m' x y = some '-') ∧
      (∀ x y, (x, y) ∉ sighted dr dc n r c m → (x + dr, y + dc) ∉ sighted dr dc n r c m →
        readCell m' x y = readCell m x y) ∧
      (b' = true ↔ b = true ∨ (pr + dr, pc + dc) ∈ sighted dr dc n r c m)
  | 0, r, c, m, b, m', b', h => by
    rw [scanRay] at h
    simp only [Option.some.injEq, Prod.mk.injEq] at h
    obtain ⟨rfl, rfl⟩ := h
    simp [sighted]
  | n + 1, r, c, m, b, m', b', h => by
    cases ht : readCell m r c with
    | none => rw [scanRay, ht] at h; cases h
    | some t =>
      by_cases hp : t = '+'
      · rw [scanRay, ht] at h
        simp only [if_pos hp, Option.some.injEq, Prod.mk.injEq] at h
        obtain ⟨rfl, rfl⟩ := h
        rw [sighted_succ ht, if_pos hp]
        simp
      by_cases hM : t = 'M'
      · subst hM
        obtain ⟨m1, m2, hw1, hw2, hrec⟩ := scanRay_succ_monster ht h
        obtain ⟨ih1, ih2, ih3, ih4⟩ :=
          scanRay_spec hdir n (r + dr) (c + dc) m2 _ m' b' hrec
        have hS : sighted dr dc n (r + dr) (c + dc) m2 = sighted dr dc n (r + dr) (c + dc) m := by
          apply sighted_congr
          intro k _
          obtain ⟨hne1, hne2⟩ := ray_cell_ne hdir r c k
          rw [readCell_writeCell hw2, if_neg hne2, readCell_writeCell hw1, if_neg hne1]
        rw [hS] at ih1 ih2 ih3 ih4
        rw [sighted_succ ht, if_neg hp, if_pos rfl]
        have hA : (r, c) ∉ sighted dr dc n (r + dr) (c + dc) m := by
          intro hmem
          obtain ⟨_, k, _, hx, hy⟩ := mem_sighted _ _ _ _ _ _ hmem
          exact (ray_cell_ne hdir r c k).1 ⟨hx.symm, hy.symm⟩
        have hB : (r - dr, c - dc) ∉ sighted dr dc n (r + dr) (c + dc) m := by
          intro hmem
          obtain ⟨_, k, _, hx, hy⟩ := mem_sighted _ _ _ _ _ _ hmem
          exact (ray_cell_ne hdir r c k).2 ⟨hx.symm, hy.symm⟩
        have hne : ¬ (r = r - dr ∧ c = c - dc) := by
          have := dir_ne_zero hdir; omega
        refine ⟨?_, ?_, ?_, ?_⟩
        · intro x y hxy
          rcases List.mem_cons.1 hxy with heq | hmem
          · obtain ⟨rfl, rfl⟩ := Prod.mk.inj heq
            rw [ih3 (x - dr) (y - dc) hB (by rw [sub_add_cancel, sub_add_cancel]; exact hA),
              readCell_writeCell hw2, if_pos ⟨rfl, rfl⟩]
          · exact ih1 x y hmem
        · intro x y hxy hnext
          have hnext' : (x + dr, y + dc) ∉ sighted dr dc n (r + dr) (c + dc) m :=
            fun h' => hnext (List.mem_cons_of_mem _ h')
          rcases List.mem_cons.1 hxy with heq | hmem
          · obtain ⟨rfl, rfl⟩ := Prod.mk.inj heq
            rw [ih3 x y hA hnext', readCell_writeCell hw2, if_neg hne,
              readCell_writeCell hw1, if_pos ⟨rfl, rfl⟩]
          · exact ih2 x y hmem hnext'
        · intro x y hxy hnext
          have h1 : ¬ (x = r ∧ y = c) := fun h' => hxy (by rw [h'.1, h'.2]; exact List.mem_cons_self _ _)
          have h2 : ¬ (x = r - dr ∧ y = c - dc) := fun h' =>
            hnext (by rw [h'.1, h'.2, sub_add_cancel, sub_add_cancel]; exact List.mem_cons_self _ _)
          rw [ih3 x y (fun h' => hxy (List.mem_cons_of_mem _ h'))
              (fun h' => hnext (List.mem_cons_of_mem _ h')),
            readCell_writeCell hw2, if_neg h2, readCell_writeCell hw1, if_neg h1]
        · rw [ih4, List.mem_cons, Prod.mk.injEq]
          by_cases hc : r - dr = pr ∧ c - dc = pc
          · rw [if_pos hc]
            have : pr + dr = r ∧ pc + dc = c := by omega
            simp [this]
          · rw [if_neg hc]
            have : ¬ (pr + dr = r ∧ pc + dc = c) := by omega
            simp [this]
      · rw [scanRay, ht] at h
        simp only [if_neg hp, if_neg hM] at h
        rw [sighted_succ ht, if_neg hp, if_neg hM]
        exact scanRay_spec hdir n (r + dr) (c + dc) m b m' b' h

/-- A scan keeps the dimensions of the map. -/
theorem isGrid_scanRay {pr pc dr dc rows cols : Int} :
    ∀ (n : Nat) (r c : Int) (m : Grid) (b : Bool) (m' : Grid) (b' : Bool),
      scanRay pr pc dr dc n r c m b = some (m', b') → IsGrid m rows cols → IsGrid m' rows cols
  | 0, r, c, m, b, m', b', h, hg => by
    rw [scanRay] at h
    simp only [Option.some.injEq, Prod.mk.injEq] at h
    obtain ⟨rfl, rfl⟩ := h
    exact hg
  | n + 1, r, c, m, b, m', b', h, hg => by
    cases ht : readCell m r c with
    | none => rw [scanRay, ht] at h; cases h
    | some t =>
      by_cases hp : t = '+'
      · rw [scanRay, ht] at h
        simp only [if_pos hp, Option.some.injEq, Prod.mk.injEq] at h
        obtain ⟨rfl, rfl⟩ := h
        exact hg
      by_cases hM : t = 'M'
      · subst hM
        obtain ⟨m1, m2, hw1, hw2, hrec⟩ := scanRay_succ_monster ht h
        exact isGrid_scanRay n _ _ m2 _ m' b' hrec
          (isGrid_writeCell hw2 (isGrid_writeCell hw1 hg))
      · rw [scanRay, ht] at h
        simp only [if_neg hp, if_neg hM] at h
        exact isGrid_scanRay n _ _ m b m' b' h hg

/-- A scan only ever writes `'-'` and `'M'`. -/
theorem scanRay_cell_cases {pr pc dr dc : Int} (hdir : IsDir dr dc) {n : Nat} {r c : Int}
    {m m' : Grid} {b b' : Bool} (h : scanRay pr pc dr dc n r c m b = some (m', b'))
    (x y : Int) :
    readCell m' x y = readCell m x y ∨ readCell m' x y = some '-' ∨
      readCell m' x y = some 'M' := by
  obtain ⟨h1, h2, h3, _⟩ := scanRay_spec hdir n r c m b m' b' h
  by_cases hn : (x + dr, y + dc) ∈ sighted dr dc n r c m
  · have := h1 _ _ hn
    rw [add_sub_cancel_right, add_sub_cancel_right] at this
    exact Or.inr (Or.inr this)
  · by_cases hs : (x, y) ∈ sighted dr dc n r c m
    · exact Or.inr (Or.inl (h2 x y hs hn))
    · exact Or.inl (h3 x y hs hn)

/-- The four scans that make up a completed call of `doMonsterAttack`. -/
theorem doMonsterAttack_eq_some {g g' : Grid} {maxRow maxCol : Int} {p : Player} {b : Bool}
    (h : doMonsterAttack g maxRow maxCol p = some (g', b)) :
    ∃ m1 b1 m2 b2 m3 b3,
      scanRay p.row p.col (-1) 0 (p.row + 1).toNat p.row p.col g false = some (m1, b1) ∧
      scanRay p.row p.col 1 0 (maxRow - p.row).toNat p.row p.col m1 b1 = some (m2, b2) ∧
      scanRay p.row p.col 0 1 (maxCol - p.col).toNat p.row p.col m2 b2 = some (m3, b3) ∧
      scanRay p.row p.col 0 (-1) (p.col + 1).toNat p.row p.col m3 b3 = some (g', b) := by
  unfold doMonsterAttack at h
  rw [attackUp_eq_scanRay] at h
  cases h1 : scanRay p.row p.col (-1) 0 (p.row + 1).toNat p.row p.col g false with
  | none => rw [h1] at h; cases h
  | some res1 =>
    obtain ⟨m1, b1⟩ := res1
    rw [h1] at h
    dsimp only at h
    rw [attackDown_eq_scanRay] at h
    cases h2 : scanRay p.row p.col 1 0 (maxRow - p.row).toNat p.row p.col m1 b1 with
    | none => rw [h2] at h; cases h
    | some res2 =>
      obtain ⟨m2, b2⟩ := res2
      rw [h2] at h
      dsimp only at h
      rw [attackRight_eq_scanRay] at h
      cases h3 : scanRay p.row p.col 0 1 (maxCol - p.col).toNat p.row p.col m2 b2 with
      | none => rw [h3] at h; cases h
      | some res3 =>
        obtain ⟨m3, b3⟩ := res3
        rw [h3] at h
        dsimp only at h
        rw [attackLeft_eq_scanRay] at h
        exact ⟨m1, b1, m2, b2, m3, b3, rfl, h2, h3, h⟩

theorem dir_up : IsDir (-1) 0 := Or.inl ⟨rfl, rfl⟩
theorem dir_down : IsDir 1 0 := Or.inr (Or.inl ⟨rfl, rfl⟩)
theorem dir_right : IsDir 0 1 := Or.inr (Or.inr (Or.inl ⟨rfl, rfl⟩))
theorem dir_left : IsDir 0 (-1) := Or.inr (Or.inr (Or.inr ⟨rfl, rfl⟩))

/-! ## The player's cell under pursuit -/

/-- A scan from the player's cell that ends with the flag down has not captured the player:
the flag was down before, and a map with its only PLAYER cell at the player's position is
still so. -/
theorem scanRay_keeps_player {pr pc dr dc : Int} (hdir : IsDir dr dc) {n : Nat} {m m' : Grid}
    {b : Bool} (h : scanRay pr pc dr dc n pr pc m b = some (m', false))
    (hone : OnePlayerAt m pr pc) : b = false ∧ OnePlayerAt m' pr pc := by
  obtain ⟨_, _, h3, h4⟩ := scanRay_spec hdir n pr pc m b m' false h
  have hb : b = false := by
    cases b with
    | false => rfl
    | true => exact absurd (h4.2 (Or.inl rfl)) (by decide)
  have hfront : (pr + dr, pc + dc) ∉ sighted dr dc n pr pc m := fun hmem =>
    absurd (h4.2 (Or.inr hmem)) (by decide)
  have hP : readCell m pr pc = some 'o' := (hone pr pc).2 ⟨rfl, rfl⟩
  have hself : (pr, pc) ∉ sighted dr dc n pr pc m := by
    intro hmem
    have := (mem_sighted _ _ _ _ _ _ hmem).1
    rw [hP] at this
    exact absurd this (by decide)
  refine ⟨hb, fun x y => ⟨fun hxy => ?_, ?_⟩⟩
  · rcases scanRay_cell_cases hdir h x y with h' | h' | h'
    · rw [h'] at hxy; exact (hone x y).1 hxy
    · rw [h'] at hxy; exact absurd hxy (by decide)
    · rw [h'] at hxy; exact absurd hxy (by decide)
  · rintro ⟨rfl, rfl⟩
    rw [h3 _ _ hself hfront]; exact hP

/-- A call of `doMonsterAttack` that returns `false` leaves the only PLAYER cell in place. -/
theorem doMonsterAttack_keeps_player {g g' : Grid} {maxRow maxCol : Int} {p : Player}
    (h : doMonsterAttack g maxRow maxCol p = some (g', false))
    (hone : OnePlayerAt g p.row p.col) : OnePlayerAt g' p.row p.col := by
  obtain ⟨m1, b1, m2, b2, m3, b3, h1, h2, h3, h4⟩ := doMonsterAttack_eq_some h
  have e3 : b3 = false := by
    cases b3 with
    | false => rfl
    | true =>
      exact absurd ((scanRay_spec dir_left _ _ _ _ _ _ _ h4).2.2.2.2 (Or.inl rfl)) (by decide)
  subst e3
  have e2 : b2 = false := by
    cases b2 with
    | false => rfl
    | true =>
      exact absurd ((scanRay_spec dir_right _ _ _ _ _ _ _ h3).2.2.2.2 (Or.inl rfl)) (by decide)
  subst e2
  have e1 : b1 = false := by
    cases b1 with
    | false => rfl
    | true =>
      exact absurd ((scanRay_spec dir_down _ _ _ _ _ _ _ h2).2.2.2.2 (Or.inl rfl)) (by decide)
  subst e1
  exact (scanRay_keeps_player dir_left h4
    (scanRay_keeps_player dir_right h3
      (scanRay_keeps_player dir_down h2
        (scanRay_keeps_player dir_up h1 hone).2).2).2).2

/-- A call of `doPlayerMove` leaves exactly one PLAYER cell, at the player's position. -/
theorem doPlayerMove_keeps_player {g g' : Grid} {maxRow maxCol nr nc s : Int} {p p' : Player}
    (h : doPlayerMove g maxRow maxCol p nr nc = some (g', p', s))
    (hone : OnePlayerAt g p.row p.col) : OnePlayerAt g' p'.row p'.col := by
  have key : ∀ q : Player, q.row = p.row → q.col = p.col →
      relocate g q nr nc = some (g', p') → OnePlayerAt g' p'.row p'.col := by
    intro q hqr hqc hrel
    have hread := readCell_relocate hrel
    obtain ⟨_, _, _, hp'⟩ := relocate_eq_some.1 hrel
    rw [hqr, hqc] at hread
    have hrow : p'.row = nr := by rw [hp']
    have hcol : p'.col = nc := by rw [hp']
    rw [hrow, hcol]
    intro x y
    rw [hread]
    by_cases h1 : x = nr ∧ y = nc
    · rw [if_pos h1]; exact ⟨fun _ => h1, fun _ => rfl⟩
    · rw [if_neg h1]
      by_cases h2 : x = p.row ∧ y = p.col
      · rw [if_pos h2]
        exact ⟨fun h' => absurd h' (by decide), fun h' => absurd h' h1⟩
      · rw [if_neg h2]
        exact ⟨fun h' => absurd ((hone x y).1 h') h2, fun h' => absurd h' h1⟩
  rcases doPlayerMove_cases h with ⟨rfl, rfl, _, _⟩ | ⟨_, _, tile, _, hcase⟩
  · exact hone
  · rcases hcase with ⟨_, _, hrel⟩ | ⟨_, _, hrel⟩ | ⟨_, _, hrel⟩ | ⟨_, _, hrel⟩ |
      ⟨_, _, _, hrel⟩
    · exact key p rfl rfl hrel
    · exact key { p with treasure := wrapInt (p.treasure + 1) } rfl rfl hrel
    · exact key p rfl rfl hrel
    · exact key p rfl rfl hrel
    · exact key p rfl rfl hrel

theorem playAction_keeps_player {maxRow maxCol : Int} {g g' : Grid} {p p' : Player}
    {a : Action} (h : playAction maxRow maxCol g p a = some (g', p', false))
    (hone : OnePlayerAt g p.row p.col) : OnePlayerAt g' p'.row p'.col := by
  cases a with
  | move nr nc =>
    unfold playAction at h
    dsimp only at h
    cases hm : doPlayerMove g maxRow maxCol p nr nc with
    | none => rw [hm] at h; cases h
    | some res =>
      obtain ⟨g1, p1, s⟩ := res
      rw [hm] at h
      simp only [Option.map_some', Option.some.injEq, Prod.mk.injEq] at h
      obtain ⟨rfl, rfl, _⟩ := h
      exact doPlayerMove_keeps_player hm hone
  | attack =>
    unfold playAction at h
    dsimp only at h
    cases hm : doMonsterAttack g maxRow maxCol p with
    | none => rw [hm] at h; cases h
    | some res =>
      obtain ⟨g1, b1⟩ := res
      rw [hm] at h
      simp only [Option.map_some', Option.some.injEq, Prod.mk.injEq] at h
      obtain ⟨rfl, rfl, rfl⟩ := h
      exact doMonsterAttack_keeps_player hm hone

theorem play_keeps_player {maxRow maxCol : Int} :
    ∀ (actions : List Action) (g g' : Grid) (p p' : Player),
      play maxRow maxCol actions g p = some (g', p', false) →
      OnePlayerAt g p.row p.col → OnePlayerAt g' p'.row p'.col
  | [], g, g', p, p', h, hone => by
    unfold play at h
    simp only [Option.some.injEq, Prod.mk.injEq] at h
    obtain ⟨rfl, rfl, _⟩ := h
    exact hone
  | a :: rest, g, g', p, p', h, hone => by
    obtain ⟨g1, p1, b1, b2, h1, h2, hb⟩ := play_cons_eq_some h
    have hb1 : b1 = false := by
      cases b1 with
      | false => rfl
      | true => simp at hb
    have hb2 : b2 = false := by
      cases b2 with
      | false => rfl
      | true => rw [hb1] at hb; simp at hb
    subst hb1 hb2
    exact play_keeps_player rest g1 g' p1 p' h2 (playAction_keeps_player h1 hone)

/-! ## doMonsterAttack: the claims -/

/-- Claim C8, as stated, fails: a monster directly above the player is moved onto the
player's cell (the call returns `true`), and after the call the map has no PLAYER cell at the
player's position. -/
theorem capture_overwrites_player :
    IsGrid [['M', '?'], ['o', '-']] 2 2 ∧ OnePlayerAt [['M', '?'], ['o', '-']] 1 0 ∧
    play 2 2 [Action.attack] [['M', '?'], ['o', '-']] ⟨1, 0, 0⟩ =
      some ([['M', '?'], ['-', '-']], ⟨1, 0, 0⟩, true) ∧
    ¬ OnePlayerAt [['M', '?'], ['-', '-']] 1 0 := by
  refine ⟨by decide, onePlayerAt_of_bounded 2 2 (by decide) (by decide) (by decide),
    by decide, fun h => ?_⟩
  have := (h 1 0).2 ⟨rfl, rfl⟩
  revert this
  decide

/-- Claim C8, amended. Starting from a state in which the map has exactly one PLAYER cell, at
the player's position, after any sequence of `doPlayerMove` and `doMonsterAttack` calls in
which no `doMonsterAttack` call returns `true`, the map still has exactly one PLAYER cell and
it is at the player's position. -/
theorem one_player_kept_without_capture (g : Grid) (rows cols : Int) (p : Player)
    (actions : List Action) (g' : Grid) (p' : Player)
    (hone : OnePlayerAt g p.row p.col)
    (h : play rows cols actions g p = some (g', p', false)) :
    OnePlayerAt g' p'.row p'.col :=
  play_keeps_player actions g g' p p' h hone

theorem one_player_kept_without_capture_witness :
    OnePlayerAt [['o', '-', 'M'], ['$', '+', '?']] (⟨0, 0, 0⟩ : Player).row
      (⟨0, 0, 0⟩ : Player).col ∧
    play 2 3 [Action.move 1 0, Action.attack, Action.move 0 0, Action.attack]
        [['o', '-', 'M'], ['$', '+', '?']] ⟨0, 0, 0⟩ =
      some ([['o', 'M', '-'], ['-', '+', '?']], ⟨0, 0, 1⟩, false) ∧
    OnePlayerAt [['o', 'M', '-'], ['-', '+', '?']] (⟨0, 0, 1⟩ : Player).row
      (⟨0, 0, 1⟩ : Player).col :=
  ⟨onePlayerAt_of_bounded 2 3 (by decide) (by decide) (by decide), by decide,
    one_player_kept_without_capture [['o', '-', 'M'], ['$', '+', '?']] 2 3 ⟨0, 0, 0⟩
      [Action.move 1 0, Action.attack, Action.move 0 0, Action.attack]
      [['o', 'M', '-'], ['-', '+', '?']] ⟨0, 0, 1⟩
      (onePlayerAt_of_bounded 2 3 (by decide) (by decide) (by decide)) (by decide)⟩

/-! ## Monsters on a ray under the scans of the other rays -/

/-- A scan never creates a pillar, and keeps every cell of the map a cell of the map. -/
theorem scanRay_not_pillar_stays {pr pc dr dc : Int} (hd : IsDir dr dc) {n : Nat} {r c : Int}
    {m m' : Grid} {b b' : Bool} (h : scanRay pr pc dr dc n r c m b = some (m', b'))
    {x y : Int} (hxy : ∃ t, readCell m x y = some t ∧ t ≠ '+') :
    ∃ t, readCell m' x y = some t ∧ t ≠ '+' := by
  obtain ⟨t, ht, hp⟩ := hxy
  rcases scanRay_cell_cases hd h x y with h' | h' | h'
  · exact ⟨t, by rw [h', ht], hp⟩
  · exact ⟨'-', h', by decide⟩
  · exact ⟨'M', h', by decide⟩

/-- The cell next to the start of a ray is sighted exactly when it holds a monster and the
start cell holds no pillar. -/
theorem front_mem_sighted_iff {dr dc : Int} (hd : IsDir dr dc) (n : Nat) (r c : Int) (m : Grid) :
    (r + dr, c + dc) ∈ sighted dr dc n r c m ↔
      2 ≤ n ∧ (∃ t, readCell m r c = some t ∧ t ≠ '+') ∧
        readCell m (r + dr) (c + dc) = some 'M' := by
  constructor
  · intro hmem
    obtain ⟨hM, k, hk, hx, hy⟩ := mem_sighted _ _ _ _ _ _ hmem
    have hk1 : k = 1 := by
      rcases hd with ⟨rfl, rfl⟩ | ⟨rfl, rfl⟩ | ⟨rfl, rfl⟩ | ⟨rfl, rfl⟩ <;> omega
    refine ⟨by omega, ?_, hM⟩
    obtain ⟨n', rfl⟩ : ∃ n', n = n' + 1 := ⟨n - 1, by omega⟩
    cases ht : readCell m r c with
    | none => rw [sighted_succ_none ht] at hmem; cases hmem
    | some t =>
      refine ⟨t, rfl, fun hp => ?_⟩
      rw [sighted_succ ht, if_pos hp] at hmem
      cases hmem
  · rintro ⟨hn, hclear, hM⟩
    have := mem_sighted_of_clear n r c m 1 (by omega) (by simpa using hM) (by
      intro j hj
      obtain rfl : j = 0 := by omega
      simpa using hclear)
    simpa using this

/-- A scan from the player's cell that ends with the flag down has left the player's cell
as it was. -/
theorem scanRay_player_cell_kept {pr pc dr dc : Int} (hd : IsDir dr dc) {n : Nat}
    {m m' : Grid} {b : Bool} (h : scanRay pr pc dr dc n pr pc m b = some (m', false))
    (hP : readCell m pr pc = some 'o') : b = false ∧ readCell m' pr pc = some 'o' := by
  obtain ⟨_, _, h3, h4⟩ := scanRay_spec hd n pr pc m b m' false h
  have hb : b = false := by
    cases b with
    | false => rfl
    | true => exact absurd (h4.2 (Or.inl rfl)) (by decide)
  have hfront : (pr + dr, pc + dc) ∉ sighted dr dc n pr pc m := fun hmem =>
    absurd (h4.2 (Or.inr hmem)) (by decide)
  have hself : (pr, pc) ∉ sighted dr dc n pr pc m := by
    intro hmem
    have := (mem_sighted _ _ _ _ _ _ hmem).1
    rw [hP] at this
    exact absurd this (by decide)
  exact ⟨hb, by rw [h3 _ _ hself hfront]; exact hP⟩

/-- The flag returned by a completed call of `doMonsterAttack` on a map whose player cell
holds PLAYER: it is `true` exactly when one of the four cells next to the player held a
monster before the call. -/
theorem doMonsterAttack_flag_iff_adjacent {g g' : Grid} {rows cols : Int} {p : Player}
    {b : Bool} (hg : IsGrid g rows cols) (hP : readCell g p.row p.col = some 'o')
    (h : doMonsterAttack g rows cols p = some (g', b)) :
    b = true ↔
      (readCell g (p.row - 1) p.col = some 'M' ∨ readCell g (p.row + 1) p.col = some 'M' ∨
        readCell g p.row (p.col + 1) = some 'M' ∨ readCell g p.row (p.col - 1) = some 'M') := by
  obtain ⟨m1, b1, m2, b2, m3, b3, h1, h2, h3, h4⟩ := doMonsterAttack_eq_some h
  have hg1 := isGrid_scanRay _ _ _ _ _ _ _ h1 hg
  have hg2 := isGrid_scanRay _ _ _ _ _ _ _ h2 hg1
  have hg3 := isGrid_scanRay _ _ _ _ _ _ _ h3 hg2
  have hp0 : ∃ t, readCell g p.row p.col = some t ∧ t ≠ '+' := ⟨'o', hP, by decide⟩
  have hp1 := scanRay_not_pillar_stays dir_up h1 hp0
  have hp2 := scanRay_not_pillar_stays dir_down h2 hp1
  have hp3 := scanRay_not_pillar_stays dir_right h3 hp2
  obtain ⟨_, _, u3, u4⟩ := scanRay_spec dir_up _ _ _ _ _ _ _ h1
  obtain ⟨_, _, d3, d4⟩ := scanRay_spec dir_down _ _ _ _ _ _ _ h2
  obtain ⟨r1, _, r3, r4⟩ := scanRay_spec dir_right _ _ _ _ _ _ _ h3
  obtain ⟨_, _, _, l4⟩ := scanRay_spec dir_left _ _ _ _ _ _ _ h4
  rw [front_mem_sighted_iff dir_up] at u4
  rw [front_mem_sighted_iff dir_down] at d4
  rw [front_mem_sighted_iff dir_right] at r4
  rw [front_mem_sighted_iff dir_left] at l4
  have hself0 : (p.row, p.col) ∉ sighted (-1) 0 (p.row + 1).toNat p.row p.col g := by
    intro hmem
    have := (mem_sighted _ _ _ _ _ _ hmem).1
    rw [hP] at this
    exact absurd this (by decide)
  -- the cell below the player is not touched by the first scan
  have hD : readCell m1 (p.row + 1) p.col = readCell g (p.row + 1) p.col := by
    apply u3
    · intro hmem
      obtain ⟨_, k, _, hx, hy⟩ := mem_sighted _ _ _ _ _ _ hmem
      omega
    · have e : p.row + 1 + -1 = p.row := by omega
      rw [e, add_zero]; exact hself0
  -- the cell to the right is touched by neither of the first two scans
  have hR : readCell m2 p.row (p.col + 1) = readCell g p.row (p.col + 1) := by
    rw [d3, u3]
    all_goals
      intro hmem
      obtain ⟨_, k, _, hx, hy⟩ := mem_sighted _ _ _ _ _ _ hmem
      omega
  -- the cell to the left is touched by neither of the first two scans
  have hL2 : readCell m2 p.row (p.col - 1) = readCell g p.row (p.col - 1) := by
    rw [d3, u3]
    all_goals
      intro hmem
      obtain ⟨_, k, _, hx, hy⟩ := mem_sighted _ _ _ _ _ _ hmem
      omega
  have hU : readCell g (p.row + -1) (p.col + 0) = some 'M' ↔
      readCell g (p.row - 1) p.col = some 'M' := by
    rw [add_zero]; rfl
  have hn1 : readCell g (p.row - 1) p.col = some 'M' → 2 ≤ (p.row + 1).toNat := by
    intro hM
    obtain ⟨⟨a, _⟩, _⟩ := (readCell_isSome_iff hg _ _).1 ⟨_, hM⟩
    omega
  have hn2 : readCell g (p.row + 1) p.col = some 'M' → 2 ≤ (rows - p.row).toNat := by
    intro hM
    obtain ⟨⟨_, a⟩, _⟩ := (readCell_isSome_iff hg _ _).1 ⟨_, hM⟩
    omega
  have hn3 : readCell g p.row (p.col + 1) = some 'M' → 2 ≤ (cols - p.col).toNat := by
    intro hM
    obtain ⟨_, _, a⟩ := (readCell_isSome_iff hg _ _).1 ⟨_, hM⟩
    omega
  have hn4 : readCell m3 p.row (p.col - 1) = some 'M' → 2 ≤ (p.col + 1).toNat := by
    intro hM
    obtain ⟨_, a, _⟩ := (readCell_isSome_iff hg3 _ _).1 ⟨_, hM⟩
    omega
  have e1 : b1 = true ↔ readCell g (p.row - 1) p.col = some 'M' := by
    rw [u4, hU]
    constructor
    · rintro (hf | ⟨_, _, hM⟩)
      · exact absurd hf (by decide)
      · exact hM
    · intro hM; exact Or.inr ⟨hn1 hM, hp0, hM⟩
  have e2 : b2 = true ↔ (b1 = true ∨ readCell g (p.row + 1) p.col = some 'M') := by
    rw [d4, add_zero, hD]
    constructor
    · rintro (hf | ⟨_, _, hM⟩)
      · exact Or.inl hf
      · exact Or.inr hM
    · rintro (hf | hM)
      · exact Or.inl hf
      · exact Or.inr ⟨hn2 hM, hp1, hM⟩
  have e3 : b3 = true ↔ (b2 = true ∨ readCell g p.row (p.col + 1) = some 'M') := by
    rw [r4, add_zero, hR]
    constructor
    · rintro (hf | ⟨_, _, hM⟩)
      · exact Or.inl hf
      · exact Or.inr hM
    · rintro (hf | hM)
      · exact Or.inl hf
      · exact Or.inr ⟨hn3 hM, hp2, hM⟩
  have e4 : b = true ↔ (b3 = true ∨ readCell m3 p.row (p.col - 1) = some 'M') := by
    rw [l4, add_zero]
    have e : p.col + -1 = p.col - 1 := by omega
    rw [e]
    constructor
    · rintro (hf | ⟨_, _, hM⟩)
      · exact Or.inl hf
      · exact Or.inr hM
    · rintro (hf | hM)
      · exact Or.inl hf
      · exact Or.inr ⟨hn4 hM, hp3, hM⟩
  -- the third scan changes the cell to the left only when a monster stands on the player's cell
  have hL : readCell m3 p.row (p.col - 1) = some 'M' →
      b2 = true ∨ readCell g p.row (p.col - 1) = some 'M' := by
    intro hM
    by_cases hself : (p.row, p.col) ∈ sighted 0 1 (cols - p.col).toNat p.row p.col m2
    · left
      have hM2 := (mem_sighted _ _ _ _ _ _ hself).1
      cases hb2 : b2 with
      | true => rfl
      | false =>
        exfalso
        rw [hb2] at h2
        obtain ⟨hb1, hP1'⟩ : b1 = false ∧ readCell m2 p.row p.col = some 'o' := by
          cases hb1 : b1 with
          | true =>
            rw [hb1] at h2
            exact absurd ((scanRay_spec dir_down _ _ _ _ _ _ _ h2).2.2.2.2 (Or.inl rfl))
              (by decide)
          | false =>
            rw [hb1] at h1 h2
            exact ⟨rfl, (scanRay_player_cell_kept dir_down h2
              (scanRay_player_cell_kept dir_up h1 hP).2).2⟩
        rw [hP1'] at hM2
        exact absurd hM2 (by decide)
    · right
      rw [← hL2, ← r3 p.row (p.col - 1)]
      · exact hM
      · intro hmem
        obtain ⟨_, k, _, hx, hy⟩ := mem_sighted _ _ _ _ _ _ hmem
        omega
      · have e : p.col - 1 + 1 = p.col := by omega
        rw [add_zero, e]; exact hself
  have hL' : readCell g p.row (p.col - 1) = some 'M' →
      readCell m3 p.row (p.col - 1) = some 'M' := by
    intro hM
    by_cases hself : (p.row, p.col) ∈ sighted 0 1 (cols - p.col).toNat p.row p.col m2
    · have := r1 _ _ hself
      rw [sub_zero] at this
      exact this
    · rw [r3 p.row (p.col - 1), hL2]
      · exact hM
      · intro hmem
        obtain ⟨_, k, _, hx, hy⟩ := mem_sighted _ _ _ _ _ _ hmem
        omega
      · have e : p.col - 1 + 1 = p.col := by omega
        rw [add_zero, e]; exact hself
  rw [e4, e3, e2, e1]
  constructor
  · rintro (((hu | hd) | hr) | hl)
    · exact Or.inl hu
    · exact Or.inr (Or.inl hd)
    · exact Or.inr (Or.inr (Or.inl hr))
    · rcases hL hl with hb2 | hl'
      · rcases e2.1 hb2 with hb1 | hd
        · exact Or.inl (e1.1 hb1)
        · exact Or.inr (Or.inl hd)
      · exact Or.inr (Or.inr (Or.inr hl'))
  · rintro (hu | hd | hr | hl)
    · exact Or.inl (Or.inl (Or.inl hu))
    · exact Or.inl (Or.inl (Or.inr hd))
    · exact Or.inl (Or.inr hr)
    · exact Or.inr (hL' hl)

/-! ## When a call of doMonsterAttack leaves the array -/

/-- Claim C10. With the player in column 0 and a monster directly below, the monster is moved
onto the player's cell by the second loop, and the third loop, which starts on the player's
own cell, moves it on to `map[0][-1]`, outside the array: the call does not return `true`, it
has undefined behaviour. -/
theorem doMonsterAttack_column_zero_monster_below_writes_outside :
    IsGrid [['o', '-'], ['M', '?']] 2 2 ∧
    readCell [['o', '-'], ['M', '?']] 0 0 = some 'o' ∧
    readCell [['o', '-'], ['M', '?']] (0 + 1) 0 = some 'M' ∧
    attackDown ⟨0, 0, 0⟩ 2 0 [['o', '-'], ['M', '?']] false =
      some ([['M', '-'], ['-', '?']], true) ∧
    writeCell [['-', '-'], ['-', '?']] 0 (0 - 1) 'M' = none ∧
    doMonsterAttack [['o', '-'], ['M', '?']] 2 2 ⟨0, 0, 0⟩ = none := by
  decide

/-! ## Rays without a monster in sight -/

/-- A sighted monster has no pillar between the start of the ray and itself. -/
theorem mem_sighted_clear {dr dc : Int} :
    ∀ (n : Nat) (r c : Int) (m : Grid) (x y : Int), (x, y) ∈ sighted dr dc n r c m →
      ∃ k : Nat, k < n ∧ x = r + k * dr ∧ y = c + k * dc ∧ readCell m x y = some 'M' ∧
        ∀ j : Nat, j < k → readCell m (r + j * dr) (c + j * dc) ≠ some '+'
  | 0, _, _, _, _, _, h => by simp [sighted] at h
  | n + 1, r, c, m, x, y, h => by
    cases ht : readCell m r c with
    | none => rw [sighted_succ_none ht] at h; cases h
    | some t =>
      rw [sighted_succ ht] at h
      by_cases hp : t = '+'
      · rw [if_pos hp] at h; cases h
      rw [if_neg hp] at h
      have tail : (x, y) ∈ sighted dr dc n (r + dr) (c + dc) m →
          ∃ k : Nat, k < n + 1 ∧ x = r + k * dr ∧ y = c + k * dc ∧ readCell m x y = some 'M' ∧
            ∀ j : Nat, j < k → readCell m (r + j * dr) (c + j * dc) ≠ some '+' := by
        intro h'
        obtain ⟨k, hk, hx, hy, hM, hclear⟩ := mem_sighted_clear n (r + dr) (c + dc) m x y h'
        refine ⟨k + 1, by omega, ?_, ?_, hM, ?_⟩
        · rw [hx]; push_cast; ring
        · rw [hy]; push_cast; ring
        · intro j hj
          rcases Nat.eq_zero_or_pos j with rfl | hjpos
          · simp only [Nat.cast_zero, zero_mul, add_zero]
            rw [ht]
            exact fun h0 => hp (Option.some.inj h0)
          · obtain ⟨i, rfl⟩ : ∃ i, j = i + 1 := ⟨j - 1, by omega⟩
            have := hclear i (by omega)
            have e1 : r + ((i + 1 : Nat) : Int) * dr = r + dr + i * dr := by push_cast; ring
            have e2 : c + ((i + 1 : Nat) : Int) * dc = c + dc + i * dc := by push_cast; ring
            rw [e1, e2]
            exact this
      by_cases hM : t = 'M'
      · rw [if_pos hM] at h
        rcases List.mem_cons.1 h with heq | h'
        · obtain ⟨rfl, rfl⟩ := Prod.mk.inj heq
          exact ⟨0, by omega, by simp, by simp, by rw [ht, hM],
            fun j hj => absurd hj (by omega)⟩
        · exact tail h'
      · rw [if_neg hM] at h
        exact tail h

/-- A scan of a ray without a sighted monster changes neither the map nor the flag. -/
theorem scanRay_of_sighted_nil (pr pc : Int) {dr dc : Int} :
    ∀ (n : Nat) (r c : Int) (m : Grid) (b : Bool),
      sighted dr dc n r c m = [] →
      (∀ k : Nat, k < n → ∃ t, readCell m (r + k * dr) (c + k * dc) = some t) →
      scanRay pr pc dr dc n r c m b = some (m, b)
  | 0, _, _, _, _, _, _ => rfl
  | n + 1, r, c, m, b, hnil, hcells => by
    obtain ⟨t, ht⟩ := hcells 0 (by omega)
    simp only [Nat.cast_zero, zero_mul, add_zero] at ht
    rw [sighted_succ ht] at hnil
    rw [scanRay, ht]
    by_cases hp : t = '+'
    · simp only [if_pos hp]
    rw [if_neg hp] at hnil
    by_cases hM : t = 'M'
    · rw [if_pos hM] at hnil; cases hnil
    rw [if_neg hM] at hnil
    simp only [if_neg hp, if_neg hM]
    apply scanRay_of_sighted_nil pr pc n (r + dr) (c + dc) m b hnil
    intro k hk
    have := hcells (k + 1) (by omega)
    have e1 : r + ((k + 1 : Nat) : Int) * dr = r + dr + k * dr := by push_cast; ring
    have e2 : c + ((k + 1 : Nat) : Int) * dc = c + dc + k * dc := by push_cast; ring
    rw [e1, e2] at this
    exact this

/-- On a map whose player cell holds PLAYER, a ray on which every monster has a pillar
between it and the player has no sighted monster. -/
theorem sighted_nil_of_pillars {g : Grid} {pr pc dr dc : Int} (n : Nat)
    (hP : readCell g pr pc = some 'o')
    (hclear : ∀ k : Nat, 1 ≤ k → readCell g (pr + k * dr) (pc + k * dc) = some 'M' →
      ∃ j : Nat, 1 ≤ j ∧ j < k ∧ readCell g (pr + j * dr) (pc + j * dc) = some '+') :
    sighted dr dc n pr pc g = [] := by
  apply List.eq_nil_iff_forall_not_mem.2
  rintro ⟨x, y⟩ hmem
  obtain ⟨k, _, rfl, rfl, hM, hno⟩ := mem_sighted_clear _ _ _ _ _ _ hmem
  rcases Nat.eq_zero_or_pos k with rfl | hk
  · simp only [Nat.cast_zero, zero_mul, add_zero] at hM
    rw [hP] at hM
    exact absurd hM (by decide)
  · obtain ⟨j, _, hjk, hpillar⟩ := hclear k hk hM
    exact hno j hjk hpillar

/-- A call of `doMonsterAttack` with no monster in sight on any ray returns `false` and
leaves the map as it is. -/
theorem doMonsterAttack_of_no_monster_in_sight {g : Grid} {rows cols : Int} {p : Player}
    (hg : IsGrid g rows cols) (hP : readCell g p.row p.col = some 'o')
    (hclear : ∀ dr dc, IsDir dr dc → ∀ k : Nat, 1 ≤ k →
      readCell g (p.row + k * dr) (p.col + k * dc) = some 'M' →
      ∃ j : Nat, 1 ≤ j ∧ j < k ∧ readCell g (p.row + j * dr) (p.col + j * dc) = some '+') :
    doMonsterAttack g rows cols p = some (g, false) := by
  obtain ⟨⟨hP0, hP1⟩, hP2, hP3⟩ := (readCell_isSome_iff hg _ _).1 ⟨_, hP⟩
  have h1 := scanRay_of_sighted_nil p.row p.col (p.row + 1).toNat p.row p.col g false
    (sighted_nil_of_pillars _ hP (hclear _ _ dir_up))
    (fun k hk => (readCell_isSome_iff hg _ _).2 (by omega))
  have h2 := scanRay_of_sighted_nil p.row p.col (rows - p.row).toNat p.row p.col g false
    (sighted_nil_of_pillars _ hP (hclear _ _ dir_down))
    (fun k hk => (readCell_isSome_iff hg _ _).2 (by omega))
  have h3 := scanRay_of_sighted_nil p.row p.col (cols - p.col).toNat p.row p.col g false
    (sighted_nil_of_pillars _ hP (hclear _ _ dir_right))
    (fun k hk => (readCell_isSome_iff hg _ _).2 (by omega))
  have h4 := scanRay_of_sighted_nil p.row p.col (p.col + 1).toNat p.row p.col g false
    (sighted_nil_of_pillars _ hP (hclear _ _ dir_left))
    (fun k hk => (readCell_isSome_iff hg _ _).2 (by omega))
  unfold doMonsterAttack
  rw [attackUp_eq_scanRay, h1]
  dsimp only
  rw [attackDown_eq_scanRay, h2]
  dsimp only
  rw [attackRight_eq_scanRay, h3]
  dsimp only
  rw [attackLeft_eq_scanRay, h4]

/-- Claim C11. On a map whose player cell holds PLAYER, if on each of the four rays every
MONSTER has a PILLAR between it and the player (no MONSTER occurs before the first PILLAR or
the edge of the map), then `doMonsterAttack` leaves every cell unchanged and returns `false`,
and so does any number of repeated calls: a MONSTER behind a PILLAR never moves. -/
theorem no_monster_in_sight_nothing_moves (g : Grid) (rows cols : Int) (p : Player)
    (hg : IsGrid g rows cols) (hP : readCell g p.row p.col = some 'o')
    (hclear : ∀ dr dc, IsDir dr dc → ∀ k : Nat, 1 ≤ k →
      readCell g (p.row + k * dr) (p.col + k * dc) = some 'M' →
      ∃ j : Nat, 1 ≤ j ∧ j < k ∧ readCell g (p.row + j * dr) (p.col + j * dc) = some '+') :
    doMonsterAttack g rows cols p = some (g, false) ∧
    ∀ n : Nat, play rows cols (List.replicate n Action.attack) g p = some (g, p, false) := by
  have h := doMonsterAttack_of_no_monster_in_sight hg hP hclear
  refine ⟨h, fun n => ?_⟩
  induction n with
  | zero => rfl
  | succ n ih =>
    rw [List.replicate_succ, play]
    have ha : playAction rows cols g p Action.attack = some (g, p, false) := by
      unfold playAction
      rw [h]
      rfl
    rw [ha]
    dsimp only
    rw [ih]
    rfl

/-- A finite check of the line-of-sight hypothesis for a map of known dimensions. -/
theorem pillars_of_bounded {g : Grid} (rows cols : Int) {pr pc : Int} (bound : Nat)
    (hg : IsGrid g rows cols) (hrows : rows ≤ bound) (hcols : cols ≤ bound)
    (hpr : 0 ≤ pr ∧ pr < rows) (hpc : 0 ≤ pc ∧ pc < cols)
    (h : ∀ d ∈ [((-1 : Int), (0 : Int)), (1, 0), (0, 1), (0, -1)], ∀ k : Nat, k < bound →
      1 ≤ k → readCell g (pr + k * d.1) (pc + k * d.2) = some 'M' →
      ∃ j : Nat, j < k ∧ 1 ≤ j ∧ readCell g (pr + j * d.1) (pc + j * d.2) = some '+') :
    ∀ dr dc, IsDir dr dc → ∀ k : Nat, 1 ≤ k →
      readCell g (pr + k * dr) (pc + k * dc) = some 'M' →
      ∃ j : Nat, 1 ≤ j ∧ j < k ∧ readCell g (pr + j * dr) (pc + j * dc) = some '+' := by
  intro dr dc hdir k hk hM
  obtain ⟨⟨a1, a2⟩, a3, a4⟩ := (readCell_isSome_iff hg _ _).1 ⟨_, hM⟩
  have hmem : (dr, dc) ∈ [((-1 : Int), (0 : Int)), (1, 0), (0, 1), (0, -1)] := by
    rcases hdir with ⟨rfl, rfl⟩ | ⟨rfl, rfl⟩ | ⟨rfl, rfl⟩ | ⟨rfl, rfl⟩ <;> simp
  have hkb : k < bound := by
    rcases hdir with ⟨rfl, rfl⟩ | ⟨rfl, rfl⟩ | ⟨rfl, rfl⟩ | ⟨rfl, rfl⟩ <;> omega
  obtain ⟨j, hj, hj1, hp⟩ := h (dr, dc) hmem k hkb hk hM
  exact ⟨j, hj1, hj, hp⟩

theorem no_monster_in_sight_nothing_moves_witness :
    IsGrid [['M', '+', 'o'], ['-', '?', '-']] 2 3 ∧
    readCell [['M', '+', 'o'], ['-', '?', '-']] (⟨0, 2, 0⟩ : Player).row
      (⟨0, 2, 0⟩ : Player).col = some 'o' ∧
    (∀ dr dc, IsDir dr dc → ∀ k : Nat, 1 ≤ k →
      readCell [['M', '+', 'o'], ['-', '?', '-']] ((⟨0, 2, 0⟩ : Player).row + k * dr)
        ((⟨0, 2, 0⟩ : Player).col + k * dc) = some 'M' →
      ∃ j : Nat, 1 ≤ j ∧ j < k ∧
        readCell [['M', '+', 'o'], ['-', '?', '-']] ((⟨0, 2, 0⟩ : Player).row + j * dr)
          ((⟨0, 2, 0⟩ : Player).col + j * dc) = some '+') ∧
    (doMonsterAttack [['M', '+', 'o'], ['-', '?', '-']] 2 3 ⟨0, 2, 0⟩ =
      some ([['M', '+', 'o'], ['-', '?', '-']], false) ∧
    ∀ n : Nat, play 2 3 (List.replicate n Action.attack) [['M', '+', 'o'], ['-', '?', '-']]
        ⟨0, 2, 0⟩ = some ([['M', '+', 'o'], ['-', '?', '-']], ⟨0, 2, 0⟩, false)) :=
  ⟨by decide, by decide,
    pillars_of_bounded 2 3 3 (by decide) (by decide) (by decide) (by decide) (by decide)
      (by decide),
    no_monster_in_sight_nothing_moves [['M', '+', 'o'], ['-', '?', '-']] 2 3 ⟨0, 2, 0⟩
      (by decide) (by decide)
      (pillars_of_bounded 2 3 3 (by decide) (by decide) (by decide) (by decide) (by decide)
        (by decide))⟩

/-- Claim C12. A monster three cells directly above the player, with open cells between: the
first two calls return `false` and bring it one cell closer each, the third call returns
`true`; but the second loop of that call, which starts on the player's own cell, finds the
monster there and moves it back up, so that after the third call the player's cell holds
`'-'`, not MONSTER, and the monster stands one cell above. -/
theorem monster_does_not_stay_on_player_cell :
    IsGrid [['M', '?'], ['-', '-'], ['-', '-'], ['o', '-']] 4 2 ∧
    doMonsterAttack [['M', '?'], ['-', '-'], ['-', '-'], ['o', '-']] 4 2 ⟨3, 0, 0⟩ =
      some ([['-', '?'], ['M', '-'], ['-', '-'], ['o', '-']], false) ∧
    doMonsterAttack [['-', '?'], ['M', '-'], ['-', '-'], ['o', '-']] 4 2 ⟨3, 0, 0⟩ =
      some ([['-', '?'], ['-', '-'], ['M', '-'], ['o', '-']], false) ∧
    doMonsterAttack [['-', '?'], ['-', '-'], ['M', '-'], ['o', '-']] 4 2 ⟨3, 0, 0⟩ =
      some ([['-', '?'], ['-', '-'], ['M', '-'], ['-', '-']], true) ∧
    attackUp ⟨3, 0, 0⟩ 4 3 [['-', '?'], ['-', '-'], ['M', '-'], ['o', '-']] false =
      some ([['-', '?'], ['-', '-'], ['-', '-'], ['M', '-']], true) ∧
    readCell [['-', '?'], ['-', '-'], ['M', '-'], ['-', '-']] 3 0 ≠ some 'M' := by
  decide

/-- Claim C20. With the player in column 0 and monsters above, below and to the right, the
second loop moves the monster from below onto the player's cell, and the third loop, which
starts on the player's own cell, writes it to `map[1][-1]`, outside the array. -/
theorem doMonsterAttack_writes_column_minus_one :
    IsGrid [['M', '-', '?'], ['o', 'M', '-'], ['M', '-', '-']] 3 3 ∧
    readCell [['M', '-', '?'], ['o', 'M', '-'], ['M', '-', '-']] 1 0 = some 'o' ∧
    attackUp ⟨1, 0, 0⟩ 2 1 [['M', '-', '?'], ['o', 'M', '-'], ['M', '-', '-']] false =
      some ([['-', '-', '?'], ['M', 'M', '-'], ['M', '-', '-']], true) ∧
    attackDown ⟨1, 0, 0⟩ 2 1 [['-', '-', '?'], ['M', 'M', '-'], ['M', '-', '-']] true =
      some ([['M', '-', '?'], ['M', 'M', '-'], ['-', '-', '-']], true) ∧
    readCell [['M', '-', '?'], ['M', 'M', '-'], ['-', '-', '-']] 1 0 = some 'M' ∧
    writeCell [['M', '-', '?'], ['-', 'M', '-'], ['-', '-', '-']] 1 (0 - 1) 'M' = none ∧
    attackRight ⟨1, 0, 0⟩ 3 0 [['M', '-', '?'], ['M', 'M', '-'], ['-', '-', '-']] true = none ∧
    doMonsterAttack [['M', '-', '?'], ['o', 'M', '-'], ['M', '-', '-']] 3 3 ⟨1, 0, 0⟩ = none := by
  decide

/-! ## loadLevel -/

/-- The treasure count of the player record is not assigned by `loadLevel`. -/
theorem loadLevel_treasure {file : Option (List Char)} {maxRow maxCol : Int} {player : Player}
    {res : Option Grid} {r c : Int} {p' : Player}
    (h : loadLevel file maxRow maxCol player = some (res, r, c, p')) :
    p'.treasure = player.treasure := by
  unfold loadLevel at h
  cases file with
  | none =>
    simp only [Option.some.injEq, Prod.mk.injEq] at h
    obtain ⟨_, _, _, rfl⟩ := h
    rfl
  | some text =>
    dsimp only at h
    repeat' split at h
    all_goals cases h <;> rfl

theorem hasTile_iff_readCell {g : Grid} {t : Char} :
    HasTile g t ↔ ∃ r c, readCell g r c = some t := by
  constructor
  · rintro ⟨row, hrow, ht⟩
    obtain ⟨i, hi⟩ := List.mem_iff_getElem?.1 hrow
    obtain ⟨k, hk⟩ := List.mem_iff_getElem?.1 ht
    exact ⟨(i : Int), (k : Int), readCell_eq_some_iff.2
      ⟨by omega, by omega, row, by simpa using hi, by simpa using hk⟩⟩
  · rintro ⟨r, c, h⟩
    obtain ⟨_, _, row, hrow, hcell⟩ := readCell_eq_some_iff.1 h
    exact ⟨row, List.mem_iff_getElem?.2 ⟨_, hrow⟩, List.mem_iff_getElem?.2 ⟨_, hcell⟩⟩

/-- Where an extraction of an `int` leaves the stream does not depend on the value that the
variable held before. -/
theorem readInt_stream (s : InStream) (a b : Int) : (readInt s a).2 = (readInt s b).2 := by
  unfold readInt
  split
  · rfl
  · split
    · rfl
    · split_ifs <;> rfl

/-- The stream after the header, for any previous values of the four variables. -/
theorem headerRest_eq (text : List Char) (a b c d : Int) :
    (readInt (readInt (readInt (readInt { rest := text, failed := false } a).2 b).2 c).2 d).2 =
      headerRest text := by
  unfold headerRest
  rw [readInt_stream _ d 0, readInt_stream _ c 0, readInt_stream _ b 0, readInt_stream _ a 0]

/-- What a successful call of `loadLevel` has gone through: a header with positive dimensions
and a start position that passed the check, a completed run of the tile loops on a freshly
allocated map that saw a door or an exit but not both, and the write of the player. -/
theorem loadLevel_eq_some_grid {file : Option (List Char)} {maxRow maxCol : Int}
    {player : Player} {g : Grid} {rows cols : Int} {p : Player}
    (h : loadLevel file maxRow maxCol player = some (some g, rows, cols, p)) :
    ∃ (text : List Char) (map0 : Grid) (st : TileState), file = some text ∧
      (0 < rows ∧ 0 < cols) ∧ (0 ≤ p.row ∧ p.row ≤ rows) ∧ (0 ≤ p.col ∧ p.col ≤ cols) ∧
      allocMap rows cols = some map0 ∧
      loadRows cols rows.toNat 0
        { file := headerRest text, tile := none, door := false, exitDoor := false,
          map := map0 } = some (some st) ∧
      ((st.door = true ∧ st.exitDoor = false) ∨ (st.door = false ∧ st.exitDoor = true)) ∧
      writeCell st.map p.row p.col 'o' = some g := by
  unfold loadLevel at h
  cases file with
  | none => cases h
  | some text =>
    dsimp only at h
    repeat' split at h
    all_goals try (cases h; done)
    rename_i hcount hf2 hf4 hrange hdims _ map0 hmap _ st hrows hdoor _ map1 hw
    simp only [Option.some.injEq, Prod.mk.injEq] at h
    obtain ⟨rfl, rfl, rfl, rfl⟩ := h
    rw [headerRest_eq] at hrows
    refine ⟨text, map0, st, rfl, by omega, by dsimp only; omega, by dsimp only; omega, hmap,
      hrows, ?_, hw⟩
    cases hd : st.door <;> cases he : st.exitDoor <;> simp [hd, he] at hdoor ⊢

theorem isTile_ne_player {t : Char} (h : isTile t = true) : t ≠ 'o' := by
  rintro rfl
  revert h
  decide

/-- Unfolding of one iteration of the inner tile loop that does not return. -/
theorem loadCols_succ_eq_some {j : Int} {n : Nat} {k : Int} {st st' : TileState}
    (h : loadCols j (n + 1) k st = some (some st')) :
    ∃ t map2, (readChar st.file st.tile).1 = some t ∧ isTile t = true ∧
      writeCell st.map j k t = some map2 ∧
      loadCols j n (k + 1)
        { file := (readChar st.file st.tile).2
          tile := some t
          door := if t = '?' then true else st.door
          exitDoor := if t = '!' then true else st.exitDoor
          map := map2 } = some (some st') := by
  rw [loadCols] at h
  cases hr : (readChar st.file st.tile).1 with
  | none => rw [hr] at h; cases h
  | some t =>
    rw [hr] at h
    dsimp only at h
    by_cases ht : isTile t = true
    · have hne : t ≠ 'o' := isTile_ne_player ht
      rw [if_neg hne] at h
      dsimp only at h
      rw [if_pos ht] at h
      cases hw : writeCell st.map j k t with
      | none => rw [hw] at h; cases h
      | some map2 =>
        rw [hw] at h
        exact ⟨t, map2, rfl, ht, hw, h⟩
    · exfalso
      split at h
      · cases h
      · rw [if_neg ht] at h
        cases h

/-- The inner tile loop, when it does not return: the dimensions of the map are kept, the
door and exit flags record the tiles written, and only cells `k ≤ c < k + n` of row `j` are
written. -/
theorem loadCols_inv {j : Int} :
    ∀ (n : Nat) (k : Int) (st st' : TileState), loadCols j n k st = some (some st') →
      (∀ R C, IsGrid st.map R C → IsGrid st'.map R C) ∧
      (st'.door = true ↔
        st.door = true ∨ ∃ i : Nat, i < n ∧ readCell st'.map j (k + i) = some '?') ∧
      (st'.exitDoor = true ↔
        st.exitDoor = true ∨ ∃ i : Nat, i < n ∧ readCell st'.map j (k + i) = some '!') ∧
      (∀ r c, ¬ (r = j ∧ k ≤ c ∧ c < k + n) → readCell st'.map r c = readCell st.map r c)
  | 0, k, st, st', h => by
    rw [loadCols] at h
    simp only [Option.some.injEq] at h
    subst h
    refine ⟨fun _ _ hg => hg, ?_, ?_, fun _ _ _ => rfl⟩
    · exact ⟨Or.inl, fun h' => h'.elim id (fun ⟨i, hi, _⟩ => absurd hi (by omega))⟩
    · exact ⟨Or.inl, fun h' => h'.elim id (fun ⟨i, hi, _⟩ => absurd hi (by omega))⟩
  | n + 1, k, st, st', h => by
    obtain ⟨t, map2, _, _, hw, hrec⟩ := loadCols_succ_eq_some h
    obtain ⟨ih1, ih2, ih3, ih4⟩ := loadCols_inv n (k + 1) _ st' hrec
    dsimp only at ih1 ih2 ih3 ih4
    have hcell : readCell st'.map j k = some t := by
      rw [ih4 j k (by omega), readCell_writeCell hw, if_pos ⟨rfl, rfl⟩]
    have shift : ∀ (q : Char), (∃ i : Nat, i < n ∧ readCell st'.map j (k + 1 + i) = some q) ∨
        t = q ↔ ∃ i : Nat, i < n + 1 ∧ readCell st'.map j (k + i) = some q := by
      intro q
      constructor
      · rintro (⟨i, hi, hq⟩ | rfl)
        · refine ⟨i + 1, by omega, ?_⟩
          have e : k + ((i + 1 : Nat) : Int) = k + 1 + i := by push_cast; ring
          rw [e]; exact hq
        · exact ⟨0, by omega, by simpa using hcell⟩
      · rintro ⟨i, hi, hq⟩
        rcases Nat.eq_zero_or_pos i with rfl | hipos
        · right
          simp only [Nat.cast_zero, add_zero] at hq
          rw [hcell] at hq
          exact Option.some.inj hq
        · left
          obtain ⟨i', rfl⟩ : ∃ i', i = i' + 1 := ⟨i - 1, by omega⟩
          refine ⟨i', by omega, ?_⟩
          have e : k + ((i' + 1 : Nat) : Int) = k + 1 + i' := by push_cast; ring
          rw [e] at hq; exact hq
    refine ⟨fun R C hg => ih1 R C (isGrid_writeCell hw hg), ?_, ?_, ?_⟩
    · rw [ih2, ← shift '?']
      by_cases hq : t = '?'
      · simp [hq]
      · simp [hq]
    · rw [ih3, ← shift '!']
      by_cases hq : t = '!'
      · simp [hq]
      · simp [hq]
    · intro r c hrc
      rw [ih4 r c (by omega), readCell_writeCell hw, if_neg (by omega)]

/-- Unfolding of one iteration of the outer tile loop that does not return. -/
theorem loadRows_succ_eq_some {maxCol : Int} {n : Nat} {j : Int} {st st' : TileState}
    (h : loadRows maxCol (n + 1) j st = some (some st')) :
    ∃ st1, loadCols j maxCol.toNat 0 st = some (some st1) ∧
      loadRows maxCol n (j + 1) st1 = some (some st') := by
  rw [loadRows] at h
  split at h
  · cases h
  · cases h
  · rename_i st1 h1
    exact ⟨st1, h1, h⟩

/-- The outer tile loop, when it does not return: the dimensions of the map are kept, the
door and exit flags record the tiles written, and only rows `j ≤ r < j + n` are written. -/
theorem loadRows_inv {maxCol : Int} :
    ∀ (n : Nat) (j : Int) (st st' : TileState), loadRows maxCol n j st = some (some st') →
      (∀ R C, IsGrid st.map R C → IsGrid st'.map R C) ∧
      (st'.door = true ↔ st.door = true ∨
        ∃ i : Nat, i < n ∧ ∃ c : Nat, c < maxCol.toNat ∧
          readCell st'.map (j + i) c = some '?') ∧
      (st'.exitDoor = true ↔ st.exitDoor = true ∨
        ∃ i : Nat, i < n ∧ ∃ c : Nat, c < maxCol.toNat ∧
          readCell st'.map (j + i) c = some '!') ∧
      (∀ r c, ¬ (j ≤ r ∧ r < j + n) → readCell st'.map r c = readCell st.map r c)
  | 0, j, st, st', h => by
    rw [loadRows] at h
    simp only [Option.some.injEq] at h
    subst h
    refine ⟨fun _ _ hg => hg, ?_, ?_, fun _ _ _ => rfl⟩
    · exact ⟨Or.inl, fun h' => h'.elim id (fun ⟨i, hi, _⟩ => absurd hi (by omega))⟩
    · exact ⟨Or.inl, fun h' => h'.elim id (fun ⟨i, hi, _⟩ => absurd hi (by omega))⟩
  | n + 1, j, st, st', h => by
    obtain ⟨st1, hcols, hrec⟩ := loadRows_succ_eq_some h
    obtain ⟨c1, c2, c3, c4⟩ := loadCols_inv _ _ _ _ hcols
    obtain ⟨ih1, ih2, ih3, ih4⟩ := loadRows_inv n (j + 1) st1 st' hrec
    have shift : ∀ (q : Char),
        ((∃ i : Nat, i < maxCol.toNat ∧ readCell st1.map j (0 + i) = some q) ∨
          ∃ i : Nat, i < n ∧ ∃ c : Nat, c < maxCol.toNat ∧
            readCell st'.map (j + 1 + i) c = some q) ↔
        ∃ i : Nat, i < n + 1 ∧ ∃ c : Nat, c < maxCol.toNat ∧
          readCell st'.map (j + i) c = some q := by
      intro q
      constructor
      · rintro (⟨c, hc, hq⟩ | ⟨i, hi, c, hc, hq⟩)
        · refine ⟨0, by omega, c, hc, ?_⟩
          rw [zero_add] at hq
          simp only [Nat.cast_zero, add_zero]
          rw [ih4 j c (by omega)]; exact hq
        · refine ⟨i + 1, by omega, c, hc, ?_⟩
          have e : j + ((i + 1 : Nat) : Int) = j + 1 + i := by push_cast; ring
          rw [e]; exact hq
      · rintro ⟨i, hi, c, hc, hq⟩
        rcases Nat.eq_zero_or_pos i with rfl | hipos
        · left
          simp only [Nat.cast_zero, add_zero] at hq
          rw [ih4 j c (by omega)] at hq
          exact ⟨c, hc, by rw [zero_add]; exact hq⟩
        · right
          obtain ⟨i', rfl⟩ : ∃ i', i = i' + 1 := ⟨i - 1, by omega⟩
          have e : j + ((i' + 1 : Nat) : Int) = j + 1 + i' := by push_cast; ring
          rw [e] at hq
          exact ⟨i', by omega, c, hc, hq⟩
    refine ⟨fun R C hg => ih1 R C (c1 R C hg), ?_, ?_, ?_⟩
    · rw [ih2, c2, ← shift '?', or_assoc]
    · rw [ih3, c3, ← shift '!', or_assoc]
    · intro r c hrc
      rw [ih4 r c (by omega), c4 r c (by omega)]

/-- The cells of the map as the tile loops of `loadLevel` leave it hold a door exactly when
the door flag is up, and an exit exactly when the exit flag is up. -/
theorem loadRows_flags {cols rows : Int} {s : InStream} {map0 : Grid} {st : TileState}
    (hg : IsGrid map0 rows cols)
    (h : loadRows cols rows.toNat 0
      { file := s, tile := none, door := false, exitDoor := false, map := map0 } =
        some (some st)) :
    IsGrid st.map rows cols ∧ (st.door = true ↔ HasTile st.map '?') ∧
      (st.exitDoor = true ↔ HasTile st.map '!') := by
  obtain ⟨h1, h2, h3, _⟩ := loadRows_inv _ _ _ _ h
  have hg' := h1 rows cols hg
  have key : ∀ q : Char, (false = true ∨ ∃ i : Nat, i < rows.toNat ∧ ∃ c : Nat,
      c < cols.toNat ∧ readCell st.map (0 + i) c = some q) ↔ HasTile st.map q := by
    intro q
    rw [hasTile_iff_readCell]
    constructor
    · rintro (hf | ⟨i, _, c, _, hq⟩)
      · cases hf
      · exact ⟨_, _, hq⟩
    · rintro ⟨r, c, hq⟩
      obtain ⟨⟨a1, a2⟩, a3, a4⟩ := (readCell_isSome_iff hg' r c).1 ⟨_, hq⟩
      refine Or.inr ⟨r.toNat, by omega, c.toNat, by omega, ?_⟩
      rw [zero_add, Int.toNat_of_nonneg a1, Int.toNat_of_nonneg a3]
      exact hq
  exact ⟨hg', h2.trans (key '?'), h3.trans (key '!')⟩

/-! ## loadLevel: the door and exit invariant -/

/-- Claim C13, as stated, fails: a level with two doors is loaded, and the returned map holds
two DOOR cells; a level whose only door is at the start position is loaded as well, and the
returned map holds neither a DOOR nor an EXIT. -/
theorem two_doors_are_loaded :
    loadLevel (some "2 2\n0 0\n- ?\n? -\n".toList) 0 0 ⟨0, 0, 0⟩ =
      some (some [['o', '?'], ['?', '-']], 2, 2, ⟨0, 0, 0⟩) ∧
    countTile [['o', '?'], ['?', '-']] '?' = 2 ∧
    ¬ ((countTile [['o', '?'], ['?', '-']] '?' = 1 ∧ countTile [['o', '?'], ['?', '-']] '!' = 0) ∨
      (countTile [['o', '?'], ['?', '-']] '!' = 1 ∧ countTile [['o', '?'], ['?', '-']] '?' = 0)) ∧
    loadLevel (some "2 2\n0 1\n- ?\n- -\n".toList) 0 0 ⟨0, 0, 0⟩ =
      some (some [['-', 'o'], ['-', '-']], 2, 2, ⟨0, 1, 0⟩) ∧
    countTile [['-', 'o'], ['-', '-']] '?' = 0 ∧ countTile [['-', 'o'], ['-', '-']] '!' = 0 := by
  decide

/-- Claim C13, amended. Every map that `loadLevel` returns successfully is the map parsed from
the file (the array as the tile loops leave it) with PLAYER written on the start cell, and the
parsed map contains at least one DOOR and no EXIT, or at least one EXIT and no DOOR: never
both, never neither, possibly several of the same kind.  The returned map never contains both
a DOOR and an EXIT. -/
theorem loadLevel_door_or_exit_not_both (file : Option (List Char)) (maxRow maxCol : Int)
    (player : Player) (g : Grid) (rows cols : Int) (p : Player)
    (h : loadLevel file maxRow maxCol player = some (some g, rows, cols, p)) :
    ∃ text g0, file = some text ∧ parsedMap text rows cols = some g0 ∧
      IsGrid g0 rows cols ∧ writeCell g0 p.row p.col 'o' = some g ∧
      ((HasTile g0 '?' ∧ ¬ HasTile g0 '!') ∨ (HasTile g0 '!' ∧ ¬ HasTile g0 '?')) ∧
      ¬ (HasTile g '?' ∧ HasTile g '!') := by
  obtain ⟨text, map0, st, rfl, ⟨hr, hc⟩, _, _, halloc, hrows, hflags, hw⟩ :=
    loadLevel_eq_some_grid h
  obtain ⟨map0', halloc', hg0⟩ := isGrid_allocMap rows cols hr.le hc.le
  rw [halloc] at halloc'
  obtain rfl := Option.some.inj halloc'
  obtain ⟨hg, hdoor, hexit⟩ := loadRows_flags hg0 hrows
  have hsub : ∀ q : Char, q ≠ 'o' → HasTile g q → HasTile st.map q := by
    intro q hq hgq
    rw [hasTile_iff_readCell] at hgq ⊢
    obtain ⟨r, c, hrc⟩ := hgq
    rw [readCell_writeCell hw] at hrc
    by_cases hP : r = p.row ∧ c = p.col
    · rw [if_pos hP] at hrc
      exact absurd (Option.some.inj hrc).symm hq
    · rw [if_neg hP] at hrc
      exact ⟨r, c, hrc⟩
  have hxor : (HasTile st.map '?' ∧ ¬ HasTile st.map '!') ∨
      (HasTile st.map '!' ∧ ¬ HasTile st.map '?') := by
    rcases hflags with ⟨hd, he⟩ | ⟨hd, he⟩
    · exact Or.inl ⟨hdoor.1 hd, fun h' => by rw [hexit.2 h'] at he; cases he⟩
    · exact Or.inr ⟨hexit.1 he, fun h' => by rw [hdoor.2 h'] at hd; cases hd⟩
  have hparsed : parsedMap text rows cols = some st.map := by
    unfold parsedMap
    rw [halloc]
    dsimp only
    rw [hrows]
  refine ⟨text, st.map, rfl, hparsed, hg, hw, hxor, ?_⟩
  rintro ⟨hd, he⟩
  have hd' := hsub '?' (by decide) hd
  have he' := hsub '!' (by decide) he
  rcases hxor with ⟨_, hno⟩ | ⟨_, hno⟩
  · exact hno he'
  · exact hno hd'

theorem loadLevel_door_or_exit_not_both_witness :
    loadLevel (some "2 3\n0 0\n- ? $\n? M -\n".toList) 0 0 ⟨0, 0, 0⟩ =
      some (some [['o', '?', '$'], ['?', 'M', '-']], 2, 3, ⟨0, 0, 0⟩) ∧
    parsedMap "2 3\n0 0\n- ? $\n? M -\n".toList 2 3 =
      some [['-', '?', '$'], ['?', 'M', '-']] ∧
    ∃ text g0, some "2 3\n0 0\n- ? $\n? M -\n".toList = some text ∧
      parsedMap text 2 3 = some g0 ∧ IsGrid g0 2 3 ∧
      writeCell g0 (⟨0, 0, 0⟩ : Player).row (⟨0, 0, 0⟩ : Player).col 'o' =
        some [['o', '?', '$'], ['?', 'M', '-']] ∧
      ((HasTile g0 '?' ∧ ¬ HasTile g0 '!') ∨ (HasTile g0 '!' ∧ ¬ HasTile g0 '?')) ∧
      ¬ (HasTile [['o', '?', '$'], ['?', 'M', '-']] '?' ∧
        HasTile [['o', '?', '$'], ['?', 'M', '-']] '!') :=
  ⟨by decide, by decide,
    loadLevel_door_or_exit_not_both (some "2 3\n0 0\n- ? $\n? M -\n".toList) 0 0 ⟨0, 0, 0⟩
      [['o', '?', '$'], ['?', 'M', '-']] 2 3 ⟨0, 0, 0⟩ (by decide)⟩

/-! ## Reading a level description: characters -/

theorem isDigitChar_toNat {c : Char} (h : isDigitChar c = true) :
    48 ≤ c.toNat ∧ c.toNat ≤ 57 := by
  unfold isDigitChar at h
  simp only [Bool.and_eq_true, decide_eq_true_eq] at h
  obtain ⟨h1, h2⟩ := h
  have h1' : '0'.val ≤ c.val := h1
  have h2' : c.val ≤ '9'.val := h2
  rw [UInt32.le_def] at h1' h2'
  exact ⟨h1', h2'⟩

theorem isSpaceChar_cases {c : Char} (h : isSpaceChar c = true) :
    c = ' ' ∨ c = '\t' ∨ c = '\n' ∨ c = Char.ofNat 11 ∨ c = Char.ofNat 12 ∨ c = '\r' := by
  unfold isSpaceChar at h
  simp only [Bool.or_eq_true, decide_eq_true_eq] at h
  tauto

theorem isTile_cases {t : Char} (h : isTile t = true) :
    t = '-' ∨ t = '$' ∨ t = '@' ∨ t = 'M' ∨ t = '+' ∨ t = '?' ∨ t = '!' := by
  unfold isTile at h
  simp only [Bool.or_eq_true, decide_eq_true_eq] at h
  tauto

theorem not_isDigitChar_of_isSpaceChar {c : Char} (h : isSpaceChar c = true) :
    isDigitChar c = false := by
  rcases isSpaceChar_cases h with rfl | rfl | rfl | rfl | rfl | rfl <;> decide

theorem not_isSpaceChar_of_isDigitChar {c : Char} (h : isDigitChar c = true) :
    isSpaceChar c = false := by
  cases hs : isSpaceChar c with
  | false => rfl
  | true => rw [not_isDigitChar_of_isSpaceChar hs] at h; cases h

theorem not_sign_of_isDigitChar {c : Char} (h : isDigitChar c = true) : c ≠ '-' ∧ c ≠ '+' := by
  constructor <;> (rintro rfl; revert h; decide)

theorem not_isSpaceChar_of_isTile {t : Char} (h : isTile t = true) : isSpaceChar t = false := by
  rcases isTile_cases h with rfl | rfl | rfl | rfl | rfl | rfl | rfl <;> decide

theorem dropWhile_blank_append {w : List Char} (hw : IsBlank w) (c : Char) (cs : List Char)
    (hc : isSpaceChar c = false) : (w ++ c :: cs).dropWhile isSpaceChar = c :: cs := by
  induction w with
  | nil => rw [List.nil_append, List.dropWhile_cons, hc]; rfl
  | cons x xs ih =>
    rw [List.cons_append, List.dropWhile_cons, hw x (List.mem_cons_self _ _)]
    exact ih fun y hy => hw y (List.mem_cons_of_mem _ hy)

theorem takeWhile_digits_append {ds rest : List Char} (hds : ∀ c ∈ ds, isDigitChar c = true)
    (hrest : ∀ c cs, rest = c :: cs → isDigitChar c = false) :
    (ds ++ rest).takeWhile isDigitChar = ds ∧ (ds ++ rest).dropWhile isDigitChar = rest := by
  induction ds with
  | nil =>
    cases rest with
    | nil => exact ⟨rfl, rfl⟩
    | cons c cs =>
      have := hrest c cs rfl
      rw [List.nil_append, List.takeWhile_cons, List.dropWhile_cons, this]
      exact ⟨rfl, rfl⟩
  | cons d ds ih =>
    have hd := hds d (List.mem_cons_self _ _)
    obtain ⟨ih1, ih2⟩ := ih fun y hy => hds y (List.mem_cons_of_mem _ hy)
    rw [List.cons_append, List.takeWhile_cons, List.dropWhile_cons, hd]
    exact ⟨by rw [if_pos rfl, ih1], by rw [if_pos rfl, ih2]⟩

/-- A number of the header is read as the number it writes. -/
theorem readInt_number {w ds rest : List Char} (hw : IsBlank w) (hds : IsNumber ds)
    (hrest : ∀ c cs, rest = c :: cs → isDigitChar c = false) (old : Int) :
    readInt { rest := w ++ (ds ++ rest), failed := false } old =
      (digitsValue ds, { rest := rest, failed := false }) := by
  obtain ⟨hne, hall⟩ := hds
  obtain ⟨d, ds', rfl⟩ : ∃ d ds', ds = d :: ds' := by
    cases ds with
    | nil => exact absurd rfl hne
    | cons d ds' => exact ⟨d, ds', rfl⟩
  have hd := hall d (List.mem_cons_self _ _)
  obtain ⟨hm, hp⟩ := not_sign_of_isDigitChar hd
  obtain ⟨ht, hdrop⟩ := takeWhile_digits_append hall hrest
  rw [List.cons_append] at ht hdrop
  unfold readInt
  simp only [Bool.false_eq_true, if_false]
  rw [List.cons_append, dropWhile_blank_append hw d _ (not_isSpaceChar_of_isDigitChar hd)]
  simp only [if_neg hm, if_neg hp, ht, hdrop]
  rw [if_neg (by simp)]

/-- A tile token is read after the whitespace before it has been skipped. -/
theorem readChar_tile {w rest : List Char} {t : Char} (hw : IsBlank w)
    (ht : isSpaceChar t = false) (old : Option Char) :
    readChar { rest := w ++ t :: rest, failed := false } old =
      (some t, { rest := rest, failed := false }) := by
  unfold readChar
  simp only [Bool.false_eq_true, if_false]
  rw [dropWhile_blank_append hw t rest ht]

theorem digitsValue_nonneg {ds : List Char} (hds : ∀ c ∈ ds, isDigitChar c = true) :
    0 ≤ digitsValue ds := by
  unfold digitsValue
  have key : ∀ (l : List Char) (n : Int), (∀ c ∈ l, isDigitChar c = true) → 0 ≤ n →
      0 ≤ l.foldl (fun n d => n * 10 + ((d.toNat : Int) - 48)) n := by
    intro l
    induction l with
    | nil => intro n _ hn; exact hn
    | cons d l ih =>
      intro n hl hn
      rw [List.foldl_cons]
      apply ih _ (fun c hc => hl c (List.mem_cons_of_mem _ hc))
      have := (isDigitChar_toNat (hl d (List.mem_cons_self _ _))).1
      omega
  exact key ds 0 hds (le_refl _)

/-! ## Reading a level description: the header -/

theorem nondigit_head_of_blank_append {w r : List Char} (hne : w ≠ []) (hw : IsBlank w) :
    ∀ c cs, w ++ r = c :: cs → isDigitChar c = false := by
  intro c cs h
  cases w with
  | nil => exact absurd rfl hne
  | cons x xs =>
    rw [List.cons_append] at h
    obtain ⟨rfl, _⟩ := List.cons.inj h
    exact not_isDigitChar_of_isSpaceChar (hw x (List.mem_cons_self _ _))

/-- The body of a valid level description is empty or starts with whitespace. -/
theorem body_head_blank {cells : List (List Char × Char)} {trail : List Char}
    (hcells : ∀ cell ∈ cells, cell.1 ≠ [] ∧ IsBlank cell.1 ∧ isTile cell.2 = true)
    (htrail : IsBlank trail) :
    ∀ c cs, bodyText cells ++ trail = c :: cs → isSpaceChar c = true := by
  intro c cs h
  cases cells with
  | nil =>
    rw [bodyText, List.nil_append] at h
    exact htrail c (by rw [h]; exact List.mem_cons_self _ _)
  | cons cell rest =>
    obtain ⟨hne, hblank, _⟩ := hcells cell (List.mem_cons_self _ _)
    rw [bodyText] at h
    cases hsep : cell.1 with
    | nil => exact absurd hsep hne
    | cons x xs =>
      rw [hsep, List.cons_append, List.cons_append] at h
      obtain ⟨rfl, _⟩ := List.cons.inj h
      exact hblank x (by rw [hsep]; exact List.mem_cons_self _ _)

/-- The four numbers of the header of a valid level description are read as written, and
leave the stream at the start of the body. -/
theorem readInt_header {d : LevelText} (hv : d.Valid) :
    ∃ s1 s2 s3 : InStream,
      (∀ old, readInt { rest := d.text, failed := false } old = (d.rows, s1)) ∧
      (∀ old, readInt s1 old = (d.cols, s2)) ∧ (∀ old, readInt s2 old = (d.startRow, s3)) ∧
      s2.failed = false ∧
      ∀ old, readInt s3 old =
        (d.startCol, { rest := bodyText d.cells ++ d.trail, failed := false }) := by
  obtain ⟨n1, n2, n3, n4, ⟨e1, b1⟩, ⟨e2, b2⟩, ⟨e3, b3⟩, hcells, htrail, _⟩ := hv
  have h1 := @readInt_number [] d.rowsDigits
    (d.sep1 ++ (d.colsDigits ++ (d.sep2 ++ (d.startRowDigits ++ (d.sep3 ++
      (d.startColDigits ++ (bodyText d.cells ++ d.trail)))))))
    (fun _ h => absurd h (List.not_mem_nil _)) n1 (nondigit_head_of_blank_append e1 b1)
  have h2 := @readInt_number d.sep1 d.colsDigits
    (d.sep2 ++ (d.startRowDigits ++ (d.sep3 ++
      (d.startColDigits ++ (bodyText d.cells ++ d.trail)))))
    b1 n2 (nondigit_head_of_blank_append e2 b2)
  have h3 := @readInt_number d.sep2 d.startRowDigits
    (d.sep3 ++ (d.startColDigits ++ (bodyText d.cells ++ d.trail)))
    b2 n3 (nondigit_head_of_blank_append e3 b3)
  have h4 := @readInt_number d.sep3 d.startColDigits (bodyText d.cells ++ d.trail) b3 n4
    (fun c cs h => not_isDigitChar_of_isSpaceChar (body_head_blank hcells htrail c cs h))
  exact ⟨_, _, _, h1, h2, h3, rfl, h4⟩

/-! ## The tokens of a level description -/

theorem tokensOf_cons_space {c : Char} (hc : isSpaceChar c = true) (l : List Char) :
    tokensOf (c :: l) = tokensOf l := by
  unfold tokensOf
  rw [List.splitOnP_cons, if_pos hc, List.filter_cons]
  simp

theorem tokensOf_blank_append {w : List Char} (hw : IsBlank w) (l : List Char) :
    tokensOf (w ++ l) = tokensOf l := by
  induction w with
  | nil => rfl
  | cons c w ih =>
    rw [List.cons_append, tokensOf_cons_space (hw c (List.mem_cons_self _ _)),
      ih fun x hx => hw x (List.mem_cons_of_mem _ hx)]

theorem splitOnP_head_nil {rest : List Char}
    (hrest : ∀ c cs, rest = c :: cs → isSpaceChar c = true) :
    ∃ X, rest.splitOnP isSpaceChar = [] :: X := by
  cases rest with
  | nil => exact ⟨[], List.splitOnP_nil _⟩
  | cons c cs =>
    rw [List.splitOnP_cons, if_pos (hrest c cs rfl)]
    exact ⟨_, rfl⟩

/-- A word without whitespace, followed by whitespace or the end of the text, is the first
token. -/
theorem tokensOf_word_append {tok rest : List Char} (hne : tok ≠ [])
    (htok : ∀ c ∈ tok, isSpaceChar c = false)
    (hrest : ∀ c cs, rest = c :: cs → isSpaceChar c = true) :
    tokensOf (tok ++ rest) = tok :: tokensOf rest := by
  obtain ⟨X, hX⟩ := splitOnP_head_nil hrest
  have key : ∀ t : List Char, (∀ c ∈ t, isSpaceChar c = false) →
      (t ++ rest).splitOnP isSpaceChar = t :: X := by
    intro t
    induction t with
    | nil => intro _; exact hX
    | cons a t ih =>
      intro ht
      rw [List.cons_append, List.splitOnP_cons, ih fun c hc => ht c (List.mem_cons_of_mem _ hc)]
      have : ¬ isSpaceChar a = true := by
        rw [ht a (List.mem_cons_self _ _)]; decide
      rw [if_neg this]
      rfl
  unfold tokensOf
  rw [key tok htok, hX, List.filter_cons, List.filter_cons]
  simp [hne]

/-- The tokens of the body of a level description are its tiles. -/
theorem tokensOf_bodyText (cs : List (List Char × Char)) (trail : List Char)
    (hcells : ∀ cell ∈ cs, cell.1 ≠ [] ∧ IsBlank cell.1 ∧ isTile cell.2 = true)
    (htrail : IsBlank trail) :
    tokensOf (bodyText cs ++ trail) = cs.map fun cell => [cell.2] := by
  induction cs with
  | nil =>
    have := tokensOf_blank_append htrail []
    rw [List.append_nil] at this
    rw [bodyText, List.nil_append, this]
    rfl
  | cons cell cs ih =>
    have hcs : ∀ c ∈ cs, c.1 ≠ [] ∧ IsBlank c.1 ∧ isTile c.2 = true :=
      fun c hc => hcells c (List.mem_cons_of_mem _ hc)
    obtain ⟨_, hblank, htile⟩ := hcells cell (List.mem_cons_self _ _)
    have hword := @tokensOf_word_append [cell.2] (bodyText cs ++ trail) (by simp)
      (by
        intro c hc
        rw [List.mem_singleton] at hc
        rw [hc]
        exact not_isSpaceChar_of_isTile htile)
      (body_head_blank hcs htrail)
    rw [bodyText, List.append_assoc, tokensOf_blank_append hblank, List.cons_append,
      List.map_cons, ← ih hcs, ← hword]
    rfl

/-- The tokens of a valid level description are the four numbers of the header and the
tiles. -/
theorem tokensOf_text {d : LevelText} (hv : d.Valid) :
    tokensOf d.text =
      d.rowsDigits :: d.colsDigits :: d.startRowDigits :: d.startColDigits ::
        d.tiles.map fun t => [t] := by
  obtain ⟨n1, n2, n3, n4, ⟨e1, b1⟩, ⟨e2, b2⟩, ⟨e3, b3⟩, hcells, htrail, _⟩ := hv
  have hdig : ∀ ds : List Char, IsNumber ds → ∀ c ∈ ds, isSpaceChar c = false := by
    intro ds hds c hc
    exact not_isSpaceChar_of_isDigitChar (hds.2 c hc)
  have hsep : ∀ w r : List Char, w ≠ [] → IsBlank w →
      ∀ c cs, w ++ r = c :: cs → isSpaceChar c = true := by
    intro w r hne hw c cs h
    cases w with
    | nil => exact absurd rfl hne
    | cons x xs =>
      rw [List.cons_append] at h
      obtain ⟨rfl, _⟩ := List.cons.inj h
      exact hw x (List.mem_cons_self _ _)
  unfold LevelText.text
  rw [tokensOf_word_append n1.1 (hdig _ n1) (hsep _ _ e1 b1), tokensOf_blank_append b1,
    tokensOf_word_append n2.1 (hdig _ n2) (hsep _ _ e2 b2), tokensOf_blank_append b2,
    tokensOf_word_append n3.1 (hdig _ n3) (hsep _ _ e3 b3), tokensOf_blank_append b3,
    tokensOf_word_append n4.1 (hdig _ n4) (body_head_blank hcells htrail),
    tokensOf_bodyText _ _ hcells htrail, LevelText.tiles, List.map_map]
  rfl

/-! ## Reading a level description: the tiles -/

theorem bodyText_append (a b : List (List Char × Char)) :
    bodyText (a ++ b) = bodyText a ++ bodyText b := by
  induction a with
  | nil => rfl
  | cons cell a ih =>
    rw [List.cons_append, bodyText, bodyText, ih, List.append_assoc, List.cons_append]

/-- The inner tile loop on the text of correct tile tokens: it completes, consumes the tokens
and writes them into the cells `k, k + 1, ...` of row `j`. -/
theorem loadCols_text {j R C : Int} (hj : 0 ≤ j ∧ j < R) :
    ∀ (cs : List (List Char × Char)) (k : Int) (st : TileState) (rest : List Char),
      st.file = { rest := bodyText cs ++ rest, failed := false } →
      (∀ cell ∈ cs, IsBlank cell.1 ∧ isTile cell.2 = true) →
      IsGrid st.map R C → 0 ≤ k → k + cs.length ≤ C →
      ∃ st', loadCols j cs.length k st = some (some st') ∧
        st'.file = { rest := rest, failed := false } ∧
        ∀ i : Nat, i < cs.length → readCell st'.map j (k + i) = (cs[i]?).map Prod.snd
  | [], k, st, rest, hfile, _, _, _, _ =>
    ⟨st, rfl, by rw [hfile]; rfl, fun i hi => absurd hi (by simp)⟩
  | cell :: cs, k, st, rest, hfile, hcells, hg, hk, hkC => by
    obtain ⟨hblank, htile⟩ := hcells cell (List.mem_cons_self _ _)
    have hlen : ((cell :: cs).length : Int) = cs.length + 1 := by simp
    have hread : readChar st.file st.tile =
        (some cell.2, { rest := bodyText cs ++ rest, failed := false }) := by
      rw [hfile, bodyText, List.append_assoc, List.cons_append]
      exact readChar_tile hblank (not_isSpaceChar_of_isTile htile) st.tile
    obtain ⟨t0, ht0⟩ := (readCell_isSome_iff hg j k).2 ⟨hj, hk, by omega⟩
    obtain ⟨map2, hw⟩ := writeCell_of_readCell ht0 cell.2
    obtain ⟨st', hrec, hfile', hcontent⟩ := loadCols_text hj cs (k + 1)
      { file := { rest := bodyText cs ++ rest, failed := false }
        tile := some cell.2
        door := if cell.2 = '?' then true else st.door
        exitDoor := if cell.2 = '!' then true else st.exitDoor
        map := map2 } rest rfl
      (fun c hc => hcells c (List.mem_cons_of_mem _ hc)) (isGrid_writeCell hw hg)
      (by omega) (by omega)
    obtain ⟨_, _, _, hframe⟩ := loadCols_inv _ _ _ _ hrec
    dsimp only at hframe
    refine ⟨st', ?_, hfile', ?_⟩
    · rw [List.length_cons, loadCols, hread]
      dsimp only
      rw [if_neg (isTile_ne_player htile)]
      dsimp only
      rw [if_pos htile, hw]
      exact hrec
    · intro i hi
      rcases Nat.eq_zero_or_pos i with rfl | hipos
      · simp only [Nat.cast_zero, add_zero, List.getElem?_cons_zero, Option.map_some']
        rw [hframe j k (by omega), readCell_writeCell hw, if_pos ⟨rfl, rfl⟩]
      · obtain ⟨i', rfl⟩ : ∃ i', i = i' + 1 := ⟨i - 1, by omega⟩
        have := hcontent i' (by simpa using hi)
        have e : k + ((i' + 1 : Nat) : Int) = k + 1 + i' := by push_cast; ring
        rw [e, List.getElem?_cons_succ]
        exact this

/-- The outer tile loop on the text of correct tile tokens: it completes, consumes the tokens
and writes them row by row. -/
theorem loadRows_text {R C : Int} (hC : 0 ≤ C) :
    ∀ (n : Nat) (cs : List (List Char × Char)) (j : Int) (st : TileState) (rest : List Char),
      cs.length = n * C.toNat →
      st.file = { rest := bodyText cs ++ rest, failed := false } →
      (∀ cell ∈ cs, IsBlank cell.1 ∧ isTile cell.2 = true) →
      IsGrid st.map R C → 0 ≤ j → j + n ≤ R →
      ∃ st', loadRows C n j st = some (some st') ∧
        st'.file = { rest := rest, failed := false } ∧
        ∀ i c : Nat, i < n → c < C.toNat →
          readCell st'.map (j + i) c = (cs[i * C.toNat + c]?).map Prod.snd
  | 0, cs, j, st, rest, hlen, hfile, _, _, _, _ => by
    have : cs = [] := List.eq_nil_of_length_eq_zero (by simpa using hlen)
    subst this
    exact ⟨st, rfl, by rw [hfile]; rfl, fun i c hi => absurd hi (by omega)⟩
  | n + 1, cs, j, st, rest, hlen, hfile, hcells, hg, hj, hjR => by
    have hsplit : cs = cs.take C.toNat ++ cs.drop C.toNat := (List.take_append_drop _ _).symm
    have hlen' : cs.length = C.toNat + n * C.toNat := by rw [hlen]; ring
    have hla : (cs.take C.toNat).length = C.toNat := by
      rw [List.length_take]; omega
    have hlb : (cs.drop C.toNat).length = n * C.toNat := by
      rw [List.length_drop]; omega
    obtain ⟨st1, hcols, hfile1, hcontent1⟩ :=
      loadCols_text (R := R) (C := C) (j := j) (by omega) (cs.take C.toNat) 0 st
        (bodyText (cs.drop C.toNat) ++ rest)
        (by rw [← List.append_assoc, ← bodyText_append, ← hsplit]; exact hfile)
        (fun c hc => hcells c (List.mem_of_mem_take hc)) hg (le_refl _)
        (by rw [hla, Int.toNat_of_nonneg hC]; omega)
    rw [hla] at hcols hcontent1
    obtain ⟨hg1, _, _, _⟩ := loadCols_inv _ _ _ _ hcols
    obtain ⟨st', hrec, hfile', hcontent⟩ :=
      loadRows_text hC n (cs.drop C.toNat) (j + 1) st1 rest hlb hfile1
        (fun c hc => hcells c (List.mem_of_mem_drop hc)) (hg1 R C hg) (by omega)
        (by push_cast at hjR; omega)
    obtain ⟨_, _, _, hframe⟩ := loadRows_inv _ _ _ _ hrec
    refine ⟨st', ?_, hfile', ?_⟩
    · rw [loadRows, hcols]
      exact hrec
    · intro i c hi hc
      rcases Nat.eq_zero_or_pos i with rfl | hipos
      · simp only [Nat.cast_zero, add_zero, zero_mul, zero_add]
        rw [hframe j c (by omega)]
        have := hcontent1 c hc
        rw [zero_add, List.getElem?_take_of_lt hc] at this
        exact this
      · obtain ⟨i', rfl⟩ : ∃ i', i = i' + 1 := ⟨i - 1, by omega⟩
        have := hcontent i' c (by omega) hc
        have e : j + ((i' + 1 : Nat) : Int) = j + 1 + i' := by push_cast; ring
        rw [e, this, List.getElem?_drop]
        congr 2
        ring

/-! ## The first pass of loadLevel: the count of characters -/

theorem countLine_eq (line : List Char) :
    ∀ charNum : Int, countLine line charNum =
      charNum + (line.countP fun ch => decide (ch ≠ ' ')) := by
  induction line with
  | nil => intro c; simp [countLine]
  | cons a l ih =>
    intro c
    have h := ih (if a ≠ ' ' then c + 1 else c)
    unfold countLine at h ⊢
    rw [List.foldl_cons, h, List.countP_cons]
    by_cases ha : a = ' '
    · simp [ha]
    · simp [ha]; ring

/-- Cutting a text at its first newline: the characters that are neither a space nor a newline
are those of the first line that are not a space and those of the rest. -/
theorem countP_line_split (l : List Char) :
    (l.countP fun ch => decide (ch ≠ ' ' ∧ ch ≠ '\n')) =
      ((l.takeWhile fun ch => decide (ch ≠ '\n')).countP fun ch => decide (ch ≠ ' ')) +
        (((l.dropWhile fun ch => decide (ch ≠ '\n')).drop 1).countP
          fun ch => decide (ch ≠ ' ' ∧ ch ≠ '\n')) := by
  induction l with
  | nil => rfl
  | cons a l ih =>
    by_cases ha : a = '\n'
    · subst ha
      simp [List.takeWhile_cons, List.dropWhile_cons, List.countP_cons]
    · rw [List.takeWhile_cons, List.dropWhile_cons]
      simp only [ha, ne_eq, not_false_eq_true, decide_True, if_true, and_true,
        List.countP_cons]
      rw [ih]
      simp only [ne_eq]
      omega

theorem length_drop_line_lt (a : Char) (l : List Char) :
    (((a :: l).dropWhile fun ch => decide (ch ≠ '\n')).drop 1).length < (a :: l).length := by
  have h := (@List.dropWhile_sublist _ l fun ch => decide (ch ≠ '\n')).length_le
  rw [List.dropWhile_cons]
  split
  · rw [List.length_drop, List.length_cons]; omega
  · rw [List.drop_one, List.tail_cons, List.length_cons]; omega

/-- The first pass counts the characters that are neither a space nor a newline. -/
theorem countChars_eq :
    ∀ (fuel : Nat) (rest : List Char) (charNum : Int), rest.length < fuel →
      countChars fuel { rest := rest, failed := false } charNum =
        charNum + (rest.countP fun ch => decide (ch ≠ ' ' ∧ ch ≠ '\n'))
  | 0, _, _, h => absurd h (by omega)
  | fuel + 1, [], c, _ => by simp [countChars, getline]
  | fuel + 1, a :: l, c, h => by
    have hlt := length_drop_line_lt a l
    have hrec := countChars_eq fuel
      (((a :: l).dropWhile fun ch => decide (ch ≠ '\n')).drop 1)
      (countLine ((a :: l).takeWhile fun ch => decide (ch ≠ '\n')) c) (by omega)
    rw [countChars]
    simp only [getline, Bool.false_eq_true, if_false]
    rw [hrec, countLine_eq, countP_line_split (a :: l)]
    push_cast
    ring

/-- The characters of a body of tile tokens, separated by spaces and newlines, that are neither
a space nor a newline are the tiles. -/
theorem countP_bodyText (cs : List (List Char × Char)) (trail : List Char)
    (hcells : ∀ cell ∈ cs, IsGap cell.1 ∧ isTile cell.2 = true) (htrail : IsGap trail) :
    ((bodyText cs ++ trail).countP fun ch => decide (ch ≠ ' ' ∧ ch ≠ '\n')) = cs.length := by
  have hgap : ∀ w : List Char, IsGap w →
      (w.countP fun ch => decide (ch ≠ ' ' ∧ ch ≠ '\n')) = 0 := by
    intro w hw
    rw [List.countP_eq_zero]
    intro ch hch
    rcases hw ch hch with rfl | rfl <;> simp
  induction cs with
  | nil => simpa [bodyText] using hgap trail htrail
  | cons cell cs ih =>
    obtain ⟨hg, ht⟩ := hcells cell (List.mem_cons_self _ _)
    have hne : cell.2 ≠ ' ' ∧ cell.2 ≠ '\n' := by
      constructor <;> (rintro h; rw [h] at ht; revert ht; decide)
    rw [bodyText, List.append_assoc, List.cons_append, List.countP_append, hgap _ hg,
      List.countP_cons, ih (fun c hc => hcells c (List.mem_cons_of_mem _ hc))]
    simp [hne]

/-! ## loadLevel on a valid level description -/

/-- The tile loops on the body of a valid level description with positive dimensions: they
complete, the map holds the tile tokens in row-major order, and the flags tell whether a door
and an exit are among the tokens. -/
theorem loadRows_level {d : LevelText} (hv : d.Valid) (hpos : 0 < d.rows ∧ 0 < d.cols)
    {map0 : Grid} (hg : IsGrid map0 d.rows d.cols) :
    ∃ st, loadRows d.cols d.rows.toNat 0
        { file := { rest := bodyText d.cells ++ d.trail, failed := false }
          tile := none, door := false, exitDoor := false, map := map0 } = some (some st) ∧
      IsGrid st.map d.rows d.cols ∧
      (∀ r c : Nat, (r : Int) < d.rows → (c : Int) < d.cols →
        readCell st.map r c = d.tiles[r * d.cols.toNat + c]?) ∧
      (st.door = true ↔ '?' ∈ d.tiles) ∧ (st.exitDoor = true ↔ '!' ∈ d.tiles) := by
  obtain ⟨_, _, _, _, _, _, _, hcells, _, hlen⟩ := hv
  obtain ⟨R, hR⟩ := Int.eq_ofNat_of_zero_le (le_of_lt hpos.1)
  obtain ⟨C, hC⟩ := Int.eq_ofNat_of_zero_le (le_of_lt hpos.2)
  rw [hR, hC] at hlen hg hpos ⊢
  simp only [Int.toNat_ofNat]
  have hlenN : d.cells.length = R * C := by exact_mod_cast hlen
  have hCpos : 0 < C := by omega
  obtain ⟨st, hrows, _, hcontent⟩ :=
    @loadRows_text (R : Int) (C : Int) (by omega) R d.cells 0
      { file := { rest := bodyText d.cells ++ d.trail, failed := false }
        tile := none, door := false, exitDoor := false, map := map0 } d.trail
      (by rw [Int.toNat_ofNat]; exact hlenN) rfl
      (fun c hc => (hcells c hc).2) hg (le_refl _) (by omega)
  simp only [Int.toNat_ofNat, zero_add] at hcontent
  obtain ⟨hgrid, hdoor, hexit, _⟩ := loadRows_inv _ _ _ _ hrows
  simp only [Int.toNat_ofNat, zero_add, Bool.false_eq_true, false_or] at hdoor hexit
  have hcell : ∀ r c : Nat, r < R → c < C → readCell st.map r c = d.tiles[r * C + c]? := by
    intro r c hr hc
    rw [hcontent r c hr hc, LevelText.tiles, List.getElem?_map]
  have key : ∀ q : Char, (∃ i : Nat, i < R ∧ ∃ c : Nat, c < C ∧
      readCell st.map i c = some q) ↔ q ∈ d.tiles := by
    intro q
    constructor
    · rintro ⟨i, hi, c, hc, hq⟩
      rw [hcell i c hi hc] at hq
      exact List.mem_iff_getElem?.2 ⟨_, hq⟩
    · intro hq
      obtain ⟨idx, hidx⟩ := List.mem_iff_getElem?.1 hq
      have hlt : idx < R * C := by
        have := (List.getElem?_eq_some.1 hidx).1
        rw [LevelText.tiles, List.length_map, hlenN] at this
        exact this
      have hdm : idx / C * C + idx % C = idx := by
        rw [mul_comm]; exact Nat.div_add_mod idx C
      refine ⟨idx / C, (Nat.div_lt_iff_lt_mul hCpos).2 hlt, idx % C, Nat.mod_lt _ hCpos, ?_⟩
      rw [hcell _ _ ((Nat.div_lt_iff_lt_mul hCpos).2 hlt) (Nat.mod_lt _ hCpos), hdm]
      exact hidx
  refine ⟨st, hrows, hgrid _ _ hg, ?_, hdoor.trans (key '?'), hexit.trans (key '!')⟩
  intro r c hr hc
  exact hcell r c (by omega) (by omega)

/-! ## loadLevel: levels without a door or with a door and an exit -/

/-- Claim C14. For every level description with a valid header and `rows * cols` valid tile
tokens, `loadLevel` returns no grid when the tokens contain both a DOOR and an EXIT, and also
when they contain neither. -/
theorem loadLevel_fails_on_both_or_neither (d : LevelText) (hv : d.Valid)
    (h : ('?' ∈ d.tiles ∧ '!' ∈ d.tiles) ∨ ('?' ∉ d.tiles ∧ '!' ∉ d.tiles))
    (maxRow maxCol : Int) (player : Player) :
    ∃ r c p, loadLevel (some d.text) maxRow maxCol player = some (none, r, c, p) := by
  obtain ⟨s1, s2, s3, h1, h2, h3, hf2, h4⟩ := readInt_header hv
  unfold loadLevel
  simp only [h1, h2, h3, h4, hf2, Bool.false_eq_true, if_false]
  split
  · exact ⟨_, _, _, rfl⟩
  split
  · exact ⟨_, _, _, rfl⟩
  split
  · exact ⟨_, _, _, rfl⟩
  rename_i hcount hrange hdims
  obtain ⟨map0, hmap, hg0⟩ := isGrid_allocMap d.rows d.cols (by omega) (by omega)
  obtain ⟨st, hrows, hg, _, hdoor, hexit⟩ := loadRows_level hv ⟨by omega, by omega⟩ hg0
  have hflags : (st.door = true ∧ st.exitDoor = true) ∨
      (st.door = false ∧ st.exitDoor = false) := by
    rcases h with ⟨a, b⟩ | ⟨a, b⟩
    · exact Or.inl ⟨hdoor.2 a, hexit.2 b⟩
    · refine Or.inr ⟨?_, ?_⟩
      · cases hd : st.door with
        | false => rfl
        | true => exact absurd (hdoor.1 hd) a
      · cases he : st.exitDoor with
        | false => rfl
        | true => exact absurd (hexit.1 he) b
  rw [hmap]
  dsimp only
  rw [hrows]
  dsimp only
  rw [if_pos hflags]
  exact ⟨_, _, _, rfl⟩

theorem loadLevel_fails_on_both_or_neither_witness :
    ((level1x2 '?' '!').text = "1 2\n0 0\n? !\n".toList ∧
      ∃ r c p, loadLevel (some (level1x2 '?' '!').text) 0 0 ⟨0, 0, 0⟩ = some (none, r, c, p)) ∧
    ((level1x2 '-' '$').text = "1 2\n0 0\n- $\n".toList ∧
      ∃ r c p, loadLevel (some (level1x2 '-' '$').text) 0 0 ⟨0, 0, 0⟩ = some (none, r, c, p)) :=
  ⟨⟨by decide, loadLevel_fails_on_both_or_neither (level1x2 '?' '!') (by decide)
      (Or.inl (by decide)) 0 0 ⟨0, 0, 0⟩⟩,
    ⟨by decide, loadLevel_fails_on_both_or_neither (level1x2 '-' '$') (by decide)
      (Or.inr (by decide)) 0 0 ⟨0, 0, 0⟩⟩⟩

/-! ## loadLevel: a well-formed level is loaded -/

/-- Claim C17. For every well-formed level description (positive dimensions, start position
inside the map, `rows * cols` correct tiles separated by spaces and newlines, a door or an exit
but not both), `loadLevel` succeeds, sets `maxRow`, `maxCol` and the position of the player to
the values of the header, and returns a grid of `rows` by `cols` cells that holds PLAYER at the
start position and nowhere else, and at every other cell `(r, c)` the tile number
`r * cols + c` of the body. -/
theorem loadLevel_well_formed (d : LevelText) (hd : d.WellFormed) (maxRow maxCol : Int)
    (player : Player) :
    ∃ g, loadLevel (some d.text) maxRow maxCol player =
        some (some g, d.rows, d.cols,
          { player with row := d.startRow, col := d.startCol }) ∧
      IsGrid g d.rows d.cols ∧
      OnePlayerAt g d.startRow d.startCol ∧
      ∀ r c : Nat, (r : Int) < d.rows → (c : Int) < d.cols →
        ¬ ((r : Int) = d.startRow ∧ (c : Int) = d.startCol) →
        readCell g r c = d.tiles[r * d.cols.toNat + c]? := by
  obtain ⟨hv, hpos, hstart, hgaps, hgap, hdoor⟩ := hd
  obtain ⟨s1, s2, s3, h1, h2, h3, hf2, h4⟩ := readInt_header hv
  have hv' := hv
  obtain ⟨_, _, n3, n4, _, _, _, hcells, _, hlen⟩ := hv'
  have hsr : 0 ≤ d.startRow := digitsValue_nonneg n3.2
  have hsc : 0 ≤ d.startCol := digitsValue_nonneg n4.2
  have hcount : countChars ((bodyText d.cells ++ d.trail).length + 1)
      { rest := bodyText d.cells ++ d.trail, failed := false } 0 = d.rows * d.cols := by
    rw [countChars_eq _ _ _ (Nat.lt_succ_self _),
      countP_bodyText d.cells d.trail (fun c hc => ⟨hgaps c hc, (hcells c hc).2.2⟩) hgap,
      zero_add, hlen]
  obtain ⟨map0, hmap, hg0⟩ := isGrid_allocMap d.rows d.cols (by omega) (by omega)
  obtain ⟨st, hrows, hg, hcontent, hfd, hfe⟩ := loadRows_level hv hpos hg0
  have hflags : ¬ ((st.door = true ∧ st.exitDoor = true) ∨
      (st.door = false ∧ st.exitDoor = false)) := by
    rintro (⟨a, b⟩ | ⟨a, b⟩)
    · rcases hdoor with ⟨_, x⟩ | ⟨_, x⟩
      · exact x (hfe.1 b)
      · exact x (hfd.1 a)
    · rcases hdoor with ⟨x, _⟩ | ⟨x, _⟩
      · rw [hfd.2 x] at a; cases a
      · rw [hfe.2 x] at b; cases b
  obtain ⟨t0, ht0⟩ := (readCell_isSome_iff hg d.startRow d.startCol).2
    ⟨⟨hsr, hstart.1⟩, hsc, hstart.2⟩
  obtain ⟨g, hw⟩ := writeCell_of_readCell ht0 'o'
  have hgg := isGrid_writeCell hw hg
  have hread := readCell_writeCell hw
  have htile : ∀ r c : Nat, (r : Int) < d.rows → (c : Int) < d.cols →
      readCell st.map r c ≠ some 'o' := by
    intro r c hr hc hcell
    rw [hcontent r c hr hc] at hcell
    have hmem : 'o' ∈ d.tiles := List.mem_iff_getElem?.2 ⟨_, hcell⟩
    obtain ⟨cell, hcell, hsnd⟩ := List.mem_map.1 hmem
    exact isTile_ne_player (hcells cell hcell).2.2 hsnd
  refine ⟨g, ?_, hgg, ?_, ?_⟩
  · unfold loadLevel
    simp only [h1, h2, h3, h4, hf2, Bool.false_eq_true, if_false]
    rw [if_neg (not_not.2 hcount), if_neg (by omega), if_neg (by omega), hmap]
    dsimp only
    rw [hrows]
    dsimp only
    rw [if_neg hflags, hw]
  · refine onePlayerAt_of_bounded d.rows d.cols hgg ?_ ?_
    · rw [hread, if_pos ⟨rfl, rfl⟩]
    · intro i hi j hj hij
      by_contra hne
      rw [hread, if_neg hne] at hij
      exact htile i j (by omega) (by omega) hij
  · intro r c hr hc hne
    rw [hread, if_neg hne]
    exact hcontent r c hr hc

theorem loadLevel_well_formed_witness :
    level3x3.text = "3 3\n1 1\n- - -\n- - -\n- - ?\n".toList ∧ level3x3.WellFormed ∧
    loadLevel (some level3x3.text) 0 0 ⟨0, 0, 0⟩ =
      some (some [['-', '-', '-'], ['-', 'o', '-'], ['-', '-', '?']], 3, 3, ⟨1, 1, 0⟩) ∧
    ∃ g, loadLevel (some level3x3.text) 0 0 ⟨0, 0, 0⟩ =
        some (some g, level3x3.rows, level3x3.cols,
          { (⟨0, 0, 0⟩ : Player) with row := level3x3.startRow, col := level3x3.startCol }) ∧
      IsGrid g level3x3.rows level3x3.cols ∧
      OnePlayerAt g level3x3.startRow level3x3.startCol ∧
      ∀ r c : Nat, (r : Int) < level3x3.rows → (c : Int) < level3x3.cols →
        ¬ ((r : Int) = level3x3.startRow ∧ (c : Int) = level3x3.startCol) →
        readCell g r c = level3x3.tiles[r * level3x3.cols.toNat + c]? :=
  ⟨by decide, by decide, by decide, loadLevel_well_formed level3x3 (by decide) 0 0 ⟨0, 0, 0⟩⟩

/-! ## loadLevel: the count of the tile tokens -/

/-- Claim C15. A level description with a valid header for 2 by 2 cells and only two tile
tokens, with lines that end in a carriage return and a newline, is loaded: the first pass
counts the two carriage returns as tiles, and the reads past the end of the file leave the
last tile in the variable.  The same happens with three tokens and a tab. -/
theorem loadLevel_accepts_too_few_tokens :
    (tokensOf "- ?\r\n".toList = [['-'], ['?']] ∧
      loadLevel (some "2 2\r\n0 0\r\n- ?\r\n".toList) 0 0 ⟨0, 0, 0⟩ =
        some (some [['o', '?'], ['?', '?']], 2, 2, ⟨0, 0, 0⟩)) ∧
    (tokensOf "- -\n?\t".toList = [['-'], ['-'], ['?']] ∧
      loadLevel (some "2 2\n0 0\n- -\n?\t".toList) 0 0 ⟨0, 0, 0⟩ =
        some (some [['o', '-'], ['?', '?']], 2, 2, ⟨0, 0, 0⟩)) := by
  decide

/-! ## loadLevel: a player tile in the file -/

/-- Claim C16. A level description that is well formed except for a token `o` at a cell other
than the start position is not loaded: the cell is set to OPEN, and then the token is rejected
as a bad tile, the map is deleted and no grid is returned. -/
theorem loadLevel_rejects_player_token :
    loadLevel (some "2 2\n0 0\n- o\n- ?\n".toList) 0 0 ⟨0, 0, 0⟩ =
      some (none, 0, 2, ⟨0, 0, 0⟩) := by
  decide

/-! ## loadLevel: the treasure count -/

/-- Counterexample to claim C18: a level is loaded into a player record that holds 7
treasures, and the record holds 7 treasures afterwards. -/
theorem loadLevel_treasure_not_reset :
    loadLevel (some "3 3\n1 1\n- - -\n- - -\n- - ?\n".toList) 0 0 ⟨0, 0, 7⟩ =
      some (some [['-', '-', '-'], ['-', 'o', '-'], ['-', '-', '?']], 3, 3, ⟨1, 1, 7⟩) := by
  decide

/-- Claim C18, amended. After every successful `loadLevel` call the treasure count of the
player is the one that the record held before the call; it is 0 if and only if it was 0. -/
theorem loadLevel_keeps_treasure (file : Option (List Char)) (maxRow maxCol : Int)
    (player : Player) (g : Grid) (rows cols : Int) (p : Player)
    (h : loadLevel file maxRow maxCol player = some (some g, rows, cols, p)) :
    p.treasure = player.treasure ∧ (p.treasure = 0 ↔ player.treasure = 0) := by
  have := loadLevel_treasure h
  exact ⟨this, by rw [this]⟩

theorem loadLevel_keeps_treasure_witness :
    loadLevel (some "2 2\n1 0\n$ M\n- !\n".toList) 0 0 ⟨5, 5, 0⟩ =
        some (some [['$', 'M'], ['o', '!']], 2, 2, ⟨1, 0, 0⟩) ∧
      ((⟨1, 0, 0⟩ : Player).treasure = (⟨5, 5, 0⟩ : Player).treasure ∧
        ((⟨1, 0, 0⟩ : Player).treasure = 0 ↔ (⟨5, 5, 0⟩ : Player).treasure = 0)) :=
  ⟨by decide, loadLevel_keeps_treasure (some "2 2\n1 0\n$ M\n- !\n".toList) 0 0 ⟨5, 5, 0⟩
    [['$', 'M'], ['o', '!']] 2 2 ⟨1, 0, 0⟩ (by decide)⟩

/-! ## loadLevel: the start position -/

/-- The part of the start position test that works: a valid level description whose start row
is greater than the number of rows, or whose start column is greater than the number of
columns, is not loaded. -/
theorem loadLevel_start_beyond_fails (d : LevelText) (hv : d.Valid)
    (h : d.rows < d.startRow ∨ d.cols < d.startCol) (maxRow maxCol : Int) (player : Player) :
    ∃ r c p, loadLevel (some d.text) maxRow maxCol player = some (none, r, c, p) := by
  obtain ⟨s1, s2, s3, h1, h2, h3, hf2, h4⟩ := readInt_header hv
  unfold loadLevel
  simp only [h1, h2, h3, h4, hf2, Bool.false_eq_true, if_false]
  split
  · exact ⟨_, _, _, rfl⟩
  rw [if_pos (by omega)]
  exact ⟨_, _, _, rfl⟩

/-- Claim C19. A level description of 2 by 2 cells whose start row is 2 passes the test of
the start position, and so does one whose start column is 2; the PLAYER tile is then written
outside the array. -/
theorem loadLevel_start_on_the_edge_writes_outside :
    loadLevel (some "2 2\n2 0\n- -\n- ?\n".toList) 0 0 ⟨0, 0, 0⟩ = none ∧
    loadLevel (some "2 2\n0 2\n- -\n- ?\n".toList) 0 0 ⟨0, 0, 0⟩ = none ∧
    loadLevel (some "2 2\n3 0\n- -\n- ?\n".toList) 0 0 ⟨0, 0, 0⟩ =
      some (none, 2, 2, ⟨3, 0, 0⟩) :=
  ⟨by decide, by decide, by decide⟩

end Dungeon
